import Mathlib

/-!
Connect Four: the game state and the decision engine.

A shallow embedding of `ConnectFourState` with its equality and hash
(src/ConnectFourState.hpp), of the playouts, of `pMCTS_DecideColumn` and of
`Decision::toCSV` (src/ConnectFourPMCTS.hpp), and the properties of their
routines.

Modelling conventions.

* `int` values are `Int`.  The columns, the rows and the counters stay far
  below the 32-bit range.  The score of a candidate of `pMCTS_DecideColumn` is
  an `int` that grows with the number of rounds, a `long`: each addition to it
  is followed by the reduction `wrapInt32` to the range of `int`.
* The grid `std::array<std::array<char, 7>, 6>` is a function
  `Fin 6 → Fin 7 → Char`, indexed `[row][column]` like the source.
* `operator[]` on `std::array` performs no bounds check.  An access whose index
  lies outside the array is undefined behaviour in C++; the model reports it as
  the outcome `Error.outOfBounds`, so that it can never be mistaken for a
  regular result or for a thrown exception.
* A method that can throw returns `Except Error _`.  A mutating method returns
  the pair of its outcome and the object as it is when control leaves the
  method, so the effect of a call that throws is visible too.
* The two `while` loops of `_checkWinGeneral` carry a fuel counter and report
  `Error.outOfFuel` when it is spent; the theorems show this never happens.
-/

namespace ConnectFour

/-- The source's `enum class Player { X, O, None }`. -/
inductive Player where
  | X
  | O
  | None
  deriving DecidableEq, Repr

/-- Ways a call can leave the normal control flow. -/
inductive Error where
  /-- A thrown `std::invalid_argument`: the illegal-move error of `_setColumn`. -/
  | invalidArgument
  /-- A thrown `std::logic_error` (`_map_player_to_state` on `Player::None`). -/
  | logicError
  /-- An unchecked `std::array` access outside the array (undefined behaviour). -/
  | outOfBounds
  /-- A loop of the model spent its fuel. -/
  | outOfFuel
  /-- A thrown `std::runtime_error`. -/
  | runtimeError
  /-- An integer remainder by zero (undefined behaviour). -/
  | divisionByZero
  deriving DecidableEq, Repr

deriving instance DecidableEq for Except

/-- The grid type `std::array<std::array<char, 7>, 6>`, indexed `[row][column]`. -/
abbrev Grid := Fin 6 → Fin 7 → Char

def _COLUMNS : Int := 7
def _ROWS : Int := 6
def _EMPTY_STATE : Char := ' '
def _PLAYER_X_STATE : Char := 'X'
def _PLAYER_O_STATE : Char := 'O'
def _REQUIRED_CONSECUTIVE : Int := 4
def _ROW_FILLED : Int := -1

/-- The read `stateVector[row][column]`, unchecked in the source. -/
def Grid.read (g : Grid) (row column : Int) : Except Error Char :=
  if h : 0 ≤ row ∧ row < 6 ∧ 0 ≤ column ∧ column < 7 then
    .ok (g ⟨row.toNat, by omega⟩ ⟨column.toNat, by omega⟩)
  else
    .error .outOfBounds

/-- The write `stateVector[row][column] = value`, unchecked in the source. -/
def Grid.write (g : Grid) (row column : Int) (value : Char) : Except Error Grid :=
  if h : 0 ≤ row ∧ row < 6 ∧ 0 ≤ column ∧ column < 7 then
    .ok (fun r c =>
      if r = ⟨row.toNat, by omega⟩ ∧ c = ⟨column.toNat, by omega⟩ then value else g r c)
  else
    .error .outOfBounds

/-- The data members of `ConnectFourState`. -/
structure ConnectFourState where
  _current_player : Player
  _first_winner : Player
  _state : Grid
  _lastPlacedColumn : Int
  _lastPlacedRow : Int
  deriving DecidableEq

/-- The loops of `_defaultFill`: every cell becomes `_EMPTY_STATE`. -/
def _defaultFill : Grid := fun _ _ => _EMPTY_STATE

/-- The constructor `ConnectFourState::ConnectFourState()`. -/
def ConnectFourState.new : ConnectFourState :=
  { _current_player := Player.X
    _first_winner := Player.None
    _state := _defaultFill
    _lastPlacedColumn := -1
    _lastPlacedRow := -1 }

namespace ConnectFourState

/-- The method `_column_playable`: `_state[0][column] == _EMPTY_STATE`. -/
def _column_playable (s : ConnectFourState) (column : Int) : Except Error Bool := do
  let top ← s._state.read 0 column
  pure (top == _EMPTY_STATE)

/-- The loop of `_lowest_playable_row`, with `n` rows `n - 1, …, 0` left to
visit: the first Empty row met on the way up, `_ROW_FILLED` when there is none. -/
def lowestFrom (s : ConnectFourState) (column : Int) : Nat → Except Error Int
  | 0 => pure _ROW_FILLED
  | n + 1 => do
    let cell ← s._state.read (n : Int) column
    if cell == _EMPTY_STATE then pure (n : Int) else lowestFrom s column n

/-- The method `_lowest_playable_row`: the scan starts at row `_ROWS - 1`. -/
def _lowest_playable_row (s : ConnectFourState) (column : Int) : Except Error Int :=
  lowestFrom s column 6

/-- The method `_map_player_to_state`. -/
def _map_player_to_state (player : Player) : Except Error Char :=
  match player with
  | Player.X => pure _PLAYER_X_STATE
  | Player.O => pure _PLAYER_O_STATE
  | Player.None => throw Error.logicError

/-- The lambda `isCoordinateValid` of `_checkWinGeneral`. -/
def isCoordinateValid (column row : Int) : Bool :=
  decide (column ≥ 0) && decide (column < _COLUMNS) && decide (row ≥ 0) && decide (row < _ROWS)

/-- The condition shared by the two `while` loops of `_checkWinGeneral`:
`isCoordinateValid(column, row) && stateVector[row][column] == PLAYER_STATE`,
the read being skipped when the coordinate is invalid. -/
def headMatches (g : Grid) (playerState : Char) (column row : Int) : Except Error Bool :=
  if isCoordinateValid column row then do
    let cell ← g.read row column
    pure (cell == playerState)
  else
    pure false

/-- The first `while` loop of `_checkWinGeneral`: the head moves by
`(negDx, negDy)` while the next cell holds `playerState`; the result is the
head `(columnHead, rowHead)` at loop exit. -/
def walkNegative (g : Grid) (playerState : Char) (negDx negDy : Int) :
    Nat → Int → Int → Except Error (Int × Int)
  | 0, _, _ => throw Error.outOfFuel
  | fuel + 1, columnHead, rowHead => do
    if ← headMatches g playerState (columnHead + negDx) (rowHead + negDy) then
      walkNegative g playerState negDx negDy fuel (columnHead + negDx) (rowHead + negDy)
    else
      pure (columnHead, rowHead)

/-- The second `while` loop of `_checkWinGeneral`: the head moves by
`(posDx, posDy)` while the next cell holds `playerState`, counting; `true` is
the `return true` taken inside the loop once `consecutives` reaches
`_REQUIRED_CONSECUTIVE`, `false` is the loop running to its end. -/
def walkPositive (g : Grid) (playerState : Char) (posDx posDy : Int) :
    Nat → Int → Int → Int → Except Error Bool
  | 0, _, _, _ => throw Error.outOfFuel
  | fuel + 1, columnHead, rowHead, consecutives => do
    if ← headMatches g playerState (columnHead + posDx) (rowHead + posDy) then
      if consecutives + 1 ≥ _REQUIRED_CONSECUTIVE then
        pure true
      else
        walkPositive g playerState posDx posDy fuel
          (columnHead + posDx) (rowHead + posDy) (consecutives + 1)
    else
      pure false

/-- The table `SCAN_DIRECTION` of `_checkWinGeneral`, entries `(dx, dy)`. -/
def SCAN_DIRECTION : List (Int × Int) := [(0, 1), (1, 0), (1, 1), (-1, 1)]

/-- Fuel given to each `while` loop of `_checkWinGeneral`. -/
def scanFuel : Nat := 8

/-- One iteration of the `for` loop of `_checkWinGeneral`, for the direction
`(dx, dy)`: `true` when the iteration returns `true` from the function. -/
def scanAxis (g : Grid) (playerState : Char) (column row : Int) (d : Int × Int) :
    Except Error Bool := do
  let head ← walkNegative g playerState (-1 * d.1) (-1 * d.2) scanFuel column row
  walkPositive g playerState d.1 d.2 scanFuel head.1 head.2 1

/-- The `for` loop of `_checkWinGeneral` over the directions still to scan. -/
def scanAxes (g : Grid) (playerState : Char) (column row : Int) :
    List (Int × Int) → Except Error Bool
  | [] => pure false
  | d :: rest => do
    if ← scanAxis g playerState column row d then
      pure true
    else
      scanAxes g playerState column row rest

/-- The method `_checkWinGeneral`. -/
def _checkWinGeneral (stateVector : Grid) (column row : Int) : Except Error Bool := do
  let playerState ← stateVector.read row column
  if playerState == _EMPTY_STATE then
    pure false
  else
    scanAxes stateVector playerState column row SCAN_DIRECTION

/-- The method `_checkWin`. -/
def _checkWin (s : ConnectFourState) (column row : Int) : Except Error Bool :=
  _checkWinGeneral s._state column row

/-- The method `_setColumn`.  The second component is the object when control
leaves the method, by return or by exception. -/
def _setColumn (s : ConnectFourState) (column : Int) (player : Player) :
    Except Error Unit × ConnectFourState :=
  match s._column_playable column with
  | .error e => (.error e, s)
  | .ok false => (.error Error.invalidArgument, s)
  | .ok true =>
    match s._lowest_playable_row column with
    | .error e => (.error e, s)
    | .ok row =>
      match _map_player_to_state player with
      | .error e => (.error e, s)
      | .ok mark =>
        match s._state.write row column mark with
        | .error e => (.error e, s)
        | .ok grid =>
          let s1 : ConnectFourState :=
            { s with _state := grid, _lastPlacedRow := row, _lastPlacedColumn := column }
          let won : Except Error Bool :=
            if s1._first_winner = Player.None then s1._checkWin column row else pure false
          match won with
          | .error e => (.error e, s1)
          | .ok w =>
            let s2 : ConnectFourState := if w then { s1 with _first_winner := player } else s1
            (.ok (),
              { s2 with
                _current_player := if player = Player.X then Player.O else Player.X })

/-- The method `playColumn`. -/
def playColumn (s : ConnectFourState) (column : Int) : Except Error Unit × ConnectFourState :=
  s._setColumn column s._current_player

/-- The method `applyMove`: the move is played on a copy, which is returned;
an exception of `playColumn` propagates. -/
def applyMove (s : ConnectFourState) (column : Int) : Except Error ConnectFourState :=
  let newState := s
  match newState.playColumn column with
  | (.error e, _) => .error e
  | (.ok (), played) => .ok played

/-- The loop of `legalMoves` and of `isDraw` visits the columns `0, …, 6`. -/
def columnRange : List Int := [0, 1, 2, 3, 4, 5, 6]

/-- The loop of `legalMoves` over the columns still to visit, `moves` being the
vector built so far. -/
def legalMovesLoop (s : ConnectFourState) : List Int → List Int → Except Error (List Int)
  | [], moves => pure moves
  | column :: rest, moves => do
    if ← s._column_playable column then
      legalMovesLoop s rest (moves ++ [column])
    else
      legalMovesLoop s rest moves

/-- The method `legalMoves`. -/
def legalMoves (s : ConnectFourState) : Except Error (List Int) :=
  legalMovesLoop s columnRange []

/-- The loop of `isDraw` over the columns still to visit. -/
def isDrawLoop (s : ConnectFourState) : List Int → Except Error Bool
  | [] => pure true
  | col :: rest => do
    if ← s._column_playable col then pure false else isDrawLoop s rest

/-- The method `isDraw`. -/
def isDraw (s : ConnectFourState) : Except Error Bool :=
  isDrawLoop s columnRange

/-- The method `isWon`. -/
def isWon (s : ConnectFourState) : Bool :=
  decide (s._first_winner ≠ Player.None)

/-- The method `isOver`: `isWon() || isDraw()`, `isDraw` being skipped when
`isWon()` holds. -/
def isOver (s : ConnectFourState) : Except Error Bool :=
  if s.isWon then pure true else s.isDraw

/-- The accessor `firstWinner`. -/
def firstWinner (s : ConnectFourState) : Player := s._first_winner

/-- The accessor `currentPlayer`. -/
def currentPlayer (s : ConnectFourState) : Player := s._current_player

/-- The accessor `lastPlacedColumn`. -/
def lastPlacedColumn (s : ConnectFourState) : Int := s._lastPlacedColumn

/-- The accessor `lastPlacedRow`. -/
def lastPlacedRow (s : ConnectFourState) : Int := s._lastPlacedRow

/-- Plays the columns of `moves` in order with `playColumn`; the first
exception stops the sequence. -/
def playAll (s : ConnectFourState) : List Int → Except Error ConnectFourState
  | [] => .ok s
  | column :: rest =>
    match s.playColumn column with
    | (.error e, _) => .error e
    | (.ok (), played) => playAll played rest

end ConnectFourState

open ConnectFourState

/-! Definitions used to state the properties. -/

/-- Pure form of the loop condition of `_checkWinGeneral`: the coordinate lies
in the grid and the cell there holds `playerState`. -/
def cellIs (g : Grid) (playerState : Char) (column row : Int) : Bool :=
  if h : 0 ≤ row ∧ row < 6 ∧ 0 ≤ column ∧ column < 7 then
    g ⟨row.toNat, by omega⟩ ⟨column.toNat, by omega⟩ == playerState
  else
    false

/-- A window of four consecutive positions, position `0` among them, on which
`P` holds throughout: the abstract form of a run of four through a cell. -/
def windowAt (P : Int → Bool) : Prop :=
  ∃ k : Fin 4, ∀ i : Fin 4, P ((i : Int) - (k : Int)) = true

instance (P : Int → Bool) : Decidable (windowAt P) := by
  unfold windowAt
  infer_instance

/-- The pure loop condition along the line through `(column, row)` with
direction `d`, at signed distance `t` from the cell. -/
def lineIs (g : Grid) (ps : Char) (column row : Int) (d : Int × Int) (t : Int) : Bool :=
  cellIs g ps (column + t * d.1) (row + t * d.2)

/-- The four axes of the board as steps `(dx, dy)`: horizontal, vertical and
the two diagonals. -/
def axes : List (Int × Int) := [(1, 0), (0, 1), (1, 1), (-1, 1)]

/-- Four equal marks in a line through the cell `(r, c)`: the cell is not
Empty and, along some axis, four consecutive cells of the grid, the cell
`(r, c)` among them, all hold the mark of `(r, c)`. -/
def fourThrough (g : Grid) (c : Fin 7) (r : Fin 6) : Prop :=
  g r c ≠ _EMPTY_STATE ∧
    ∃ d ∈ axes, ∃ k : Fin 4, ∀ i : Fin 4,
      g.read ((r : Int) + ((i : Int) - (k : Int)) * d.2)
        ((c : Int) + ((i : Int) - (k : Int)) * d.1) = .ok (g r c)

instance (g : Grid) (c : Fin 7) (r : Fin 6) : Decidable (fourThrough g c r) := by
  unfold fourThrough
  infer_instance

/-- The grid `g` with `mark` stored at `(r, c)`. -/
def placed (g : Grid) (r : Fin 6) (c : Fin 7) (mark : Char) : Grid :=
  fun r' c' => if r' = r ∧ c' = c then mark else g r' c'

/-- The object after a successful `_setColumn` that stored `mark` at `(r, c)`
for `player`. -/
def afterMove (s : ConnectFourState) (c : Fin 7) (r : Fin 6) (player : Player) (mark : Char) :
    ConnectFourState :=
  { _current_player := if player = Player.X then Player.O else Player.X
    _first_winner :=
      if s._first_winner = Player.None ∧ fourThrough (placed s._state r c mark) c r then player
      else s._first_winner
    _state := placed s._state r c mark
    _lastPlacedColumn := (c : Int)
    _lastPlacedRow := (r : Int) }

/-- No Empty cell lies below an occupied cell of the same column. -/
def Gravity (g : Grid) : Prop :=
  ∀ (c : Fin 7) (r r' : Fin 6), r < r' → g r c ≠ _EMPTY_STATE → g r' c ≠ _EMPTY_STATE

instance (g : Grid) : Decidable (Gravity g) := by
  unfold Gravity
  infer_instance

/-- The invariant of the states built by the constructor and `playColumn`: the
current player is X or O, and the grid obeys `Gravity`. -/
def WellFormed (s : ConnectFourState) : Prop :=
  s._current_player ≠ Player.None ∧ Gravity s._state

instance (s : ConnectFourState) : Decidable (WellFormed s) := by
  unfold WellFormed
  infer_instance

/-- The number of occupied cells of column `c`. -/
def piecesInColumn (g : Grid) (c : Fin 7) : Nat :=
  (List.finRange 6).countP (fun r => g r c != _EMPTY_STATE)

/-- The state a new game is in after `moves`, the new game itself when one of
the moves is rejected. -/
def stateAfter (moves : List Int) : ConnectFourState :=
  match ConnectFourState.new.playAll moves with
  | .ok s => s
  | .error _ => ConnectFourState.new

/-- The other player: X for O and O for X. -/
def opponent : Player → Player
  | Player.X => Player.O
  | Player.O => Player.X
  | Player.None => Player.None

/-- A complete game of 42 moves in which nobody has four in a line before the
last move, and the last move (O, column 3, top row) completes a diagonal. -/
def lastMoveWinGame : List Int :=
  [0, 4, 1, 2, 4, 2, 3, 0, 3, 5, 4, 0, 5, 5, 3, 4, 0, 2, 5, 5, 0,
   4, 5, 4, 6, 3, 2, 2, 0, 2, 1, 6, 1, 1, 3, 1, 1, 6, 6, 6, 6, 3]

/-- A complete game of 42 moves that fills the board with no four in a line. -/
def drawnGame : List Int :=
  [4, 6, 6, 4, 0, 6, 0, 6, 1, 3, 4, 5, 6, 1, 5, 3, 1, 0, 2, 0, 3,
   3, 1, 0, 0, 3, 3, 6, 2, 2, 1, 4, 5, 1, 4, 4, 5, 5, 5, 2, 2, 2]

/-- Plays the columns of `moves` in order and records the last placed cell
`(column, row)` after each move. -/
def landings (s : ConnectFourState) : List Int → Except Error (List (Int × Int))
  | [] => .ok []
  | column :: rest =>
    match s.playColumn column with
    | (.error e, _) => .error e
    | (.ok (), played) =>
      (landings played rest).map
        (fun cells => (played.lastPlacedColumn, played.lastPlacedRow) :: cells)

/-! The playouts and the decision engine (src/ConnectFourPMCTS.hpp), with
`potentialWins` of `ConnectFourState`.

* The process-wide random source is the sequence `rand` of the values that the
  successive calls of `rand()` return; a function that calls `rand()` takes the
  number of calls made so far and returns the number made when it ends.
* The clock is the sequence `clock` of the millisecond counts that the
  successive readings taken after `START_TIME` give.
* A `double` is the rational number it denotes.  The literal `0.1` is the
  `double` nearest to 1/10; it is above 1/10 and no `double` lies between the
  two, so for a `double` budget the test `MAX_SECONDS < 0.1` is the test
  against 1/10.  The two floating-point operations of the decision, `MAX_SECONDS
  * 1000` and `MS_TIME_SPENT / 1000`, are parameters of the model.
* A score is an `int` in the source and an `Int` here; the two agree while
  fewer than `2 ^ 31` rounds have run, which the properties of the selection
  assume.  The `long` counters are never near the end of their range.
* The loops of the playouts and the outer loop of the decision carry a fuel
  counter.  The theorems show that a playout never spends it, and that the
  decision does not when its cutoff fires within the fuel.
* Printing (`PRINT_STATISTICS`) is left out. -/

/-- The loop of `potentialWins` over the legal columns still to try,
`winningColumns` being the vector built so far. -/
def ConnectFourState.potentialWinsLoop (s : ConnectFourState) (player : Player) :
    List Int → List Int → Except Error (List Int)
  | [], winningColumns => pure winningColumns
  | column :: rest, winningColumns => do
    let testState ← s.applyMove column
    if testState.firstWinner = player then
      potentialWinsLoop s player rest (winningColumns ++ [column])
    else
      potentialWinsLoop s player rest winningColumns

/-- The method `potentialWins`. -/
def ConnectFourState.potentialWins (s : ConnectFourState) (player : Player) :
    Except Error (List Int) := do
  let moves ← s.legalMoves
  s.potentialWinsLoop player moves []

/-- The source's `enum class PlaythroughMode { RANDOM, HEURISTIC }`. -/
inductive PlaythroughMode where
  | RANDOM
  | HEURISTIC
  deriving DecidableEq, Repr

/-- The source's `enum class DecisionCutoff { TIME, ITERATIONS }`. -/
inductive DecisionCutoff where
  | TIME
  | ITERATIONS
  deriving DecidableEq, Repr

/-- The data members of `Decision`; the constructor sets `turn` to `-1`. -/
structure Decision where
  player : Player
  mode : PlaythroughMode
  cutoff : DecisionCutoff
  column : Int
  possibleColumns : Int
  score : Int
  playthroughs : Int
  time : ℚ
  turn : Int
  deriving DecidableEq

/-- What the decision engine takes from outside the program. -/
structure Env where
  /-- The value returned by the `n`-th call of `rand()`, counted from `0`. -/
  rand : Nat → Nat
  /-- The milliseconds since `START_TIME` at the `n`-th reading of the clock. -/
  clock : Nat → Int
  /-- The `double` product `MAX_SECONDS * 1000`. -/
  timesThousand : ℚ → ℚ
  /-- The `long double` quotient `MS_TIME_SPENT / 1000`. -/
  overThousand : Int → ℚ

/-- The function `randomElement`: `container[rand() % container.size()]`, and
`std::runtime_error` on an empty container.  The second component counts the
calls of `rand()`. -/
def randomElement {T : Type} (rand : Nat → Nat) (calls : Nat) (container : List T) :
    Except Error (T × Nat) :=
  if !container.isEmpty then
    match container[rand calls % container.length]? with
    | some element => .ok (element, calls + 1)
    | none => .error Error.outOfBounds
  else
    .error Error.runtimeError

/-- The `while` loop of `pMCTS_RandomPlaythrough`; one unit of fuel is spent
on each test of the loop condition. -/
def randomPlaythroughLoop (rand : Nat → Nat) :
    Nat → ConnectFourState → Nat → Except Error (ConnectFourState × Nat)
  | 0, _, _ => .error Error.outOfFuel
  | fuel + 1, runningState, calls => do
    if ← runningState.isOver then
      pure (runningState, calls)
    else
      let legalColumns ← runningState.legalMoves
      if legalColumns.length = 0 then
        throw Error.divisionByZero
      else
        match legalColumns[rand calls % legalColumns.length]? with
        | none => throw Error.outOfBounds
        | some randomColumn =>
          match runningState.playColumn randomColumn with
          | (.error e, _) => throw e
          | (.ok (), played) => randomPlaythroughLoop rand fuel played (calls + 1)

/-- Fuel given to the loop of a playout: more than the cells of the board. -/
def playoutFuel : Nat := 43

/-- The function `pMCTS_RandomPlaythrough`. -/
def pMCTS_RandomPlaythrough (rand : Nat → Nat) (START_STATE : ConnectFourState) (calls : Nat) :
    Except Error (ConnectFourState × Nat) :=
  randomPlaythroughLoop rand playoutFuel START_STATE calls

/-- The body of the `while` loop of `pMCTS_HeuristicPlaythrough` up to the
choice of `bestColumn`. -/
def heuristicColumn (rand : Nat → Nat) (runningState : ConnectFourState) (calls : Nat) :
    Except Error (Int × Nat) := do
  let curr := runningState.currentPlayer
  let other := if curr = Player.X then Player.O else Player.X
  let currentPlayerPotentialWins ← runningState.potentialWins curr
  if !currentPlayerPotentialWins.isEmpty then
    randomElement rand calls currentPlayerPotentialWins
  else
    let otherPlayerPotentialWins ← runningState.potentialWins other
    if !otherPlayerPotentialWins.isEmpty then
      randomElement rand calls otherPlayerPotentialWins
    else
      let legalColumns ← runningState.legalMoves
      randomElement rand calls legalColumns

/-- The `while` loop of `pMCTS_HeuristicPlaythrough`; one unit of fuel is
spent on each test of the loop condition. -/
def heuristicPlaythroughLoop (rand : Nat → Nat) :
    Nat → ConnectFourState → Nat → Except Error (ConnectFourState × Nat)
  | 0, _, _ => .error Error.outOfFuel
  | fuel + 1, runningState, calls => do
    if ← runningState.isOver then
      pure (runningState, calls)
    else
      let (bestColumn, calls') ← heuristicColumn rand runningState calls
      match runningState.playColumn bestColumn with
      | (.error e, _) => throw e
      | (.ok (), played) => heuristicPlaythroughLoop rand fuel played calls'

/-- The function `pMCTS_HeuristicPlaythrough`. -/
def pMCTS_HeuristicPlaythrough (rand : Nat → Nat) (START_STATE : ConnectFourState)
    (calls : Nat) : Except Error (ConnectFourState × Nat) :=
  heuristicPlaythroughLoop rand playoutFuel START_STATE calls

/-- An element of `childStates`: `first` is the column, `second.first` the
state after the move and `second.second` the score. -/
structure Candidate where
  column : Int
  child : ConnectFourState
  score : Int
  deriving DecidableEq

/-- The loop of `pMCTS_DecideColumn` that fills `childStates`. -/
def childStatesLoop (STATE : ConnectFourState) :
    List Int → List Candidate → Except Error (List Candidate)
  | [], childStates => pure childStates
  | playableColumn :: rest, childStates => do
    let child ← STATE.applyMove playableColumn
    childStatesLoop STATE rest (childStates ++ [⟨playableColumn, child, 0⟩])

/-- The playout chosen by `MODE` in the inner loop of `pMCTS_DecideColumn`. -/
def playthrough (rand : Nat → Nat) (MODE : PlaythroughMode) (child : ConnectFourState)
    (calls : Nat) : Except Error (ConnectFourState × Nat) :=
  if MODE = PlaythroughMode.RANDOM then pMCTS_RandomPlaythrough rand child calls
  else pMCTS_HeuristicPlaythrough rand child calls

/-- The value an `int` variable holds when the exact result of an addition
is `value`: `value` itself inside the range of `int`, and outside it the
residue in that range, which is what the 32-bit two's-complement addition of
the compiled program leaves.  In C++ such an overflow is undefined behaviour. -/
def wrapInt32 (value : Int) : Int :=
  (value + 2 ^ 31) % 2 ^ 32 - 2 ^ 31

/-- The amount added to `currentColumnScore` for a playout whose terminal
`firstWinner` is `winner`. -/
def scoreChange (DECIDING_PLAYER OTHER_PLAYER winner : Player) : Int :=
  if winner = DECIDING_PLAYER then 1
  else if winner = OTHER_PLAYER then -1
  else 1

/-- What one pass of the inner loop of `pMCTS_DecideColumn` leaves. -/
structure Round where
  childStates : List Candidate
  /-- The `FIRST_WINNER` of the playout of each candidate, in order.  The
  source does not keep these values; they are recorded to state properties
  and nothing is computed from them. -/
  winners : List Player
  calls : Nat
  playthroughs : Int

/-- The inner `for` loop of `pMCTS_DecideColumn` over the candidates still to
visit: one playout for each, its score (`int& currentColumnScore`) updated in
place by `+= 1` or `+= -1`. -/
def roundLoop (rand : Nat → Nat) (MODE : PlaythroughMode)
    (DECIDING_PLAYER OTHER_PLAYER : Player) :
    List Candidate → Nat → Int → Except Error Round
  | [], calls, playthroughs => pure ⟨[], [], calls, playthroughs⟩
  | candidate :: rest, calls, playthroughs => do
    let (final, calls') ← playthrough rand MODE candidate.child calls
    let FIRST_WINNER := final.firstWinner
    let updated : Candidate :=
      { candidate with
        score :=
          wrapInt32 (candidate.score + scoreChange DECIDING_PLAYER OTHER_PLAYER FIRST_WINNER) }
    let others ← roundLoop rand MODE DECIDING_PLAYER OTHER_PLAYER rest calls' (playthroughs + 1)
    pure ⟨updated :: others.childStates, FIRST_WINNER :: others.winners, others.calls,
      others.playthroughs⟩

/-- The variables of `pMCTS_DecideColumn` at a test of the outer loop. -/
structure Search where
  childStates : List Candidate
  playthroughs : Int
  iteration : Nat
  /-- The number of calls of `rand()` so far. -/
  calls : Nat
  /-- The number of readings of the clock so far. -/
  readings : Nat
  /-- The rows of `Round.winners`, one for each pass of the inner loop. -/
  winners : List (List Player)

/-- The condition of the outer `for` loop of `pMCTS_DecideColumn`; the clock
is read only under the time cutoff. -/
def continues (clock : Nat → Int) (CUTOFF_ON_TIME : Bool) (MAX_MILLISECONDS : ℚ)
    (MINIMUM_ITERATIONS : Int) (iteration readings : Nat) : Bool :=
  (CUTOFF_ON_TIME && decide (((clock readings : Int) : ℚ) ≤ MAX_MILLISECONDS)) ||
    (!CUTOFF_ON_TIME && decide ((iteration : Int) < MINIMUM_ITERATIONS))

/-- The number of clock readings after a test of the outer loop condition. -/
def afterTest (CUTOFF_ON_TIME : Bool) (readings : Nat) : Nat :=
  if CUTOFF_ON_TIME then readings + 1 else readings

/-- The outer `for` loop of `pMCTS_DecideColumn`; one unit of fuel is spent on
each pass. -/
def roundsLoop (env : Env) (MODE : PlaythroughMode) (DECIDING_PLAYER OTHER_PLAYER : Player)
    (CUTOFF_ON_TIME : Bool) (MAX_MILLISECONDS : ℚ) (MINIMUM_ITERATIONS : Int) :
    Nat → Search → Except Error Search
  | 0, search =>
    if continues env.clock CUTOFF_ON_TIME MAX_MILLISECONDS MINIMUM_ITERATIONS
        search.iteration search.readings then
      .error Error.outOfFuel
    else
      pure { search with readings := afterTest CUTOFF_ON_TIME search.readings }
  | fuel + 1, search =>
    if continues env.clock CUTOFF_ON_TIME MAX_MILLISECONDS MINIMUM_ITERATIONS
        search.iteration search.readings then do
      let round ← roundLoop env.rand MODE DECIDING_PLAYER OTHER_PLAYER search.childStates
        search.calls search.playthroughs
      roundsLoop env MODE DECIDING_PLAYER OTHER_PLAYER CUTOFF_ON_TIME MAX_MILLISECONDS
        MINIMUM_ITERATIONS fuel
        { childStates := round.childStates
          playthroughs := round.playthroughs
          iteration := search.iteration + 1
          calls := round.calls
          readings := afterTest CUTOFF_ON_TIME search.readings
          winners := search.winners ++ [round.winners] }
    else
      pure { search with readings := afterTest CUTOFF_ON_TIME search.readings }

/-- The value of `INT_MIN`. -/
def INT_MIN : Int := -2147483648

/-- The selection loop of `pMCTS_DecideColumn` over the candidates still to
visit; the result is `(bestColumn, bestScore)` and the number of calls of
`rand()`.  The coin is flipped only when the scores are equal. -/
def selectLoop (rand : Nat → Nat) : List Candidate → Int → Int → Nat → Int × Int × Nat
  | [], bestColumn, bestScore, calls => (bestColumn, bestScore, calls)
  | candidate :: rest, bestColumn, bestScore, calls =>
    if candidate.score > bestScore then
      selectLoop rand rest candidate.column candidate.score calls
    else if candidate.score = bestScore then
      if rand calls % 2 = 0 then
        selectLoop rand rest candidate.column candidate.score (calls + 1)
      else
        selectLoop rand rest bestColumn bestScore (calls + 1)
    else
      selectLoop rand rest bestColumn bestScore calls

/-- The first part of `pMCTS_DecideColumn`: the two guards, the candidates and
the outer loop.  `fuel` bounds the number of passes of the outer loop. -/
def searchRounds (env : Env) (fuel : Nat) (STATE : ConnectFourState) (MODE : PlaythroughMode)
    (MAX_SECONDS : ℚ) (CUTOFF : DecisionCutoff) (MINIMUM_ITERATIONS : Int) :
    Except Error Search := do
  if ← STATE.isOver then
    throw Error.runtimeError
  else if MAX_SECONDS < 1 / 10 then
    throw Error.invalidArgument
  else
    let DECIDING_PLAYER := STATE.currentPlayer
    let OTHER_PLAYER := if Player.X = DECIDING_PLAYER then Player.O else Player.X
    let MAX_MILLISECONDS := env.timesThousand MAX_SECONDS
    let CUTOFF_ON_TIME := decide (CUTOFF = DecisionCutoff.TIME)
    let legalColumns ← STATE.legalMoves
    let childStates ← childStatesLoop STATE legalColumns []
    roundsLoop env MODE DECIDING_PLAYER OTHER_PLAYER CUTOFF_ON_TIME MAX_MILLISECONDS
      MINIMUM_ITERATIONS fuel
      { childStates := childStates
        playthroughs := 0
        iteration := 0
        calls := 0
        readings := 0
        winners := [] }

/-- The function `pMCTS_DecideColumn`: after the search, the time spent is
read, the best candidate is selected and the `Decision` is built. -/
def pMCTS_DecideColumn (env : Env) (fuel : Nat) (STATE : ConnectFourState)
    (MODE : PlaythroughMode) (MAX_SECONDS : ℚ) (CUTOFF : DecisionCutoff)
    (MINIMUM_ITERATIONS : Int) : Except Error Decision := do
  let search ← searchRounds env fuel STATE MODE MAX_SECONDS CUTOFF MINIMUM_ITERATIONS
  let MS_TIME_SPENT := env.clock search.readings
  let best := selectLoop env.rand search.childStates (-1) INT_MIN search.calls
  pure
    { player := STATE.currentPlayer
      mode := MODE
      cutoff := CUTOFF
      column := best.1
      possibleColumns := (search.childStates.length : Int)
      score := best.2.1
      playthroughs := search.playthroughs
      time := env.overThousand MS_TIME_SPENT
      turn := -1 }


/-! Definitions used to state the properties of the playouts and of the
decision engine. -/

/-- The number of occupied cells of the grid. -/
def occupiedCells (g : Grid) : Nat :=
  (Finset.univ.filter (fun p : Fin 6 × Fin 7 => g p.1 p.2 ≠ _EMPTY_STATE)).card

/-- Dropping the mark of `player` into column `c` completes four in a line:
the top cell of the column is Empty and, with the mark stored in the lowest
Empty row, four equal marks lie in a line through the new cell. -/
def completesFour (s : ConnectFourState) (player : Player) (c : Fin 7) : Prop :=
  s._state 0 c = _EMPTY_STATE ∧
    ∃ r : Fin 6, s._state r c = _EMPTY_STATE ∧
      (∀ j : Fin 6, r < j → s._state j c ≠ _EMPTY_STATE) ∧
      ((player = Player.X ∧ fourThrough (placed s._state r c _PLAYER_X_STATE) c r) ∨
        (player = Player.O ∧ fourThrough (placed s._state r c _PLAYER_O_STATE) c r))

instance (s : ConnectFourState) (player : Player) (c : Fin 7) :
    Decidable (completesFour s player c) := by
  unfold completesFour
  infer_instance

/-- Whether `applyMove(c)` returns a state whose `firstWinner` is `player`. -/
def applyWins (s : ConnectFourState) (player : Player) (c : Fin 7) : Bool :=
  match s.applyMove c with
  | .ok testState => decide (testState.firstWinner = player)
  | .error _ => false

/-- The state `applyMove(c)` returns, the state itself when the call throws. -/
def childOf (s : ConnectFourState) (c : Fin 7) : ConnectFourState :=
  match s.applyMove c with
  | .ok child => child
  | .error _ => s

/-- A game of six moves after which it is X's turn, X has no winning move and
O has three marks in column 3 with the cell above them Empty. -/
def threatState : ConnectFourState :=
  stateAfter [0, 3, 0, 3, 1, 3]

/-- The candidate after a playout of it whose terminal `firstWinner` is
`winner`: `scoreChange` is added to the `int` score, nothing else changes. -/
def bump (DECIDING_PLAYER OTHER_PLAYER : Player) (candidate : Candidate) (winner : Player) :
    Candidate :=
  { candidate with
    score := wrapInt32 (candidate.score + scoreChange DECIDING_PLAYER OTHER_PLAYER winner) }

/-- The candidates after the rounds whose playouts ended with the winners
`rows`, one row for each round and one entry for each candidate. -/
def applyRounds (DECIDING_PLAYER OTHER_PLAYER : Player) (candidates : List Candidate)
    (rows : List (List Player)) : List Candidate :=
  rows.foldl (fun cs row => List.zipWith (bump DECIDING_PLAYER OTHER_PLAYER) cs row) candidates

/-- The candidates before the first round: one for each playable column, in
order, with the state after the move and the score `0`. -/
def initialCandidates (s : ConnectFourState) : List Candidate :=
  ((List.finRange 7).filter (fun c => s._state 0 c == _EMPTY_STATE)).map
    (fun c : Fin 7 => ⟨(c : Int), childOf s c, 0⟩)

/-- The `FIRST_WINNER` of the playout of candidate `i` in the round `row`. -/
def winnerAt (row : List Player) (i : Nat) : Player :=
  row.getD i Player.None

/-- The player `OTHER_PLAYER` of `pMCTS_DecideColumn` for the root `s`. -/
def otherPlayer (s : ConnectFourState) : Player :=
  if Player.X = s.currentPlayer then Player.O else Player.X

/-- The outer loop of `pMCTS_DecideColumn` stops within `fuel` passes: at
some test `j ≤ fuel` its condition is false. -/
def cutoffFires (env : Env) (fuel : Nat) (MAX_SECONDS : ℚ) (CUTOFF : DecisionCutoff)
    (MINIMUM_ITERATIONS : Int) : Prop :=
  ∃ j : Nat, j ≤ fuel ∧
    continues env.clock (decide (CUTOFF = DecisionCutoff.TIME)) (env.timesThousand MAX_SECONDS)
      MINIMUM_ITERATIONS j j = false

/-- The first test of the condition of the outer loop of `pMCTS_DecideColumn`:
under the iteration cutoff `0 < MINIMUM_ITERATIONS`, under the time cutoff the
first reading of the clock is within the budget. -/
def firstTest (env : Env) (MAX_SECONDS : ℚ) (CUTOFF : DecisionCutoff)
    (MINIMUM_ITERATIONS : Int) : Bool :=
  continues env.clock (decide (CUTOFF = DecisionCutoff.TIME)) (env.timesThousand MAX_SECONDS)
    MINIMUM_ITERATIONS 0 0

/-- An environment for the instances below: `rand()` returns 3, 10, 17, …,
the clock advances by 60 milliseconds at each reading, and the two
floating-point operations are exact. -/
def sampleEnv : Env :=
  { rand := fun n => n * 7 + 3
    clock := fun n => 60 * (n : Int)
    timesThousand := fun x => x * 1000
    overThousand := fun ms => (ms : ℚ) / 1000 }

/-- The state after the first 39 moves of `drawnGame`: the game is not over
and column 2 is the only legal move. -/
def oneMoveState : ConnectFourState :=
  stateAfter (drawnGame.take 39)

/-! Copy assignment, equality and hash of `ConnectFourState`
(src/ConnectFourState.hpp) and `Decision::toCSV` (src/ConnectFourPMCTS.hpp).

* A `size_t` is a natural number below `2 ^ 64`, an `unsigned int` one below
  `2 ^ 32`; every operation on them is followed by the reduction it has in the
  source.  An `int` converted to `size_t` is its residue modulo `2 ^ 64`.
* A `std::string` is the list of its characters.  `std::to_string` on an `int`
  or a `long` is the decimal text of the value, with a leading `-` for a
  negative one.  `std::to_string` on a `double` or a `long double` is a
  parameter of the model (`DoubleText`). -/

/-- The method `_deepcopy`: the three assignments made when `this != &state`.
When the two are one object the source does nothing, which leaves the same
value. -/
def ConnectFourState._deepcopy (self state : ConnectFourState) : ConnectFourState :=
  { self with
    _current_player := state._current_player
    _first_winner := state._first_winner
    _state := state._state }

/-- The operator `operator=`: the object after `self = state`. -/
def ConnectFourState.operatorAssign (self state : ConnectFourState) : ConnectFourState :=
  self._deepcopy state

/-- The operator `operator==`.  Its last operand is
`(_lastPlacedRow && rhs._lastPlacedRow)`, the conjunction of two `int` values
taken as truth values. -/
def ConnectFourState.operatorEq (self rhs : ConnectFourState) : Bool :=
  decide (self._current_player = rhs._current_player) && decide (self._state = rhs._state) &&
    decide (self._lastPlacedColumn = rhs._lastPlacedColumn) &&
    (decide (self._lastPlacedRow ≠ 0) && decide (rhs._lastPlacedRow ≠ 0))

/-- The accessor `state`. -/
def ConnectFourState.state (s : ConnectFourState) : Grid := s._state

/-- The conversion of an `int` to `size_t`. -/
def toSizeT (value : Int) : Nat := (value % 2 ^ 64).toNat

/-- One pass of the inner loop of the hash:
`state_code ^= pieces[row][column] + 0x9e3779b9 + (state_code << 6) + (state_code >> 2)`.
The first sum is made in `unsigned int`, the other two in `size_t`. -/
def hashCell (state_code : Nat) (piece : Char) : Nat :=
  state_code ^^^
    ((((piece.toNat + 0x9e3779b9) % 2 ^ 32 + (state_code <<< 6) % 2 ^ 64) % 2 ^ 64 +
      (state_code >>> 2)) % 2 ^ 64)

/-- The two loops of the hash over the rows and the columns, from
`state_code = pieces.size()`. -/
def stateCode (pieces : Grid) : Nat :=
  (List.finRange 6).foldl
    (fun code row => (List.finRange 7).foldl (fun code column => hashCell code (pieces row column)) code)
    6

/-- The value `player_code` of the hash. -/
def playerCode (player : Player) : Nat :=
  if player = Player.X then 1 else if player = Player.O then 2 else 3

/-- The function `std::hash<ConnectFourState>::operator()`. -/
def hash (state : ConnectFourState) : Nat :=
  (((playerCode state.currentPlayer + stateCode state.state) % 2 ^ 64 +
      toSizeT state.lastPlacedColumn) % 2 ^ 64 + toSizeT state.lastPlacedRow) % 2 ^ 64

/-- The function `ConnectFourState::playerToString`. -/
def playerToString (player : Player) : List Char :=
  if player = Player.X then ['X'] else if player = Player.O then ['O'] else [' ']

/-- The decimal digits of `n`, the most significant first, with `fuel` more
digits allowed before the last one. -/
def decimalDigits : Nat → Nat → List Char
  | 0, n => [Nat.digitChar (n % 10)]
  | fuel + 1, n =>
    if n < 10 then [Nat.digitChar n] else decimalDigits fuel (n / 10) ++ [Nat.digitChar (n % 10)]

/-- The text `std::to_string` gives for an `int` or a `long`. -/
def to_string (value : Int) : List Char :=
  if value < 0 then '-' :: decimalDigits value.natAbs value.natAbs
  else decimalDigits value.natAbs value.natAbs

/-- The texts `std::to_string` gives for the two floating-point values of
`toCSV`. -/
structure DoubleText where
  /-- The text of the `double` `time`. -/
  ofTime : ℚ → List Char
  /-- The text of the `long double` `playthroughs / time`. -/
  ofQuotient : Int → ℚ → List Char

/-- The method `Decision::toCSV`. -/
def Decision.toCSV (text : DoubleText) (d : Decision) : List Char :=
  let PLAYER_REPR := playerToString d.player
  let MODE_REPR := if d.mode = PlaythroughMode.RANDOM then "RANDOM".toList else "HEURISTIC".toList
  let CUTOFF_REPR :=
    if d.cutoff = DecisionCutoff.ITERATIONS then "ITERATIONS".toList else "TIME".toList
  to_string d.turn ++ [','] ++ PLAYER_REPR ++ [','] ++ MODE_REPR ++ [','] ++ CUTOFF_REPR ++ [','] ++
    to_string d.column ++ [','] ++ to_string d.possibleColumns ++ [','] ++ to_string d.score ++
    [','] ++ to_string d.playthroughs ++ [','] ++ text.ofTime d.time ++ [','] ++
    text.ofQuotient d.playthroughs d.time

/-! Definitions used to state the properties of equality, hash and `toCSV`. -/

/-- The fields of a line: the texts between its commas. -/
def splitCommas : List Char → List (List Char)
  | [] => [[]]
  | c :: rest =>
    if c = ',' then [] :: splitCommas rest
    else
      match splitCommas rest with
      | [] => [[c]]
      | field :: fields => (c :: field) :: fields

/-- The value of a decimal digit. -/
def digitValue (c : Char) : Option Nat :=
  if '0' ≤ c ∧ c ≤ '9' then some (c.toNat - '0'.toNat) else none

/-- The natural number written by the digits `text` after the digits that gave
`value`; no result when a character is not a digit. -/
def parseDigits (value : Nat) : List Char → Option Nat
  | [] => some value
  | c :: rest =>
    match digitValue c with
    | some d => parseDigits (value * 10 + d) rest
    | none => none

/-- The integer written in decimal by `text`: digits, at least one, after an
optional `-`. -/
def parseInt (text : List Char) : Option Int :=
  match text with
  | [] => none
  | c :: rest =>
    if c = '-' then
      if rest = [] then none
      else
        match parseDigits 0 rest with
        | some n => some (-(n : Int))
        | none => none
    else
      match parseDigits 0 (c :: rest) with
      | some n => some (n : Int)
      | none => none

/-- Four equal marks in a line somewhere on the board: from a cell that is not
Empty, four consecutive cells of the grid along some axis all hold its mark. -/
def fourAnywhere (g : Grid) : Prop :=
  ∃ (r : Fin 6) (c : Fin 7), g r c ≠ _EMPTY_STATE ∧
    ∃ d ∈ axes, ∀ i : Fin 4,
      g.read ((r : Int) + (i : Int) * d.2) ((c : Int) + (i : Int) * d.1) = .ok (g r c)

instance (g : Grid) : Decidable (fourAnywhere g) := by
  unfold fourAnywhere
  infer_instance

/-- Two games of five moves that give the same grid with different last
moves: X in column 1 on row 4, and X in column 0 on row 5. -/
def orderA : List Int := [3, 1, 0, 4, 1]

/-- The second game of the pair, see `orderA`. -/
def orderB : List Int := [3, 1, 1, 4, 0]

/-- A `DoubleText` for the instances below; the texts are not those of
`std::to_string`. -/
def sampleText : DoubleText :=
  { ofTime := fun _ => "0.000000".toList
    ofQuotient := fun _ _ => "0.000000".toList }

/-- A decision with a negative score whose `turn` is still the `-1` of the
constructor. -/
def sampleDecision : Decision :=
  { player := Player.X
    mode := PlaythroughMode.HEURISTIC
    cutoff := DecisionCutoff.TIME
    column := 3
    possibleColumns := 7
    score := -12
    playthroughs := 700
    time := 1 / 2
    turn := -1 }

/-! Lemmas on the loops and on `_setColumn`, then the properties. -/

/-- An access inside the grid reads the cell. -/
theorem read_fin (g : Grid) (r : Fin 6) (c : Fin 7) :
    g.read (r : Int) (c : Int) = .ok (g r c) := by
  have hr := r.isLt
  have hc := c.isLt
  unfold Grid.read
  rw [dif_pos (by omega)]
  simp

/-- An access outside the grid is the out-of-bounds outcome. -/
theorem read_outside (g : Grid) (row column : Int)
    (h : ¬ (0 ≤ row ∧ row < 6 ∧ 0 ≤ column ∧ column < 7)) :
    g.read row column = .error Error.outOfBounds := by
  unfold Grid.read
  rw [dif_neg h]

/-- The loop condition never reads outside the grid: its value is `cellIs`. -/
theorem headMatches_eq (g : Grid) (ps : Char) (column row : Int) :
    headMatches g ps column row = .ok (cellIs g ps column row) := by
  unfold headMatches isCoordinateValid cellIs Grid.read _COLUMNS _ROWS
  by_cases h : 0 ≤ row ∧ row < 6 ∧ 0 ≤ column ∧ column < 7
  · obtain ⟨h1, h2, h3, h4⟩ := h
    simp [h1, h2, h3, h4, bind, Except.bind, pure, Except.pure]
  · have : (decide (column ≥ 0) && decide (column < 7) && decide (row ≥ 0) && decide (row < 6))
        = false := by
      by_contra hc
      simp at hc
      omega
    simp [this, h, pure, Except.pure]

/-- The pure loop condition in terms of the read. -/
theorem cellIs_read (g : Grid) (ps : Char) (column row : Int) :
    cellIs g ps column row = true ↔ g.read row column = .ok ps := by
  unfold cellIs Grid.read
  by_cases h : 0 ≤ row ∧ row < 6 ∧ 0 ≤ column ∧ column < 7
  · simp [h]
  · rw [dif_neg h, dif_neg h]
    simp

/-- The first loop, given `n + 1` fuel and no matching cell from distance
`n + 1` on, stops after some `b ≤ n` steps: the `b` cells passed match and the
next one does not. -/
theorem walkNegative_spec (g : Grid) (ps : Char) (ndx ndy : Int) :
    ∀ (n : Nat) (col row : Int),
      (∀ j : Nat, n + 1 ≤ j → cellIs g ps (col + j * ndx) (row + j * ndy) = false) →
      ∃ b : Nat, b ≤ n ∧
        walkNegative g ps ndx ndy (n + 1) col row = .ok (col + b * ndx, row + b * ndy) ∧
        (∀ j : Nat, 1 ≤ j → j ≤ b → cellIs g ps (col + j * ndx) (row + j * ndy) = true) ∧
        cellIs g ps (col + (b + 1 : Nat) * ndx) (row + (b + 1 : Nat) * ndy) = false := by
  intro n
  induction n with
  | zero =>
    intro col row hfar
    have h1 := hfar 1 (by omega)
    simp only [Nat.cast_one, one_mul] at h1
    refine ⟨0, le_refl _, ?_, ?_, ?_⟩
    · simp [walkNegative, headMatches_eq, h1, bind, Except.bind, pure, Except.pure]
    · intro j hj1 hj2
      omega
    · simpa using h1
  | succ n ih =>
    intro col row hfar
    cases hstep : cellIs g ps (col + ndx) (row + ndy) with
    | false =>
      refine ⟨0, Nat.zero_le _, ?_, ?_, ?_⟩
      · simp [walkNegative, headMatches_eq, hstep, bind, Except.bind, pure, Except.pure]
      · intro j hj1 hj2
        omega
      · simpa using hstep
    | true =>
      have hshift : ∀ j : Nat, col + ndx + (j : Int) * ndx = col + ((j + 1 : Nat) : Int) * ndx := by
        intro j
        push_cast
        ring
      have hshift2 : ∀ j : Nat, row + ndy + (j : Int) * ndy = row + ((j + 1 : Nat) : Int) * ndy := by
        intro j
        push_cast
        ring
      obtain ⟨b, hb, hwalk, htrue, hfalse⟩ := ih (col + ndx) (row + ndy) (by
        intro j hj
        rw [hshift, hshift2]
        exact hfar (j + 1) (by omega))
      refine ⟨b + 1, by omega, ?_, ?_, ?_⟩
      · rw [walkNegative]
        simp only [headMatches_eq, hstep, bind, Except.bind, if_true]
        rw [hwalk, hshift, hshift2]
      · intro j hj1 hj2
        rcases Nat.lt_or_ge j 2 with hlt | hge
        · have : j = 1 := by omega
          subst this
          simpa using hstep
        · obtain ⟨j', rfl⟩ : ∃ j', j = j' + 1 := ⟨j - 1, by omega⟩
          rw [← hshift, ← hshift2]
          exact htrue j' (by omega) (by omega)
      · rw [← hshift, ← hshift2]
        exact hfalse

/-- No cell outside the grid matches. -/
theorem cellIs_outside (g : Grid) (ps : Char) (column row : Int)
    (h : ¬ (0 ≤ row ∧ row < 6 ∧ 0 ≤ column ∧ column < 7)) : cellIs g ps column row = false := by
  unfold cellIs
  rw [dif_neg h]

/-- The second loop, entered with `consecutives = 1`, returns `true` exactly
when the next three cells match; three steps of fuel are used at most. -/
theorem walkPositive_one (g : Grid) (ps : Char) (dx dy col row : Int) :
    walkPositive g ps dx dy scanFuel col row 1 =
      .ok (cellIs g ps (col + dx) (row + dy) && cellIs g ps (col + dx + dx) (row + dy + dy) &&
        cellIs g ps (col + dx + dx + dx) (row + dy + dy + dy)) := by
  cases h1 : cellIs g ps (col + dx) (row + dy) <;>
  cases h2 : cellIs g ps (col + dx + dx) (row + dy + dy) <;>
  cases h3 : cellIs g ps (col + dx + dx + dx) (row + dy + dy + dy) <;>
  simp [scanFuel, walkPositive, headMatches_eq, _REQUIRED_CONSECUTIVE, h1, h2, h3, bind,
    Except.bind, pure, Except.pure]

/-- After a backward walk of `b` steps, the three cells following the head
match exactly when some window of four through position `0` matches. -/
theorem window_of_walk (P : Int → Bool) (b : Nat) (h0 : P 0 = true)
    (hback : ∀ j : Nat, 1 ≤ j → j ≤ b → P (-(j : Int)) = true)
    (hstop : P (-((b + 1 : Nat) : Int)) = false) :
    (P (1 - (b : Int)) = true ∧ P (2 - (b : Int)) = true ∧ P (3 - (b : Int)) = true) ↔
      windowAt P := by
  have hneg : ∀ t : Int, -(b : Int) ≤ t → t ≤ 0 → P t = true := by
    intro t h1 h2
    rcases eq_or_lt_of_le h2 with h | h
    · rw [h]; exact h0
    · have := hback (-t).toNat (by omega) (by omega)
      have e : -(((-t).toNat : Nat) : Int) = t := by omega
      rwa [e] at this
  constructor
  · rintro ⟨h1, h2, h3⟩
    rcases Nat.lt_or_ge b 4 with hb | hb
    · refine ⟨⟨b, hb⟩, ?_⟩
      intro i
      have hi := i.isLt
      rcases Nat.eq_zero_or_pos i.val with hz | hz
      · exact hneg _ (by simp [hz]) (by simp [hz])
      · have hcases : i.val = 1 ∨ i.val = 2 ∨ i.val = 3 := by omega
        rcases hcases with h | h | h <;> simp only [h, Fin.val_mk]
        · exact_mod_cast h1
        · exact_mod_cast h2
        · exact_mod_cast h3
    · refine ⟨⟨3, by omega⟩, ?_⟩
      intro i
      have hi := i.isLt
      apply hneg
      · simp only [Fin.val_mk]; omega
      · simp only [Fin.val_mk]; omega
  · rintro ⟨k, hk⟩
    have hk4 := k.isLt
    have hbk : k.val ≤ b := by
      by_contra hlt
      have := hk ⟨k.val - (b + 1), by omega⟩
      have e : (((⟨k.val - (b + 1), by omega⟩ : Fin 4) : Nat) : Int) - (k.val : Int)
          = -((b + 1 : Nat) : Int) := by
        simp only [Fin.val_mk]; omega
      rw [e, hstop] at this
      exact Bool.false_ne_true this
    have hall : ∀ t : Int, -(b : Int) ≤ t → t ≤ 3 - (k.val : Int) → P t = true := by
      intro t h1 h2
      rcases le_or_lt t 0 with h | h
      · exact hneg t h1 h
      · have := hk ⟨(t + k.val).toNat, by omega⟩
        have e : (((⟨(t + k.val).toNat, by omega⟩ : Fin 4) : Nat) : Int) - (k.val : Int) = t := by
          simp only [Fin.val_mk]; omega
        rwa [e] at this
    exact ⟨hall _ (by omega) (by omega), hall _ (by omega) (by omega),
      hall _ (by omega) (by omega)⟩

/-- One direction of the scan: fuel suffices, and the iteration returns `true`
exactly when a window of four through the cell matches along the direction. -/
theorem scanAxis_eq (g : Grid) (c : Fin 7) (r : Fin 6) (d : Int × Int)
    (hd : d ∈ SCAN_DIRECTION) :
    scanAxis g (g r c) c r d = .ok (decide (windowAt (lineIs g (g r c) c r d))) := by
  have hc := c.isLt
  have hr := r.isLt
  have hfar : ∀ j : Nat, 7 + 1 ≤ j →
      cellIs g (g r c) ((c : Int) + j * (-1 * d.1)) ((r : Int) + j * (-1 * d.2)) = false := by
    intro j hj
    apply cellIs_outside
    simp only [SCAN_DIRECTION, List.mem_cons, List.mem_singleton, List.not_mem_nil, or_false] at hd
    rcases hd with rfl | rfl | rfl | rfl <;> simp <;> omega
  obtain ⟨b, hb, hwalk, htrue, hfalse⟩ :=
    walkNegative_spec g (g r c) (-1 * d.1) (-1 * d.2) 7 c r hfar
  have h0 : lineIs g (g r c) c r d 0 = true := by
    simp [lineIs, cellIs_read, read_fin]
  have hback : ∀ j : Nat, 1 ≤ j → j ≤ b → lineIs g (g r c) c r d (-(j : Int)) = true := by
    intro j h1 h2
    unfold lineIs
    have ex : (c : Int) + -(j : Int) * d.1 = (c : Int) + (j : Int) * (-1 * d.1) := by ring
    have ey : (r : Int) + -(j : Int) * d.2 = (r : Int) + (j : Int) * (-1 * d.2) := by ring
    rw [ex, ey]
    exact htrue j h1 h2
  have hstop : lineIs g (g r c) c r d (-((b + 1 : Nat) : Int)) = false := by
    unfold lineIs
    have ex : (c : Int) + -((b + 1 : Nat) : Int) * d.1 =
        (c : Int) + ((b + 1 : Nat) : Int) * (-1 * d.1) := by ring
    have ey : (r : Int) + -((b + 1 : Nat) : Int) * d.2 =
        (r : Int) + ((b + 1 : Nat) : Int) * (-1 * d.2) := by ring
    rw [ex, ey]
    exact hfalse
  have hwin := window_of_walk _ b h0 hback hstop
  unfold scanAxis
  have hfuel : scanFuel = 7 + 1 := rfl
  rw [hfuel, hwalk]
  simp only [bind, Except.bind]
  rw [← hfuel, walkPositive_one]
  congr 1
  have e1 : lineIs g (g r c) c r d (1 - (b : Int)) =
      cellIs g (g r c) ((c : Int) + b * (-1 * d.1) + d.1) ((r : Int) + b * (-1 * d.2) + d.2) := by
    unfold lineIs; congr 1 <;> ring
  have e2 : lineIs g (g r c) c r d (2 - (b : Int)) =
      cellIs g (g r c) ((c : Int) + b * (-1 * d.1) + d.1 + d.1)
        ((r : Int) + b * (-1 * d.2) + d.2 + d.2) := by
    unfold lineIs; congr 1 <;> ring
  have e3 : lineIs g (g r c) c r d (3 - (b : Int)) =
      cellIs g (g r c) ((c : Int) + b * (-1 * d.1) + d.1 + d.1 + d.1)
        ((r : Int) + b * (-1 * d.2) + d.2 + d.2 + d.2) := by
    unfold lineIs; congr 1 <;> ring
  rw [← e1, ← e2, ← e3]
  by_cases hw : windowAt (lineIs g (g r c) c r d)
  · obtain ⟨a1, a2, a3⟩ := hwin.mpr hw
    simp [hw, a1, a2, a3]
  · simp only [hw, decide_False]
    by_contra hne
    apply hw
    apply hwin.mp
    revert hne
    cases lineIs g (g r c) c r d (1 - (b : Int)) <;>
    cases lineIs g (g r c) c r d (2 - (b : Int)) <;>
    cases lineIs g (g r c) c r d (3 - (b : Int)) <;> simp

/-- The loop over directions returns whether some direction has a window. -/
theorem scanAxes_eq (g : Grid) (c : Fin 7) (r : Fin 6) :
    ∀ dirs : List (Int × Int), (∀ d ∈ dirs, d ∈ SCAN_DIRECTION) →
      scanAxes g (g r c) c r dirs =
        .ok (decide (∃ d ∈ dirs, windowAt (lineIs g (g r c) c r d))) := by
  intro dirs
  induction dirs with
  | nil =>
    intro _
    simp [scanAxes, pure, Except.pure]
  | cons d rest ih =>
    intro hsub
    have hd := hsub d (List.mem_cons_self _ _)
    have hrest := ih (fun e he => hsub e (List.mem_cons_of_mem _ he))
    rw [scanAxes, scanAxis_eq g c r d hd]
    by_cases hw : windowAt (lineIs g (g r c) c r d)
    · simp [hw, bind, Except.bind, pure, Except.pure]
    · simp [hw, bind, Except.bind, hrest]

/-- The property `fourThrough` in terms of the scan directions of the code. -/
theorem fourThrough_iff (g : Grid) (c : Fin 7) (r : Fin 6) :
    fourThrough g c r ↔
      g r c ≠ _EMPTY_STATE ∧ ∃ d ∈ SCAN_DIRECTION, windowAt (lineIs g (g r c) c r d) := by
  unfold fourThrough windowAt lineIs
  simp only [cellIs_read, axes, SCAN_DIRECTION, List.mem_cons, List.mem_singleton,
    List.not_mem_nil, or_false, exists_eq_or_imp, exists_eq_left]
  tauto

/-- The method `_checkWinGeneral` on a cell of the grid returns, without error,
whether four equal marks lie in a line through the cell. -/
theorem checkWinGeneral_eq (g : Grid) (c : Fin 7) (r : Fin 6) :
    _checkWinGeneral g c r = .ok (decide (fourThrough g c r)) := by
  unfold _checkWinGeneral
  rw [read_fin]
  simp only [bind, Except.bind]
  by_cases he : g r c = _EMPTY_STATE
  · have : ¬ fourThrough g c r := fun h => h.1 he
    simp [he, this, pure, Except.pure]
  · rw [scanAxes_eq g c r SCAN_DIRECTION (fun d hd => hd)]
    have hb : (g r c == _EMPTY_STATE) = false := by simpa using he
    simp only [hb, Bool.false_eq_true, if_false]
    congr 1
    rw [decide_eq_decide, fourThrough_iff]
    simp [he]

/-- A write inside the grid stores the mark. -/
theorem write_fin (g : Grid) (r : Fin 6) (c : Fin 7) (mark : Char) :
    g.write (r : Int) (c : Int) mark = .ok (placed g r c mark) := by
  have hr := r.isLt
  have hc := c.isLt
  unfold Grid.write placed
  rw [dif_pos (by omega)]
  simp

/-- The scan of the rows `n - 1, …, 0` of a column: either all are occupied and
the result is `_ROW_FILLED`, or the result is the lowest Empty one of them. -/
theorem lowestFrom_spec (s : ConnectFourState) (c : Fin 7) :
    ∀ n : Nat, n ≤ 6 →
      (lowestFrom s c n = .ok _ROW_FILLED ∧ ∀ i : Fin 6, i.val < n → s._state i c ≠ _EMPTY_STATE) ∨
      ∃ i : Fin 6, lowestFrom s c n = .ok (i : Int) ∧ i.val < n ∧ s._state i c = _EMPTY_STATE ∧
        ∀ j : Fin 6, i < j → j.val < n → s._state j c ≠ _EMPTY_STATE := by
  intro n
  induction n with
  | zero =>
    intro _
    left
    refine ⟨rfl, ?_⟩
    intro i hi
    omega
  | succ n ih =>
    intro hn
    have hread : s._state.read ((n : Nat) : Int) (c : Int) = .ok (s._state ⟨n, by omega⟩ c) :=
      read_fin s._state ⟨n, by omega⟩ c
    by_cases he : s._state ⟨n, by omega⟩ c = _EMPTY_STATE
    · right
      refine ⟨⟨n, by omega⟩, ?_, by simp, he, ?_⟩
      · rw [lowestFrom, hread]
        simp [he, bind, Except.bind, pure, Except.pure]
      · intro j hj1 hj2
        have : n < j.val := hj1
        omega
    · have hstep : lowestFrom s c (n + 1) = lowestFrom s c n := by
        rw [lowestFrom, hread]
        simp [he, bind, Except.bind]
      rcases ih (by omega) with ⟨h1, h2⟩ | ⟨i, h1, h2, h3, h4⟩
      · left
        refine ⟨by rw [hstep, h1], ?_⟩
        intro i hi
        rcases Nat.lt_or_ge i.val n with h | h
        · exact h2 i h
        · have : i = ⟨n, by omega⟩ := Fin.ext (by simp; omega)
          rw [this]
          exact he
      · right
        refine ⟨i, by rw [hstep, h1], by omega, h3, ?_⟩
        intro j hj1 hj2
        rcases Nat.lt_or_ge j.val n with h | h
        · exact h4 j hj1 h
        · have : j = ⟨n, by omega⟩ := Fin.ext (by simp; omega)
          rw [this]
          exact he

/-- For a column of the grid `_column_playable` tests the top cell. -/
theorem column_playable_fin (s : ConnectFourState) (c : Fin 7) :
    s._column_playable c = .ok (s._state 0 c == _EMPTY_STATE) := by
  unfold _column_playable
  have := read_fin s._state 0 c
  simp only [Fin.val_zero, Nat.cast_zero] at this
  rw [this]
  rfl

/-- For a column outside `0..6` the test of `_column_playable` is an access
outside the grid. -/
theorem column_playable_outside (s : ConnectFourState) (column : Int)
    (h : column < 0 ∨ 7 ≤ column) : s._column_playable column = .error Error.outOfBounds := by
  unfold _column_playable
  rw [read_outside _ _ _ (by omega)]
  rfl

/-- The method `_setColumn` on a playable column for player X or O: the mark
goes to the lowest Empty row and the call returns normally. -/
theorem setColumn_playable (s : ConnectFourState) (c : Fin 7) (player : Player) (mark : Char)
    (hm : _map_player_to_state player = .ok mark) (htop : s._state 0 c = _EMPTY_STATE) :
    ∃ r : Fin 6, s._state r c = _EMPTY_STATE ∧
      (∀ j : Fin 6, r < j → s._state j c ≠ _EMPTY_STATE) ∧
      s._lowest_playable_row c = .ok (r : Int) ∧
      s._setColumn c player = (.ok (), afterMove s c r player mark) := by
  rcases lowestFrom_spec s c 6 (le_refl _) with ⟨_, h2⟩ | ⟨r, h1, _, h3, h4⟩
  · exact absurd htop (h2 0 (by simp))
  · refine ⟨r, h3, fun j hj => h4 j hj j.isLt, h1, ?_⟩
    unfold _setColumn
    rw [column_playable_fin, htop]
    simp only [beq_self_eq_true]
    unfold _lowest_playable_row
    rw [h1]
    simp only [hm, write_fin, _checkWin, checkWinGeneral_eq]
    unfold afterMove
    by_cases hw : s._first_winner = Player.None
    · by_cases hf : fourThrough (placed s._state r c mark) c r
      · simp [hw, hf]
      · simp [hw, hf]
    · simp [hw, pure, Except.pure]

/-- The method `_setColumn` on a full column throws and changes nothing. -/
theorem setColumn_full (s : ConnectFourState) (c : Fin 7) (player : Player)
    (htop : s._state 0 c ≠ _EMPTY_STATE) :
    s._setColumn c player = (.error Error.invalidArgument, s) := by
  unfold _setColumn
  rw [column_playable_fin]
  have : (s._state 0 c == _EMPTY_STATE) = false := by simpa using htop
  rw [this]

/-- The method `_setColumn` on a column outside `0..6` reaches the unchecked
access of `_column_playable`. -/
theorem setColumn_outside (s : ConnectFourState) (column : Int) (player : Player)
    (h : column < 0 ∨ 7 ≤ column) :
    s._setColumn column player = (.error Error.outOfBounds, s) := by
  unfold _setColumn
  rw [column_playable_outside s column h]

/-- The method `_setColumn` for `Player::None` on a playable column throws the
logic error of `_map_player_to_state` before any assignment. -/
theorem setColumn_none (s : ConnectFourState) (c : Fin 7)
    (htop : s._state 0 c = _EMPTY_STATE) :
    s._setColumn c Player.None = (.error Error.logicError, s) := by
  rcases lowestFrom_spec s c 6 (le_refl _) with ⟨_, h2⟩ | ⟨r, h1, _, _, _⟩
  · exact absurd htop (h2 0 (by simp))
  · unfold _setColumn
    rw [column_playable_fin, htop]
    simp only [beq_self_eq_true]
    unfold _lowest_playable_row
    rw [h1]
    rfl

/-- The mark of X or O exists and is not the Empty mark. -/
theorem map_player_ok (player : Player) (h : player ≠ Player.None) :
    ∃ mark, _map_player_to_state player = .ok mark ∧ mark ≠ _EMPTY_STATE ∧
      (player = Player.X → mark = _PLAYER_X_STATE) ∧ (player = Player.O → mark = _PLAYER_O_STATE) := by
  cases player with
  | X => exact ⟨_PLAYER_X_STATE, rfl, by decide, fun _ => rfl, fun h => (by cases h)⟩
  | O => exact ⟨_PLAYER_O_STATE, rfl, by decide, fun h => (by cases h), fun _ => rfl⟩
  | None => exact absurd rfl h

/-- Every integer is outside `0..6` or the value of a column index. -/
theorem column_cases (column : Int) :
    (column < 0 ∨ 7 ≤ column) ∨ ∃ c : Fin 7, column = (c : Int) := by
  by_cases h : column < 0 ∨ 7 ≤ column
  · exact Or.inl h
  · right
    refine ⟨⟨column.toNat, by omega⟩, ?_⟩
    simp only [Fin.val_mk]
    omega

/-- A call of `playColumn` that returns normally played a column of the grid
whose top cell was Empty, for a current player that is X or O. -/
theorem playColumn_ok_inv (s s' : ConnectFourState) (column : Int)
    (h : s.playColumn column = (.ok (), s')) :
    ∃ (c : Fin 7) (r : Fin 6) (mark : Char), column = (c : Int) ∧
      s._state 0 c = _EMPTY_STATE ∧ s._current_player ≠ Player.None ∧
      _map_player_to_state s._current_player = .ok mark ∧ mark ≠ _EMPTY_STATE ∧
      s._state r c = _EMPTY_STATE ∧ (∀ j : Fin 6, r < j → s._state j c ≠ _EMPTY_STATE) ∧
      s' = afterMove s c r s._current_player mark := by
  unfold playColumn at h
  rcases column_cases column with hout | ⟨c, rfl⟩
  · rw [setColumn_outside s column _ hout] at h
    simp at h
  · by_cases htop : s._state 0 c = _EMPTY_STATE
    · by_cases hcur : s._current_player = Player.None
      · rw [hcur, setColumn_none s c htop] at h
        simp at h
      · obtain ⟨mark, hm, hne, _, _⟩ := map_player_ok _ hcur
        obtain ⟨r, hr1, hr2, _, hset⟩ := setColumn_playable s c _ mark hm htop
        rw [hset] at h
        refine ⟨c, r, mark, rfl, htop, hcur, hm, hne, hr1, hr2, ?_⟩
        simpa using h.symm
    · rw [setColumn_full s c _ htop] at h
      simp at h

/-- A call of `playColumn` that throws leaves the object as it was. -/
theorem playColumn_error_unchanged (s : ConnectFourState) (column : Int) (e : Error)
    (h : (s.playColumn column).1 = .error e) : (s.playColumn column).2 = s := by
  unfold playColumn at h ⊢
  rcases column_cases column with hout | ⟨c, rfl⟩
  · rw [setColumn_outside s column _ hout]
  · by_cases htop : s._state 0 c = _EMPTY_STATE
    · by_cases hcur : s._current_player = Player.None
      · rw [hcur, setColumn_none s c htop]
      · obtain ⟨mark, hm, _, _, _⟩ := map_player_ok _ hcur
        obtain ⟨r, _, _, _, hset⟩ := setColumn_playable s c _ mark hm htop
        rw [hset] at h
        simp at h
    · rw [setColumn_full s c _ htop]

/-- The new game is well formed. -/
theorem wellFormed_new : WellFormed ConnectFourState.new := by
  refine ⟨by decide, ?_⟩
  intro c r r' _ h
  exact absurd rfl h

/-- A successful `playColumn` keeps the state well formed. -/
theorem wellFormed_playColumn (s s' : ConnectFourState) (column : Int)
    (hs : WellFormed s) (h : s.playColumn column = (.ok (), s')) : WellFormed s' := by
  obtain ⟨c, r, mark, _, _, hcur, _, hne, hr1, hr2, rfl⟩ := playColumn_ok_inv s s' column h
  refine ⟨?_, ?_⟩
  · unfold afterMove
    simp only
    split <;> decide
  · intro c' a a' haa hocc
    unfold afterMove placed at hocc ⊢
    simp only at hocc ⊢
    by_cases hc : c' = c
    · subst hc
      by_cases ha' : a' = r
      · simp [ha', hne]
      · simp only [ha', false_and, if_false]
        by_cases ha : a = r
        · subst ha
          exact hr2 a' haa
        · simp only [ha, false_and, if_false] at hocc
          exact hs.2 c' a a' haa hocc
    · simp only [hc, and_false, if_false] at hocc ⊢
      exact hs.2 c' a a' haa hocc

/-- Every state reached by successful moves from a well-formed state is well
formed. -/
theorem wellFormed_playAll (moves : List Int) :
    ∀ s s' : ConnectFourState, WellFormed s → s.playAll moves = .ok s' → WellFormed s' := by
  induction moves with
  | nil =>
    intro s s' hs h
    simp only [playAll, Except.ok.injEq] at h
    exact h ▸ hs
  | cons column rest ih =>
    intro s s' hs h
    rw [playAll] at h
    rcases hp : s.playColumn column with ⟨out, played⟩
    rw [hp] at h
    cases out with
    | error e => simp at h
    | ok u =>
      cases u
      exact ih played s' (wellFormed_playColumn s played column hs hp) h

/-- Under `Gravity`, a column whose lowest Empty row is `r` holds `5 - r` pieces. -/
theorem pieces_of_lowest (g : Grid) (c : Fin 7) (r : Fin 6) (hg : Gravity g)
    (hr : g r c = _EMPTY_STATE) (hbelow : ∀ j : Fin 6, r < j → g j c ≠ _EMPTY_STATE) :
    piecesInColumn g c = 5 - r.val := by
  have key : (fun i : Fin 6 => g i c != _EMPTY_STATE) = fun i : Fin 6 => decide (r < i) := by
    funext i
    by_cases hlt : r < i
    · simpa [hlt] using hbelow i hlt
    · have hemp : g i c = _EMPTY_STATE := by
        by_contra hne
        rcases eq_or_lt_of_le (not_lt.mp hlt) with h | h
        · exact hne (h ▸ hr)
        · exact hg c i r h hne hr
      simp [hlt, hemp]
  have hcount : ∀ a : Fin 6,
      (List.finRange 6).countP (fun i : Fin 6 => decide (a < i)) = 5 - a.val := by
    decide
  unfold piecesInColumn
  rw [key]
  exact hcount r

/-- The columns visited by the loops are the column indices in order. -/
theorem columnRange_eq : columnRange = (List.finRange 7).map (fun c : Fin 7 => (c : Int)) := by
  decide

/-- The loop of `legalMoves` appends the playable columns in order. -/
theorem legalMovesLoop_eq (s : ConnectFourState) :
    ∀ (cols : List (Fin 7)) (acc : List Int),
      legalMovesLoop s (cols.map (fun c : Fin 7 => (c : Int))) acc =
        .ok (acc ++ (cols.filter (fun c => s._state 0 c == _EMPTY_STATE)).map
          (fun c : Fin 7 => (c : Int))) := by
  intro cols
  induction cols with
  | nil =>
    intro acc
    simp [legalMovesLoop, pure, Except.pure]
  | cons c rest ih =>
    intro acc
    rw [List.map_cons, legalMovesLoop, column_playable_fin]
    cases hb : (s._state 0 c == _EMPTY_STATE)
    · simp [bind, Except.bind, ih, List.filter_cons, hb]
    · simp [bind, Except.bind, ih, List.filter_cons, hb]

/-- The method `legalMoves` returns the columns with an Empty top cell, in order. -/
theorem legalMoves_eq (s : ConnectFourState) :
    s.legalMoves = .ok (((List.finRange 7).filter (fun c => s._state 0 c == _EMPTY_STATE)).map
      (fun c : Fin 7 => (c : Int))) := by
  unfold legalMoves
  rw [columnRange_eq, legalMovesLoop_eq]
  simp

/-- The loop of `isDraw` returns whether no visited column is playable. -/
theorem isDrawLoop_eq (s : ConnectFourState) :
    ∀ cols : List (Fin 7),
      isDrawLoop s (cols.map (fun c : Fin 7 => (c : Int))) =
        .ok (decide (∀ c ∈ cols, s._state 0 c ≠ _EMPTY_STATE)) := by
  intro cols
  induction cols with
  | nil => simp [isDrawLoop, pure, Except.pure]
  | cons c rest ih =>
    rw [List.map_cons, isDrawLoop, column_playable_fin]
    by_cases hb : s._state 0 c = _EMPTY_STATE
    · simp [bind, Except.bind, hb, pure, Except.pure]
    · have : (s._state 0 c == _EMPTY_STATE) = false := by simpa using hb
      simp [bind, Except.bind, ih, hb, this]

/-- The method `isDraw` returns whether no column has an Empty top cell. -/
theorem isDraw_eq (s : ConnectFourState) :
    s.isDraw = .ok (decide (∀ c : Fin 7, s._state 0 c ≠ _EMPTY_STATE)) := by
  unfold isDraw
  rw [columnRange_eq, isDrawLoop_eq]
  simp

/-- A move into a playable column by X or O: `playColumn` and `applyMove`
succeed with the state `afterMove`. -/
theorem applyMove_playable (s : ConnectFourState) (c : Fin 7)
    (hcur : s._current_player ≠ Player.None) (htop : s._state 0 c = _EMPTY_STATE) :
    ∃ (r : Fin 6) (mark : Char), _map_player_to_state s._current_player = .ok mark ∧
      mark ≠ _EMPTY_STATE ∧ s._state r c = _EMPTY_STATE ∧
      (∀ j : Fin 6, r < j → s._state j c ≠ _EMPTY_STATE) ∧
      s.playColumn c = (.ok (), afterMove s c r s._current_player mark) ∧
      s.applyMove c = .ok (afterMove s c r s._current_player mark) := by
  obtain ⟨mark, hm, hne, _, _⟩ := map_player_ok _ hcur
  obtain ⟨r, hr1, hr2, _, hset⟩ := setColumn_playable s c _ mark hm htop
  refine ⟨r, mark, hm, hne, hr1, hr2, hset, ?_⟩
  unfold applyMove
  simp only
  unfold playColumn
  rw [hset]

/-- A column with no Empty cell holds six pieces. -/
theorem pieces_full (g : Grid) (c : Fin 7) (h : ∀ i : Fin 6, g i c ≠ _EMPTY_STATE) :
    piecesInColumn g c = 6 := by
  have key : (fun i : Fin 6 => g i c != _EMPTY_STATE) = fun _ : Fin 6 => true := by
    funext i
    simpa using h i
  unfold piecesInColumn
  rw [key]
  decide

/-- C1. In a state with no winner yet, a move into a playable column succeeds,
the win check on the new cell returns exactly whether four equal marks lie in
a line through that cell, and `firstWinner` becomes the mover when they do and
stays `None` when they do not. -/
theorem applyMove_firstWinner_iff_fourThrough (s : ConnectFourState) (c : Fin 7)
    (hcur : s.currentPlayer ≠ Player.None) (hnone : s.firstWinner = Player.None)
    (htop : s._state 0 c = _EMPTY_STATE) :
    ∃ (s' : ConnectFourState) (r : Fin 6),
      s.applyMove c = .ok s' ∧
      s'.lastPlacedRow = (r : Int) ∧ s'.lastPlacedColumn = (c : Int) ∧
      _map_player_to_state s.currentPlayer = .ok (s'._state r c) ∧
      _checkWinGeneral s'._state c r = .ok (decide (fourThrough s'._state c r)) ∧
      s'.firstWinner = if fourThrough s'._state c r then s.currentPlayer else Player.None := by
  obtain ⟨r, mark, hm, _, _, _, _, happ⟩ := applyMove_playable s c hcur htop
  refine ⟨_, r, happ, rfl, rfl, ?_, checkWinGeneral_eq _ c r, ?_⟩
  · simpa [afterMove, placed, currentPlayer] using hm
  · have hn : s._first_winner = Player.None := hnone
    simp only [firstWinner, afterMove, currentPlayer, hn, true_and]

/-- Instance of `applyMove_firstWinner_iff_fourThrough` on a concrete game. -/
theorem applyMove_firstWinner_iff_fourThrough_witness :
    ∃ (s' : ConnectFourState) (r : Fin 6),
      (stateAfter [3, 4, 3, 4, 3, 4]).applyMove ((3 : Fin 7) : Int) = .ok s' ∧
      s'.lastPlacedRow = (r : Int) ∧ s'.lastPlacedColumn = ((3 : Fin 7) : Int) ∧
      _map_player_to_state (stateAfter [3, 4, 3, 4, 3, 4]).currentPlayer = .ok (s'._state r 3) ∧
      _checkWinGeneral s'._state ((3 : Fin 7) : Int) r = .ok (decide (fourThrough s'._state 3 r)) ∧
      s'.firstWinner =
        if fourThrough s'._state 3 r then (stateAfter [3, 4, 3, 4, 3, 4]).currentPlayer
        else Player.None :=
  applyMove_firstWinner_iff_fourThrough (stateAfter [3, 4, 3, 4, 3, 4]) 3
    (by decide) (by decide) (by decide)

/-- C2. In a state reached from the new game by successful moves, a move into
a column holding `k < 6` pieces succeeds, stores the mover's mark at row
`5 - k` of that column, records `(5 - k, c)` as the last placed cell and leaves
every other cell as it was. -/
theorem applyMove_lands_on_lowest_row (moves : List Int) (s : ConnectFourState) (c : Fin 7)
    (hreach : ConnectFourState.new.playAll moves = .ok s)
    (hk : piecesInColumn s._state c < 6) :
    ∃ (s' : ConnectFourState) (r : Fin 6),
      s.applyMove c = .ok s' ∧ r.val = 5 - piecesInColumn s._state c ∧
      _map_player_to_state s.currentPlayer = .ok (s'._state r c) ∧
      s'.lastPlacedRow = (r : Int) ∧ s'.lastPlacedColumn = (c : Int) ∧
      ∀ (r' : Fin 6) (c' : Fin 7), (r', c') ≠ (r, c) → s'._state r' c' = s._state r' c' := by
  have hwf := wellFormed_playAll moves _ s wellFormed_new hreach
  have htop : s._state 0 c = _EMPTY_STATE := by
    by_contra hne
    have hall : ∀ i : Fin 6, s._state i c ≠ _EMPTY_STATE := by
      intro i
      rcases eq_or_lt_of_le (Fin.zero_le i) with h | h
      · exact h ▸ hne
      · exact hwf.2 c 0 i h hne
    have := pieces_full s._state c hall
    omega
  obtain ⟨r, mark, hm, _, hr1, hr2, _, happ⟩ := applyMove_playable s c hwf.1 htop
  have hcount := pieces_of_lowest s._state c r hwf.2 hr1 hr2
  have hrlt := r.isLt
  refine ⟨_, r, happ, by omega, ?_, rfl, rfl, ?_⟩
  · simpa [afterMove, placed, currentPlayer] using hm
  · intro r' c' hne
    have : ¬ (r' = r ∧ c' = c) := by
      rintro ⟨rfl, rfl⟩
      exact hne rfl
    simp [afterMove, placed, this]

/-- Instance of `applyMove_lands_on_lowest_row` on a concrete game. -/
theorem applyMove_lands_on_lowest_row_witness :
    ∃ (s' : ConnectFourState) (r : Fin 6),
      (stateAfter [3, 4, 3]).applyMove ((3 : Fin 7) : Int) = .ok s' ∧
      r.val = 5 - piecesInColumn (stateAfter [3, 4, 3])._state 3 ∧
      _map_player_to_state (stateAfter [3, 4, 3]).currentPlayer = .ok (s'._state r 3) ∧
      s'.lastPlacedRow = (r : Int) ∧ s'.lastPlacedColumn = ((3 : Fin 7) : Int) ∧
      ∀ (r' : Fin 6) (c' : Fin 7), (r', c') ≠ (r, 3) →
        s'._state r' c' = (stateAfter [3, 4, 3])._state r' c' :=
  applyMove_lands_on_lowest_row [3, 4, 3] (stateAfter [3, 4, 3]) 3 (by decide) (by decide)

/-- C3. A move into a column of the grid whose top cell is occupied is
rejected by `playColumn` and by `applyMove` with the illegal-move error
(`std::invalid_argument`), and the object `playColumn` was called on is left
equal to what it was in every field. -/
theorem full_column_rejected (s : ConnectFourState) (c : Fin 7)
    (htop : s._state 0 c ≠ _EMPTY_STATE) :
    s.playColumn c = (.error Error.invalidArgument, s) ∧
      s.applyMove c = .error Error.invalidArgument := by
  have h : s.playColumn c = (.error Error.invalidArgument, s) := setColumn_full s c _ htop
  refine ⟨h, ?_⟩
  unfold applyMove
  simp only
  rw [h]

/-- Instance of `full_column_rejected` on a concrete game. -/
theorem full_column_rejected_witness :
    (stateAfter [0, 0, 0, 0, 0, 0])._state 0 0 ≠ _EMPTY_STATE ∧
      (stateAfter [0, 0, 0, 0, 0, 0]).playColumn ((0 : Fin 7) : Int) =
        (.error Error.invalidArgument, stateAfter [0, 0, 0, 0, 0, 0]) ∧
      (stateAfter [0, 0, 0, 0, 0, 0]).applyMove ((0 : Fin 7) : Int) =
        .error Error.invalidArgument :=
  ⟨by decide, full_column_rejected (stateAfter [0, 0, 0, 0, 0, 0]) 0 (by decide)⟩

/-- C4 (evaluation). A column index outside `0..6` is not rejected with the
illegal-move error: `_column_playable` indexes `_state[0][column]` unchecked,
so on the new game `playColumn(7)` and `applyMove(7)` leave through the
out-of-bounds access and not through `std::invalid_argument`. -/
theorem out_of_range_column_not_rejected :
    ConnectFourState.new._column_playable 7 = .error Error.outOfBounds ∧
      ConnectFourState.new.playColumn 7 = (.error Error.outOfBounds, ConnectFourState.new) ∧
      ConnectFourState.new.applyMove 7 = .error Error.outOfBounds ∧
      ConnectFourState.new.playColumn 7 ≠ (.error Error.invalidArgument, ConnectFourState.new) ∧
      ConnectFourState.new.applyMove 7 ≠ .error Error.invalidArgument := by
  decide

/-- C5. For every state `legalMoves` returns a list that is strictly ascending,
has no duplicates, and holds exactly the columns `0..6` whose top cell is Empty. -/
theorem legalMoves_sorted_exact (s : ConnectFourState) :
    ∃ moves : List Int, s.legalMoves = .ok moves ∧
      moves.Pairwise (fun a b => a < b) ∧ moves.Nodup ∧
      ∀ column : Int, column ∈ moves ↔
        ∃ c : Fin 7, column = (c : Int) ∧ s._state 0 c = _EMPTY_STATE := by
  have hsorted : (((List.finRange 7).filter (fun c => s._state 0 c == _EMPTY_STATE)).map
      (fun c : Fin 7 => (c : Int))).Pairwise (fun a b => a < b) := by
    apply List.Pairwise.map _ _ ((List.pairwise_lt_finRange 7).filter _)
    intro a b hab
    exact_mod_cast hab
  refine ⟨_, legalMoves_eq s, hsorted, ?_, ?_⟩
  · exact hsorted.imp (fun h => ne_of_lt h)
  · intro column
    simp only [List.mem_map, List.mem_filter, List.mem_finRange, true_and, beq_iff_eq]
    constructor
    · rintro ⟨c, hc, rfl⟩
      exact ⟨c, rfl, hc⟩
    · rintro ⟨c, rfl, hc⟩
      exact ⟨c, hc, rfl⟩

/-- C6. In a state reached from the new game by successful moves, `legalMoves`
returns the empty list exactly when all 42 cells are occupied. -/
theorem legalMoves_empty_iff_board_full (moves : List Int) (s : ConnectFourState)
    (hreach : ConnectFourState.new.playAll moves = .ok s) :
    s.legalMoves = .ok [] ↔ ∀ (r : Fin 6) (c : Fin 7), s._state r c ≠ _EMPTY_STATE := by
  have hwf := wellFormed_playAll moves _ s wellFormed_new hreach
  rw [legalMoves_eq]
  simp only [Except.ok.injEq, List.map_eq_nil_iff, List.filter_eq_nil_iff, List.mem_finRange,
    true_implies, beq_iff_eq]
  constructor
  · intro h r c
    rcases eq_or_lt_of_le (Fin.zero_le r) with h0 | h0
    · exact h0 ▸ h c
    · exact hwf.2 c 0 r h0 (h c)
  · intro h c
    exact h 0 c

/-- Instance of `legalMoves_empty_iff_board_full` on a concrete game. -/
theorem legalMoves_empty_iff_board_full_witness :
    (stateAfter drawnGame).legalMoves = .ok [] ↔
      ∀ (r : Fin 6) (c : Fin 7), (stateAfter drawnGame)._state r c ≠ _EMPTY_STATE :=
  legalMoves_empty_iff_board_full drawnGame (stateAfter drawnGame) (by decide)

/-- C7 (evaluation). `isDraw` only looks for a playable column.  In the state
after `lastMoveWinGame`, where the game was not over before the last move and
O completes four in a line by filling the last cell, `isDraw` and `isWon` are
both true. -/
theorem isDraw_and_isWon_both_true :
    (ConnectFourState.new.playAll (lastMoveWinGame.take 41)).bind isOver = .ok false ∧
      ConnectFourState.new.playAll lastMoveWinGame = .ok (stateAfter lastMoveWinGame) ∧
      (stateAfter lastMoveWinGame).isDraw = .ok true ∧
      (stateAfter lastMoveWinGame).legalMoves = .ok [] ∧
      (stateAfter lastMoveWinGame).isWon = true ∧
      (stateAfter lastMoveWinGame).firstWinner = Player.O := by
  decide

/-- C8. Once `firstWinner` is a player `p`, a further move into a playable
column succeeds and leaves `firstWinner` equal to `p`. -/
theorem firstWinner_stable (s : ConnectFourState) (c : Fin 7) (p : Player)
    (hcur : s.currentPlayer ≠ Player.None) (hp : p ≠ Player.None)
    (hwon : s.firstWinner = p) (htop : s._state 0 c = _EMPTY_STATE) :
    ∃ s' : ConnectFourState, s.applyMove c = .ok s' ∧ s'.firstWinner = p := by
  obtain ⟨r, mark, _, _, _, _, _, happ⟩ := applyMove_playable s c hcur htop
  refine ⟨_, happ, ?_⟩
  have hw : s._first_winner = p := hwon
  simp only [firstWinner, afterMove, hw, hp, false_and, if_false]

/-- Instance of `firstWinner_stable` on a concrete game. -/
theorem firstWinner_stable_witness :
    fourThrough (placed (stateAfter [3, 4, 3, 4, 3, 4, 3])._state 2 4 _PLAYER_O_STATE) 4 2 ∧
      ∃ s' : ConnectFourState,
        (stateAfter [3, 4, 3, 4, 3, 4, 3]).applyMove ((4 : Fin 7) : Int) = .ok s' ∧
        s'.firstWinner = Player.X :=
  ⟨by decide,
    firstWinner_stable (stateAfter [3, 4, 3, 4, 3, 4, 3]) 4 Player.X
      (by decide) (by decide) (by decide) (by decide)⟩

/-- C9. A new game has X to move.  In every state whose current player is X or
O, a move into a playable column succeeds and makes the opponent of the
previous current player the current player.  In every state, a full board
included, a move into a full column is rejected, and every call of `playColumn`
that throws, whatever the column, leaves the current player as it was. -/
theorem currentPlayer_flips (s : ConnectFourState) :
    ConnectFourState.new.currentPlayer = Player.X ∧
      (∀ c : Fin 7, s.currentPlayer ≠ Player.None → s._state 0 c = _EMPTY_STATE →
        ∃ s' : ConnectFourState, s.applyMove c = .ok s' ∧
          s'.currentPlayer = opponent s.currentPlayer) ∧
      (∀ c : Fin 7, s._state 0 c ≠ _EMPTY_STATE →
        (s.playColumn c).1 = .error Error.invalidArgument ∧
          (s.playColumn c).2.currentPlayer = s.currentPlayer) ∧
      (∀ (column : Int) (e : Error), (s.playColumn column).1 = .error e →
        (s.playColumn column).2.currentPlayer = s.currentPlayer) := by
  refine ⟨rfl, ?_, ?_, ?_⟩
  · intro c hcur htop
    obtain ⟨r, mark, _, _, _, _, _, happ⟩ := applyMove_playable s c hcur htop
    refine ⟨_, happ, ?_⟩
    have hc : s._current_player ≠ Player.None := hcur
    simp only [currentPlayer, afterMove]
    cases hpl : s._current_player with
    | X => rfl
    | O => rfl
    | None => exact absurd hpl hc
  · intro c htop
    have h : s.playColumn c = (.error Error.invalidArgument, s) := setColumn_full s c _ htop
    rw [h]
    exact ⟨rfl, rfl⟩
  · intro column e he
    rw [playColumn_error_unchanged s column e he]

/-- Instances of `currentPlayer_flips`: a board with column 0 full and column 3
playable, and the full board of `drawnGame`, where every move is rejected. -/
theorem currentPlayer_flips_witness :
    ((stateAfter [0, 0, 0, 0, 0, 0, 1]).currentPlayer = Player.O ∧
        ∃ s' : ConnectFourState,
          (stateAfter [0, 0, 0, 0, 0, 0, 1]).applyMove ((3 : Fin 7) : Int) = .ok s' ∧
          s'.currentPlayer = opponent (stateAfter [0, 0, 0, 0, 0, 0, 1]).currentPlayer) ∧
      (((stateAfter [0, 0, 0, 0, 0, 0, 1]).playColumn ((0 : Fin 7) : Int)).1 =
          .error Error.invalidArgument ∧
        ((stateAfter [0, 0, 0, 0, 0, 0, 1]).playColumn ((0 : Fin 7) : Int)).2.currentPlayer =
          (stateAfter [0, 0, 0, 0, 0, 0, 1]).currentPlayer) ∧
      ((∀ c : Fin 7, (stateAfter drawnGame)._state 0 c ≠ _EMPTY_STATE) ∧
        ((stateAfter drawnGame).playColumn 3).1 = .error Error.invalidArgument ∧
        ((stateAfter drawnGame).playColumn 3).2.currentPlayer =
          (stateAfter drawnGame).currentPlayer) :=
  ⟨⟨by decide,
      (currentPlayer_flips (stateAfter [0, 0, 0, 0, 0, 0, 1])).2.1 3 (by decide) (by decide)⟩,
    (currentPlayer_flips (stateAfter [0, 0, 0, 0, 0, 0, 1])).2.2.1 0 (by decide),
    by decide, by decide,
    (currentPlayer_flips (stateAfter drawnGame)).2.2.2 3 Error.invalidArgument (by decide)⟩

/-- C10. From a new game the moves 3, 4, 3, 4, 3, 4, 3 land at (column, row)
(3,5), (4,5), (3,4), (4,4), (3,3), (4,3), (3,2); the grid then holds X in rows
2..5 of column 3 and O in rows 3..5 of column 4, `isWon` is true and
`firstWinner` is X. -/
theorem scenario_vertical_four :
    landings ConnectFourState.new [3, 4, 3, 4, 3, 4, 3] =
        .ok [(3, 5), (4, 5), (3, 4), (4, 4), (3, 3), (4, 3), (3, 2)] ∧
      ConnectFourState.new.playAll [3, 4, 3, 4, 3, 4, 3] =
        .ok (stateAfter [3, 4, 3, 4, 3, 4, 3]) ∧
      (stateAfter [3, 4, 3, 4, 3, 4, 3])._state =
        (fun r c =>
          if c = 3 ∧ 2 ≤ r.val then _PLAYER_X_STATE
          else if c = 4 ∧ 3 ≤ r.val then _PLAYER_O_STATE
          else _EMPTY_STATE) ∧
      (stateAfter [3, 4, 3, 4, 3, 4, 3]).isWon = true ∧
      (stateAfter [3, 4, 3, 4, 3, 4, 3]).firstWinner = Player.X := by
  decide

/-- The method `isOver` returns whether there is a winner or no column has an
Empty top cell. -/
theorem isOver_eq (s : ConnectFourState) :
    s.isOver = .ok (s.isWon || decide (∀ c : Fin 7, s._state 0 c ≠ _EMPTY_STATE)) := by
  unfold isOver
  cases hw : s.isWon
  · simp [isDraw_eq]
  · simp [pure, Except.pure]

/-- In a state that is not over nobody has won and some column is playable. -/
theorem not_over_inv (s : ConnectFourState) (h : s.isOver = .ok false) :
    s._first_winner = Player.None ∧ ∃ c : Fin 7, s._state 0 c = _EMPTY_STATE := by
  rw [isOver_eq] at h
  simp only [Except.ok.injEq, Bool.or_eq_false_iff, decide_eq_false_iff_not, not_forall,
    not_not] at h
  refine ⟨?_, h.2⟩
  have := h.1
  simpa [isWon] using this

/-- A move into a playable column by X or O returns `childOf`, a well-formed
state when the state is. -/
theorem applyMove_childOf (s : ConnectFourState) (c : Fin 7)
    (hcur : s._current_player ≠ Player.None) (htop : s._state 0 c = _EMPTY_STATE) :
    s.applyMove c = .ok (childOf s c) ∧ s.playColumn c = (.ok (), childOf s c) ∧
      (WellFormed s → WellFormed (childOf s c)) := by
  obtain ⟨r, mark, _, _, _, _, hplay, happ⟩ := applyMove_playable s c hcur htop
  have hchild : childOf s c = afterMove s c r s._current_player mark := by
    unfold childOf
    rw [happ]
  rw [hchild]
  exact ⟨happ, hplay, fun hwf => wellFormed_playColumn s _ c hwf hplay⟩

/-- The mark of X or O, from the value of `_map_player_to_state`. -/
theorem mark_of_player (player : Player) (mark : Char)
    (hm : _map_player_to_state player = .ok mark) :
    (player = Player.X ∧ mark = _PLAYER_X_STATE) ∨ (player = Player.O ∧ mark = _PLAYER_O_STATE) := by
  cases player with
  | X =>
    left
    refine ⟨rfl, ?_⟩
    simpa [_map_player_to_state, pure, Except.pure] using hm.symm
  | O =>
    right
    refine ⟨rfl, ?_⟩
    simpa [_map_player_to_state, pure, Except.pure] using hm.symm
  | None => simp [_map_player_to_state, throw, throwThe, MonadExceptOf.throw] at hm

/-- The test of `potentialWins` for the current player, in a state without a
winner: the move wins exactly when it completes four in a line. -/
theorem applyWins_iff_completesFour (s : ConnectFourState) (c : Fin 7)
    (hcur : s._current_player ≠ Player.None) (hnone : s._first_winner = Player.None)
    (htop : s._state 0 c = _EMPTY_STATE) :
    applyWins s s._current_player c = true ↔ completesFour s s._current_player c := by
  obtain ⟨r, mark, hm, _, hr1, hr2, _, happ⟩ := applyMove_playable s c hcur htop
  have huniq : ∀ r' : Fin 6, s._state r' c = _EMPTY_STATE →
      (∀ j : Fin 6, r' < j → s._state j c ≠ _EMPTY_STATE) → r' = r := by
    intro r' h1 h2
    rcases lt_trichotomy r' r with h | h | h
    · exact absurd hr1 (h2 r h)
    · exact h
    · exact absurd h1 (hr2 r' h)
  have hwin : applyWins s s._current_player c = true ↔
      fourThrough (placed s._state r c mark) c r := by
    unfold applyWins
    rw [happ]
    simp only [firstWinner, afterMove, hnone, true_and, decide_eq_true_eq]
    constructor
    · intro h
      by_contra hf
      rw [if_neg hf] at h
      exact hcur h.symm
    · intro h
      rw [if_pos h]
  rw [hwin]
  unfold completesFour
  have hmark := mark_of_player _ _ hm
  constructor
  · intro h
    refine ⟨htop, r, hr1, hr2, ?_⟩
    rcases hmark with ⟨hp, hk⟩ | ⟨hp, hk⟩
    · left
      exact ⟨hp, hk ▸ h⟩
    · right
      exact ⟨hp, hk ▸ h⟩
  · rintro ⟨_, r', h1, h2, h3⟩
    have hr := huniq r' h1 h2
    subst hr
    rcases hmark with ⟨hp, hk⟩ | ⟨hp, hk⟩
    · rcases h3 with ⟨_, h4⟩ | ⟨hq, _⟩
      · exact hk ▸ h4
      · rw [hp] at hq
        cases hq
    · rcases h3 with ⟨hq, _⟩ | ⟨_, h4⟩
      · rw [hp] at hq
        cases hq
      · exact hk ▸ h4

/-- The loop of `potentialWins` over playable columns appends, in order, those
whose move gives `player` as `firstWinner`. -/
theorem potentialWinsLoop_eq (s : ConnectFourState) (player : Player)
    (hcur : s._current_player ≠ Player.None) :
    ∀ (cols : List (Fin 7)) (acc : List Int),
      (∀ c ∈ cols, s._state 0 c = _EMPTY_STATE) →
      s.potentialWinsLoop player (cols.map (fun c : Fin 7 => (c : Int))) acc =
        .ok (acc ++ (cols.filter (applyWins s player)).map (fun c : Fin 7 => (c : Int))) := by
  intro cols
  induction cols with
  | nil =>
    intro acc _
    simp [potentialWinsLoop, pure, Except.pure]
  | cons c rest ih =>
    intro acc hall
    have htop := hall c (List.mem_cons_self _ _)
    have hrest := fun a ha => hall a (List.mem_cons_of_mem _ ha)
    obtain ⟨happ, _, _⟩ := applyMove_childOf s c hcur htop
    have hw : applyWins s player c = decide ((childOf s c).firstWinner = player) := by
      unfold applyWins
      rw [happ]
    rw [List.map_cons, potentialWinsLoop, happ]
    simp only [bind, Except.bind]
    by_cases hf : (childOf s c).firstWinner = player
    · have hw' : applyWins s player c = true := by rw [hw]; simpa using hf
      rw [if_pos hf, ih _ hrest, List.filter_cons, hw']
      simp
    · have hw' : applyWins s player c = false := by rw [hw]; simpa using hf
      rw [if_neg hf, ih _ hrest, List.filter_cons, hw']
      simp

/-- The method `potentialWins` returns, in order, the playable columns whose
move gives `player` as `firstWinner`. -/
theorem potentialWins_eq (s : ConnectFourState) (player : Player)
    (hcur : s._current_player ≠ Player.None) :
    s.potentialWins player =
      .ok ((((List.finRange 7).filter (fun c => s._state 0 c == _EMPTY_STATE)).filter
        (applyWins s player)).map (fun c : Fin 7 => (c : Int))) := by
  unfold potentialWins
  rw [legalMoves_eq]
  simp only [bind, Except.bind]
  rw [potentialWinsLoop_eq s player hcur]
  · simp
  · intro c hc
    simpa using (List.mem_filter.mp hc).2

/-- On a container that is not empty `randomElement` returns one of its
elements after one call of `rand()`. -/
theorem randomElement_mem {T : Type} (rand : Nat → Nat) (calls : Nat) (container : List T)
    (h : container ≠ []) :
    ∃ x ∈ container, randomElement rand calls container = .ok (x, calls + 1) := by
  have hlen : 0 < container.length := List.length_pos.mpr h
  have hidx : rand calls % container.length < container.length := Nat.mod_lt _ hlen
  refine ⟨container[rand calls % container.length], List.getElem_mem _, ?_⟩
  unfold randomElement
  have hne : container.isEmpty = false := by
    cases container with
    | nil => exact absurd rfl h
    | cons a l => rfl
  simp [hne, List.getElem?_eq_getElem hidx]

/-- At most the 42 cells of the board are occupied. -/
theorem occupiedCells_le (g : Grid) : occupiedCells g ≤ 42 := by
  unfold occupiedCells
  refine (Finset.card_filter_le _ _).trans ?_
  simp

/-- Storing a mark in an Empty cell occupies one more cell. -/
theorem occupiedCells_placed (g : Grid) (r : Fin 6) (c : Fin 7) (mark : Char)
    (he : g r c = _EMPTY_STATE) (hm : mark ≠ _EMPTY_STATE) :
    occupiedCells (placed g r c mark) = occupiedCells g + 1 := by
  unfold occupiedCells
  have hset : Finset.univ.filter (fun p : Fin 6 × Fin 7 => placed g r c mark p.1 p.2 ≠ _EMPTY_STATE)
      = insert (r, c) (Finset.univ.filter (fun p : Fin 6 × Fin 7 => g p.1 p.2 ≠ _EMPTY_STATE)) := by
    ext ⟨a, b⟩
    simp only [Finset.mem_filter, Finset.mem_univ, true_and, Finset.mem_insert, Prod.mk.injEq,
      placed]
    by_cases h : a = r ∧ b = c
    · simp [h, hm]
    · simp [h]
  rw [hset, Finset.card_insert_of_not_mem]
  simp [he]

/-- A move into a playable column by X or O occupies one more cell. -/
theorem occupiedCells_childOf (s : ConnectFourState) (c : Fin 7)
    (hcur : s._current_player ≠ Player.None) (htop : s._state 0 c = _EMPTY_STATE) :
    occupiedCells (childOf s c)._state = occupiedCells s._state + 1 := by
  obtain ⟨r, mark, _, hne, hr1, _, _, happ⟩ := applyMove_playable s c hcur htop
  have hchild : childOf s c = afterMove s c r s._current_player mark := by
    unfold childOf
    rw [happ]
  rw [hchild]
  exact occupiedCells_placed s._state r c mark hr1 hne

/-- The list `legalMoves` returns is not empty when some column is playable,
and each of its elements is a playable column. -/
theorem legalMoves_elements (s : ConnectFourState) :
    ∃ legal : List Int, s.legalMoves = .ok legal ∧
      ((∃ c : Fin 7, s._state 0 c = _EMPTY_STATE) → legal ≠ []) ∧
      ∀ column ∈ legal, ∃ c : Fin 7, column = (c : Int) ∧ s._state 0 c = _EMPTY_STATE := by
  refine ⟨_, legalMoves_eq s, ?_, ?_⟩
  · rintro ⟨c, hc⟩ hnil
    have hmem : (c : Int) ∈ ((List.finRange 7).filter
        (fun c => s._state 0 c == _EMPTY_STATE)).map (fun c : Fin 7 => (c : Int)) := by
      apply List.mem_map_of_mem
      simp [List.mem_filter, hc]
    rw [hnil] at hmem
    exact absurd hmem (List.not_mem_nil _)
  · intro column hmem
    obtain ⟨c, hc, rfl⟩ := List.mem_map.mp hmem
    exact ⟨c, rfl, by simpa using (List.mem_filter.mp hc).2⟩

/-- One pass of the loop of `pMCTS_RandomPlaythrough` in a state that is not
over: a playable column is played after one call of `rand()`. -/
theorem randomPlaythroughLoop_step (rand : Nat → Nat) (fuel : Nat) (s : ConnectFourState)
    (calls : Nat) (hcur : s._current_player ≠ Player.None) (hov : s.isOver = .ok false) :
    ∃ c : Fin 7, s._state 0 c = _EMPTY_STATE ∧
      randomPlaythroughLoop rand (fuel + 1) s calls =
        randomPlaythroughLoop rand fuel (childOf s c) (calls + 1) := by
  obtain ⟨_, hex⟩ := not_over_inv s hov
  obtain ⟨legal, hlegal, hne, hall⟩ := legalMoves_elements s
  have hnil := hne hex
  have hlen : 0 < legal.length := List.length_pos.mpr hnil
  have hidx : rand calls % legal.length < legal.length := Nat.mod_lt _ hlen
  obtain ⟨c, hc, htop⟩ := hall _ (List.getElem_mem hidx)
  obtain ⟨_, hplay, _⟩ := applyMove_childOf s c hcur htop
  refine ⟨c, htop, ?_⟩
  rw [randomPlaythroughLoop]
  have hlen' : legal.length ≠ 0 := by omega
  simp only [hov, hlegal, bind, Except.bind, Bool.false_eq_true, if_false, hlen',
    List.getElem?_eq_getElem hidx, hc, hplay]

/-- The loop of `pMCTS_RandomPlaythrough` ends within its fuel in a state that
is over, after one call of `rand()` for each move. -/
theorem randomPlaythroughLoop_terminates (rand : Nat → Nat) :
    ∀ (fuel : Nat) (s : ConnectFourState) (calls : Nat), WellFormed s →
      42 - occupiedCells s._state < fuel →
      ∃ (s' : ConnectFourState) (calls' : Nat),
        randomPlaythroughLoop rand fuel s calls = .ok (s', calls') ∧
        s'.isOver = .ok true ∧ WellFormed s' ∧ calls ≤ calls' ∧
        occupiedCells s'._state = occupiedCells s._state + (calls' - calls) ∧
        (s.isOver = .ok true → s' = s ∧ calls' = calls) := by
  intro fuel
  induction fuel with
  | zero =>
    intro s calls _ h
    omega
  | succ fuel ih =>
    intro s calls hwf hfuel
    cases hb : (s.isWon || decide (∀ c : Fin 7, s._state 0 c ≠ _EMPTY_STATE)) with
    | true =>
      have hov : s.isOver = .ok true := by rw [isOver_eq, hb]
      refine ⟨s, calls, ?_, hov, hwf, le_refl _, by omega, fun _ => ⟨rfl, rfl⟩⟩
      rw [randomPlaythroughLoop]
      simp [hov, bind, Except.bind, pure, Except.pure]
    | false =>
      have hov : s.isOver = .ok false := by rw [isOver_eq, hb]
      obtain ⟨c, htop, hstep⟩ := randomPlaythroughLoop_step rand fuel s calls hwf.1 hov
      obtain ⟨_, _, hwf'⟩ := applyMove_childOf s c hwf.1 htop
      have hocc := occupiedCells_childOf s c hwf.1 htop
      have hle := occupiedCells_le (childOf s c)._state
      obtain ⟨s', calls', hrun, hover, hwf'', hcalls, hcount, _⟩ :=
        ih (childOf s c) (calls + 1) (hwf' hwf) (by omega)
      refine ⟨s', calls', by rw [hstep, hrun], hover, hwf'', by omega, by omega, ?_⟩
      intro h
      rw [hov] at h
      cases h

/-- The choice of `bestColumn` in a state that is not over: a playable column
after one call of `rand()`, a winning one when the mover has one. -/
theorem heuristicColumn_spec (rand : Nat → Nat) (s : ConnectFourState) (calls : Nat)
    (hcur : s._current_player ≠ Player.None) (hov : s.isOver = .ok false) :
    ∃ c : Fin 7, s._state 0 c = _EMPTY_STATE ∧
      heuristicColumn rand s calls = .ok ((c : Int), calls + 1) ∧
      ((∃ c0 : Fin 7, completesFour s s._current_player c0) →
        completesFour s s._current_player c) := by
  obtain ⟨hnone, hex⟩ := not_over_inv s hov
  obtain ⟨legal, hlegal, hne, hall⟩ := legalMoves_elements s
  have hmem_top : ∀ (p : Player) (column : Int),
      column ∈ (((List.finRange 7).filter (fun c => s._state 0 c == _EMPTY_STATE)).filter
        (applyWins s p)).map (fun c : Fin 7 => (c : Int)) →
      ∃ c : Fin 7, column = (c : Int) ∧ s._state 0 c = _EMPTY_STATE ∧ applyWins s p c = true := by
    intro p column hmem
    obtain ⟨c, hc, rfl⟩ := List.mem_map.mp hmem
    obtain ⟨hc1, hc2⟩ := List.mem_filter.mp hc
    exact ⟨c, rfl, by simpa using (List.mem_filter.mp hc1).2, hc2⟩
  unfold heuristicColumn
  simp only [currentPlayer, potentialWins_eq s _ hcur, bind, Except.bind]
  by_cases h1 : (((List.finRange 7).filter (fun c => s._state 0 c == _EMPTY_STATE)).filter
      (applyWins s s._current_player)).map (fun c : Fin 7 => (c : Int)) = []
  · have hno : ¬ ∃ c0 : Fin 7, completesFour s s._current_player c0 := by
      rintro ⟨c0, h0⟩
      have hw := (applyWins_iff_completesFour s c0 hcur hnone h0.1).mpr h0
      have hmem : (c0 : Int) ∈ (((List.finRange 7).filter
          (fun c => s._state 0 c == _EMPTY_STATE)).filter
          (applyWins s s._current_player)).map (fun c : Fin 7 => (c : Int)) := by
        apply List.mem_map_of_mem
        simp [List.mem_filter, h0.1, hw]
      rw [h1] at hmem
      exact absurd hmem (List.not_mem_nil _)
    rw [h1]
    simp only [List.isEmpty_nil, Bool.not_true, Bool.false_eq_true, if_false]
    by_cases h2 : (((List.finRange 7).filter (fun c => s._state 0 c == _EMPTY_STATE)).filter
        (applyWins s (if s._current_player = Player.X then Player.O else Player.X))).map
        (fun c : Fin 7 => (c : Int)) = []
    · rw [h2]
      simp only [List.isEmpty_nil, Bool.not_true, Bool.false_eq_true, if_false, hlegal]
      obtain ⟨x, hx, hrand⟩ := randomElement_mem rand calls legal (hne hex)
      obtain ⟨c, rfl, htop⟩ := hall x hx
      exact ⟨c, htop, hrand, fun h => absurd h hno⟩
    · have hne2 : ((((List.finRange 7).filter (fun c => s._state 0 c == _EMPTY_STATE)).filter
          (applyWins s (if s._current_player = Player.X then Player.O else Player.X))).map
          (fun c : Fin 7 => (c : Int))).isEmpty = false := by
        cases hl : (((List.finRange 7).filter (fun c => s._state 0 c == _EMPTY_STATE)).filter
          (applyWins s (if s._current_player = Player.X then Player.O else Player.X))).map
          (fun c : Fin 7 => (c : Int)) with
        | nil => exact absurd hl h2
        | cons a l => rfl
      simp only [hne2, Bool.not_false, if_true]
      obtain ⟨x, hx, hrand⟩ := randomElement_mem rand calls _ h2
      obtain ⟨c, rfl, htop, _⟩ := hmem_top _ x hx
      exact ⟨c, htop, hrand, fun h => absurd h hno⟩
  · have hne1 : ((((List.finRange 7).filter (fun c => s._state 0 c == _EMPTY_STATE)).filter
        (applyWins s s._current_player)).map (fun c : Fin 7 => (c : Int))).isEmpty = false := by
      cases hl : (((List.finRange 7).filter (fun c => s._state 0 c == _EMPTY_STATE)).filter
        (applyWins s s._current_player)).map (fun c : Fin 7 => (c : Int)) with
      | nil => exact absurd hl h1
      | cons a l => rfl
    simp only [hne1, Bool.not_false, if_true]
    obtain ⟨x, hx, hrand⟩ := randomElement_mem rand calls _ h1
    obtain ⟨c, rfl, htop, hw⟩ := hmem_top _ x hx
    exact ⟨c, htop, hrand, fun _ => (applyWins_iff_completesFour s c hcur hnone htop).mp hw⟩

/-- One pass of the loop of `pMCTS_HeuristicPlaythrough` in a state that is
not over: the column of `heuristicColumn` is played. -/
theorem heuristicPlaythroughLoop_step (rand : Nat → Nat) (fuel : Nat) (s : ConnectFourState)
    (calls : Nat) (hcur : s._current_player ≠ Player.None) (hov : s.isOver = .ok false) :
    ∃ c : Fin 7, s._state 0 c = _EMPTY_STATE ∧
      heuristicColumn rand s calls = .ok ((c : Int), calls + 1) ∧
      heuristicPlaythroughLoop rand (fuel + 1) s calls =
        heuristicPlaythroughLoop rand fuel (childOf s c) (calls + 1) := by
  obtain ⟨c, htop, hcol, _⟩ := heuristicColumn_spec rand s calls hcur hov
  obtain ⟨_, hplay, _⟩ := applyMove_childOf s c hcur htop
  refine ⟨c, htop, hcol, ?_⟩
  rw [heuristicPlaythroughLoop]
  simp only [hov, hcol, bind, Except.bind, Bool.false_eq_true, if_false, hplay]

/-- The loop of `pMCTS_HeuristicPlaythrough` ends within its fuel in a state
that is over, after one call of `rand()` for each move. -/
theorem heuristicPlaythroughLoop_terminates (rand : Nat → Nat) :
    ∀ (fuel : Nat) (s : ConnectFourState) (calls : Nat), WellFormed s →
      42 - occupiedCells s._state < fuel →
      ∃ (s' : ConnectFourState) (calls' : Nat),
        heuristicPlaythroughLoop rand fuel s calls = .ok (s', calls') ∧
        s'.isOver = .ok true ∧ WellFormed s' ∧ calls ≤ calls' ∧
        occupiedCells s'._state = occupiedCells s._state + (calls' - calls) ∧
        (s.isOver = .ok true → s' = s ∧ calls' = calls) := by
  intro fuel
  induction fuel with
  | zero =>
    intro s calls _ h
    omega
  | succ fuel ih =>
    intro s calls hwf hfuel
    cases hb : (s.isWon || decide (∀ c : Fin 7, s._state 0 c ≠ _EMPTY_STATE)) with
    | true =>
      have hov : s.isOver = .ok true := by rw [isOver_eq, hb]
      refine ⟨s, calls, ?_, hov, hwf, le_refl _, by omega, fun _ => ⟨rfl, rfl⟩⟩
      rw [heuristicPlaythroughLoop]
      simp [hov, bind, Except.bind, pure, Except.pure]
    | false =>
      have hov : s.isOver = .ok false := by rw [isOver_eq, hb]
      obtain ⟨c, htop, _, hstep⟩ := heuristicPlaythroughLoop_step rand fuel s calls hwf.1 hov
      obtain ⟨_, _, hwf'⟩ := applyMove_childOf s c hwf.1 htop
      have hocc := occupiedCells_childOf s c hwf.1 htop
      have hle := occupiedCells_le (childOf s c)._state
      obtain ⟨s', calls', hrun, hover, hwf'', hcalls, hcount, _⟩ :=
        ih (childOf s c) (calls + 1) (hwf' hwf) (by omega)
      refine ⟨s', calls', by rw [hstep, hrun], hover, hwf'', by omega, by omega, ?_⟩
      intro h
      rw [hov] at h
      cases h

/-- C11 (evaluation). The trial moves of `potentialWins` are made by
`applyMove`, which plays the mark of the current player whatever `player` is.
In `threatState` it is X's turn and O's mark in column 3 would complete four in
a line, so that `_setColumn(3, O)` gives O as `firstWinner`; column 3 is legal,
and `potentialWins(O)` is empty. -/
theorem potentialWins_misses_other_player :
    threatState.currentPlayer = Player.X ∧
      threatState.firstWinner = Player.None ∧
      threatState.legalMoves = .ok [0, 1, 2, 3, 4, 5, 6] ∧
      completesFour threatState Player.O 3 ∧
      (threatState._setColumn 3 Player.O).2.firstWinner = Player.O ∧
      threatState.potentialWins Player.O = .ok [] := by
  decide

/-- C12. From a state reached from the new game by successful moves, each of
the two playouts returns, for every sequence of values of `rand()`, a state in
which `isOver` is true.  The number of moves is the number of calls of
`rand()`, one in each pass of the loop: it is at most 42 minus the number of
occupied cells, and each move occupied one more cell.  A state that is already
over is returned as it is. -/
theorem playouts_terminate (moves : List Int) (s : ConnectFourState) (rand : Nat → Nat)
    (calls : Nat) (hreach : ConnectFourState.new.playAll moves = .ok s) :
    (∃ (s' : ConnectFourState) (calls' : Nat),
        pMCTS_RandomPlaythrough rand s calls = .ok (s', calls') ∧
        s'.isOver = .ok true ∧ calls ≤ calls' ∧
        calls' - calls ≤ 42 - occupiedCells s._state ∧
        occupiedCells s'._state = occupiedCells s._state + (calls' - calls) ∧
        (s.isOver = .ok true → s' = s)) ∧
      (∃ (s' : ConnectFourState) (calls' : Nat),
        pMCTS_HeuristicPlaythrough rand s calls = .ok (s', calls') ∧
        s'.isOver = .ok true ∧ calls ≤ calls' ∧
        calls' - calls ≤ 42 - occupiedCells s._state ∧
        occupiedCells s'._state = occupiedCells s._state + (calls' - calls) ∧
        (s.isOver = .ok true → s' = s)) := by
  have hwf := wellFormed_playAll moves _ s wellFormed_new hreach
  have hle := occupiedCells_le s._state
  have hfuel : 42 - occupiedCells s._state < playoutFuel := by
    unfold playoutFuel
    omega
  constructor
  · obtain ⟨s', calls', hrun, hover, _, hcalls, hcount, hsame⟩ :=
      randomPlaythroughLoop_terminates rand playoutFuel s calls hwf hfuel
    have hle' := occupiedCells_le s'._state
    exact ⟨s', calls', hrun, hover, hcalls, by omega, hcount, fun h => (hsame h).1⟩
  · obtain ⟨s', calls', hrun, hover, _, hcalls, hcount, hsame⟩ :=
      heuristicPlaythroughLoop_terminates rand playoutFuel s calls hwf hfuel
    have hle' := occupiedCells_le s'._state
    exact ⟨s', calls', hrun, hover, hcalls, by omega, hcount, fun h => (hsame h).1⟩

/-- Instance of `playouts_terminate` on a concrete game. -/
theorem playouts_terminate_witness :
    (∃ (s' : ConnectFourState) (calls' : Nat),
        pMCTS_RandomPlaythrough (fun n => n * 7 + 3) (stateAfter [3, 4, 3]) 0 = .ok (s', calls') ∧
        s'.isOver = .ok true ∧ 0 ≤ calls' ∧
        calls' - 0 ≤ 42 - occupiedCells (stateAfter [3, 4, 3])._state ∧
        occupiedCells s'._state = occupiedCells (stateAfter [3, 4, 3])._state + (calls' - 0) ∧
        ((stateAfter [3, 4, 3]).isOver = .ok true → s' = stateAfter [3, 4, 3])) ∧
      (∃ (s' : ConnectFourState) (calls' : Nat),
        pMCTS_HeuristicPlaythrough (fun n => n * 7 + 3) (stateAfter [3, 4, 3]) 0 =
          .ok (s', calls') ∧
        s'.isOver = .ok true ∧ 0 ≤ calls' ∧
        calls' - 0 ≤ 42 - occupiedCells (stateAfter [3, 4, 3])._state ∧
        occupiedCells s'._state = occupiedCells (stateAfter [3, 4, 3])._state + (calls' - 0) ∧
        ((stateAfter [3, 4, 3]).isOver = .ok true → s' = stateAfter [3, 4, 3])) :=
  playouts_terminate [3, 4, 3] (stateAfter [3, 4, 3]) (fun n => n * 7 + 3) 0 (by decide)

/-- C13. At a pass of the loop of `pMCTS_HeuristicPlaythrough` where the game
is not over and some column completes four in a line for the player to move,
the column chosen is such a column for every sequence of values of `rand()`;
playing it makes the mover `firstWinner`, and the playout returns that state. -/
theorem heuristic_takes_winning_column (s : ConnectFourState) (rand : Nat → Nat) (calls : Nat)
    (hwf : WellFormed s) (hov : s.isOver = .ok false)
    (hex : ∃ c0 : Fin 7, completesFour s s.currentPlayer c0) :
    ∃ (c : Fin 7) (s' : ConnectFourState),
      heuristicColumn rand s calls = .ok ((c : Int), calls + 1) ∧
      completesFour s s.currentPlayer c ∧
      s.playColumn c = (.ok (), s') ∧
      s'.firstWinner = s.currentPlayer ∧ s'.isOver = .ok true ∧
      pMCTS_HeuristicPlaythrough rand s calls = .ok (s', calls + 1) := by
  obtain ⟨hnone, _⟩ := not_over_inv s hov
  obtain ⟨c, htop, hcol, hwin⟩ := heuristicColumn_spec rand s calls hwf.1 hov
  have hfour : completesFour s s._current_player c := hwin hex
  obtain ⟨happ, hplay, _⟩ := applyMove_childOf s c hwf.1 htop
  have hw := (applyWins_iff_completesFour s c hwf.1 hnone htop).mpr hfour
  have hfirst : (childOf s c).firstWinner = s._current_player := by
    unfold applyWins at hw
    rw [happ] at hw
    simpa using hw
  have hover : (childOf s c).isOver = .ok true := by
    rw [isOver_eq]
    have : (childOf s c).isWon = true := by
      unfold isWon
      have h : (childOf s c)._first_winner = s._current_player := hfirst
      simp [h, hwf.1]
    rw [this]
    rfl
  refine ⟨c, childOf s c, hcol, hfour, hplay, hfirst, hover, ?_⟩
  unfold pMCTS_HeuristicPlaythrough playoutFuel
  rw [heuristicPlaythroughLoop]
  simp only [hov, hcol, bind, Except.bind, Bool.false_eq_true, if_false, hplay]
  rw [heuristicPlaythroughLoop]
  simp [hover, bind, Except.bind, pure, Except.pure]

/-- Instance of `heuristic_takes_winning_column` on a concrete game. -/
theorem heuristic_takes_winning_column_witness :
    ∃ (c : Fin 7) (s' : ConnectFourState),
      heuristicColumn (fun n => n * 7 + 3) (stateAfter [3, 4, 3, 4, 3, 4]) 0 =
        .ok ((c : Int), 0 + 1) ∧
      completesFour (stateAfter [3, 4, 3, 4, 3, 4])
        (stateAfter [3, 4, 3, 4, 3, 4]).currentPlayer c ∧
      (stateAfter [3, 4, 3, 4, 3, 4]).playColumn c = (.ok (), s') ∧
      s'.firstWinner = (stateAfter [3, 4, 3, 4, 3, 4]).currentPlayer ∧
      s'.isOver = .ok true ∧
      pMCTS_HeuristicPlaythrough (fun n => n * 7 + 3) (stateAfter [3, 4, 3, 4, 3, 4]) 0 =
        .ok (s', 0 + 1) :=
  heuristic_takes_winning_column (stateAfter [3, 4, 3, 4, 3, 4]) (fun n => n * 7 + 3) 0
    (by decide) (by decide) ⟨3, by decide⟩

/-- C14 (evaluation). In `threatState` the game is not over, no column
completes four in a line for X, who is to move, and column 3 completes four in
a line for O.  The search for the columns of the other player goes through
`potentialWins(O)`, which is empty, so the column is drawn from all the legal
moves: with `rand()` returning `0` the playout plays column 0, which is not a
column that completes four for O. -/
theorem heuristic_misses_denial_column :
    threatState.isOver = .ok false ∧ threatState.currentPlayer = Player.X ∧
      (∀ c : Fin 7, ¬ completesFour threatState Player.X c) ∧
      completesFour threatState Player.O 3 ∧
      threatState.potentialWins Player.X = .ok [] ∧
      threatState.potentialWins Player.O = .ok [] ∧
      heuristicColumn (fun _ => 0) threatState 0 = .ok (0, 1) ∧
      ¬ completesFour threatState Player.O 0 := by
  decide

/-- The loop that fills `childStates`, over playable columns, appends one
candidate for each with the state after the move and the score `0`. -/
theorem childStatesLoop_eq (s : ConnectFourState) (hcur : s._current_player ≠ Player.None) :
    ∀ (cols : List (Fin 7)) (acc : List Candidate),
      (∀ c ∈ cols, s._state 0 c = _EMPTY_STATE) →
      childStatesLoop s (cols.map (fun c : Fin 7 => (c : Int))) acc =
        .ok (acc ++ cols.map (fun c : Fin 7 => (⟨(c : Int), childOf s c, 0⟩ : Candidate))) := by
  intro cols
  induction cols with
  | nil =>
    intro acc _
    simp [childStatesLoop, pure, Except.pure]
  | cons c rest ih =>
    intro acc hall
    have htop := hall c (List.mem_cons_self _ _)
    have hrest := fun a ha => hall a (List.mem_cons_of_mem _ ha)
    obtain ⟨happ, _, _⟩ := applyMove_childOf s c hcur htop
    rw [List.map_cons, childStatesLoop, happ]
    simp only [bind, Except.bind]
    rw [ih _ hrest]
    simp

/-- The candidates built for a root whose current player is X or O. -/
theorem childStates_initial (s : ConnectFourState) (hcur : s._current_player ≠ Player.None) :
    ∃ legal : List Int, s.legalMoves = .ok legal ∧
      childStatesLoop s legal [] = .ok (initialCandidates s) ∧
      (initialCandidates s).map Candidate.column = legal := by
  refine ⟨_, legalMoves_eq s, ?_, ?_⟩
  · rw [childStatesLoop_eq s hcur]
    · simp [initialCandidates]
    · intro c hc
      simpa using (List.mem_filter.mp hc).2
  · simp [initialCandidates, Function.comp_def]

/-- The states of the initial candidates of a well-formed root are well
formed. -/
theorem initialCandidates_wellFormed (s : ConnectFourState) (hwf : WellFormed s) :
    ∀ st ∈ (initialCandidates s).map Candidate.child, WellFormed st := by
  intro st hst
  simp only [initialCandidates, List.map_map, List.mem_map, List.mem_filter, List.mem_finRange,
    true_and, beq_iff_eq, Function.comp_apply] at hst
  obtain ⟨c, htop, rfl⟩ := hst
  exact (applyMove_childOf s c hwf.1 htop).2.2 hwf

/-- A playout from a well-formed state returns. -/
theorem playthrough_ok (rand : Nat → Nat) (MODE : PlaythroughMode) (child : ConnectFourState)
    (calls : Nat) (hwf : WellFormed child) :
    ∃ (final : ConnectFourState) (calls' : Nat),
      playthrough rand MODE child calls = .ok (final, calls') ∧ final.isOver = .ok true := by
  have hle := occupiedCells_le child._state
  have hfuel : 42 - occupiedCells child._state < playoutFuel := by
    unfold playoutFuel
    omega
  unfold playthrough
  by_cases hm : MODE = PlaythroughMode.RANDOM
  · obtain ⟨s', calls', hrun, hover, _⟩ :=
      randomPlaythroughLoop_terminates rand playoutFuel child calls hwf hfuel
    exact ⟨s', calls', by rw [if_pos hm]; exact hrun, hover⟩
  · obtain ⟨s', calls', hrun, hover, _⟩ :=
      heuristicPlaythroughLoop_terminates rand playoutFuel child calls hwf hfuel
    exact ⟨s', calls', by rw [if_neg hm]; exact hrun, hover⟩

/-- The inner loop over candidates with well-formed states returns: one
winner is recorded for each candidate, each candidate is changed by `bump`
with its own winner, and the counter grows by the number of candidates. -/
theorem roundLoop_ok (rand : Nat → Nat) (MODE : PlaythroughMode) (dp op : Player) :
    ∀ (cands : List Candidate) (calls : Nat) (playthroughs : Int),
      (∀ st ∈ cands.map Candidate.child, WellFormed st) →
      ∃ round : Round, roundLoop rand MODE dp op cands calls playthroughs = .ok round ∧
        round.winners.length = cands.length ∧
        round.childStates = List.zipWith (bump dp op) cands round.winners ∧
        round.playthroughs = playthroughs + (cands.length : Int) := by
  intro cands
  induction cands with
  | nil =>
    intro calls playthroughs _
    exact ⟨⟨[], [], calls, playthroughs⟩, rfl, rfl, rfl, by simp⟩
  | cons cand rest ih =>
    intro calls playthroughs hall
    have hwf : WellFormed cand.child := hall _ (by simp)
    have hrest : ∀ st ∈ rest.map Candidate.child, WellFormed st := by
      intro st hst
      exact hall st (by simp only [List.map_cons, List.mem_cons]; exact Or.inr hst)
    obtain ⟨final, calls', hplay, _⟩ := playthrough_ok rand MODE cand.child calls hwf
    obtain ⟨others, hothers, hlen, hzip, hcount⟩ := ih calls' (playthroughs + 1) hrest
    refine ⟨⟨bump dp op cand final.firstWinner :: others.childStates,
      final.firstWinner :: others.winners, others.calls, others.playthroughs⟩, ?_, ?_, ?_, ?_⟩
    · rw [roundLoop, hplay]
      simp only [bind, Except.bind, hothers, pure, Except.pure, bump]
    · simp [hlen]
    · simp [hzip]
    · simp only [hcount, List.length_cons]
      push_cast
      ring

/-- One round leaves the columns and the states of the candidates as they
were. -/
theorem zipWith_bump_fields (dp op : Player) :
    ∀ (cands : List Candidate) (row : List Player), row.length = cands.length →
      (List.zipWith (bump dp op) cands row).map Candidate.child = cands.map Candidate.child ∧
      (List.zipWith (bump dp op) cands row).map Candidate.column = cands.map Candidate.column ∧
      (List.zipWith (bump dp op) cands row).length = cands.length := by
  intro cands
  induction cands with
  | nil =>
    intro row _
    simp
  | cons cand rest ih =>
    intro row hlen
    cases row with
    | nil => simp at hlen
    | cons w ws =>
      have hlen' : ws.length = rest.length := by simpa using hlen
      obtain ⟨h1, h2, h3⟩ := ih ws hlen'
      simp [bump, h1, h2, h3]

/-- The rounds leave the columns and the states of the candidates as they
were. -/
theorem applyRounds_fields (dp op : Player) :
    ∀ (rows : List (List Player)) (cands : List Candidate),
      (∀ row ∈ rows, row.length = cands.length) →
      (applyRounds dp op cands rows).map Candidate.child = cands.map Candidate.child ∧
      (applyRounds dp op cands rows).map Candidate.column = cands.map Candidate.column ∧
      (applyRounds dp op cands rows).length = cands.length := by
  intro rows
  induction rows with
  | nil =>
    intro cands _
    simp [applyRounds]
  | cons row rest ih =>
    intro cands hall
    have hrow := hall row (List.mem_cons_self _ _)
    obtain ⟨h1, h2, h3⟩ := zipWith_bump_fields dp op cands row hrow
    have hrest : ∀ r ∈ rest, r.length = (List.zipWith (bump dp op) cands row).length := by
      intro r hr
      rw [h3]
      exact hall r (List.mem_cons_of_mem _ hr)
    obtain ⟨g1, g2, g3⟩ := ih (List.zipWith (bump dp op) cands row) hrest
    have hfold : applyRounds dp op cands (row :: rest) =
        applyRounds dp op (List.zipWith (bump dp op) cands row) rest := rfl
    rw [hfold, g1, g2, g3, h1, h2, h3]
    exact ⟨rfl, rfl, rfl⟩

/-- One more round at the end of the rounds. -/
theorem applyRounds_append (dp op : Player) (cands : List Candidate) (rows : List (List Player))
    (row : List Player) :
    applyRounds dp op cands (rows ++ [row]) =
      List.zipWith (bump dp op) (applyRounds dp op cands rows) row := by
  simp [applyRounds, List.foldl_append]

/-- A value in the range of `int` is left as it is. -/
theorem wrapInt32_of_range (value : Int) (hlow : -2 ^ 31 ≤ value) (hhigh : value < 2 ^ 31) :
    wrapInt32 value = value := by
  unfold wrapInt32
  omega

/-- Reducing the sum of a reduced value and a second value is reducing the
exact sum. -/
theorem wrapInt32_add (a b : Int) : wrapInt32 (wrapInt32 a + b) = wrapInt32 (a + b) := by
  unfold wrapInt32
  omega

/-- A reduced value is in the range of `int`. -/
theorem wrapInt32_idem (a : Int) : wrapInt32 (wrapInt32 a) = wrapInt32 a := by
  unfold wrapInt32
  omega

/-- After a round every score is in the range of `int`. -/
theorem zipWith_bump_range (dp op : Player) :
    ∀ (cands : List Candidate) (row : List Player),
      ∀ cand ∈ List.zipWith (bump dp op) cands row, wrapInt32 cand.score = cand.score := by
  intro cands
  induction cands with
  | nil =>
    intro row cand h
    simp at h
  | cons c rest ih =>
    intro row cand h
    cases row with
    | nil => simp at h
    | cons w ws =>
      rw [List.zipWith_cons_cons, List.mem_cons] at h
      rcases h with h | h
      · rw [h]
        exact wrapInt32_idem _
      · exact ih ws cand h

/-- The score of candidate `i` after the rounds is its score before them plus
the changes for its winners, reduced to the range of `int`. -/
theorem applyRounds_getElem (dp op : Player) (i : Nat) :
    ∀ (rows : List (List Player)) (cands : List Candidate),
      (∀ row ∈ rows, row.length = cands.length) →
      (∀ cand ∈ cands, wrapInt32 cand.score = cand.score) →
      (applyRounds dp op cands rows)[i]? =
        (cands[i]?).map (fun cand =>
          { cand with
            score := wrapInt32
              (cand.score + (rows.map (fun row => scoreChange dp op (winnerAt row i))).sum) }) := by
  intro rows
  induction rows with
  | nil =>
    intro cands _ hrange
    cases h : cands[i]? with
    | none => simp [applyRounds, h]
    | some c =>
      have hc := hrange c (List.getElem?_mem h)
      simp [applyRounds, h, hc]
  | cons row rest ih =>
    intro cands hall hrange
    have hrow := hall row (List.mem_cons_self _ _)
    obtain ⟨_, _, h3⟩ := zipWith_bump_fields dp op cands row hrow
    have hrest : ∀ r ∈ rest, r.length = (List.zipWith (bump dp op) cands row).length := by
      intro r hr
      rw [h3]
      exact hall r (List.mem_cons_of_mem _ hr)
    have hfold : applyRounds dp op cands (row :: rest) =
        applyRounds dp op (List.zipWith (bump dp op) cands row) rest := rfl
    rw [hfold, ih _ hrest (zipWith_bump_range dp op cands row), List.getElem?_zipWith]
    by_cases hi : i < cands.length
    · have hi' : i < row.length := by omega
      simp only [List.getElem?_eq_getElem hi, List.getElem?_eq_getElem hi', Option.map_some',
        List.map_cons, List.sum_cons, winnerAt, List.getD_eq_getElem?_getD, Option.getD_some,
        bump, wrapInt32_add, add_assoc]
    · have h1 : cands[i]? = none := List.getElem?_eq_none (by omega)
      simp [h1]

/-- A sum of score changes lies between minus the number of rounds and the
number of rounds. -/
theorem sum_scoreChange_bounds (dp op : Player) (i : Nat) (rows : List (List Player)) :
    -(rows.length : Int) ≤ (rows.map (fun row => scoreChange dp op (winnerAt row i))).sum ∧
      (rows.map (fun row => scoreChange dp op (winnerAt row i))).sum ≤ (rows.length : Int) := by
  induction rows with
  | nil => simp
  | cons row rest ih =>
    have hsc : -1 ≤ scoreChange dp op (winnerAt row i) ∧
        scoreChange dp op (winnerAt row i) ≤ 1 := by
      unfold scoreChange
      split
      · decide
      · split <;> decide
    simp only [List.map_cons, List.sum_cons, List.length_cons]
    push_cast
    omega

/-- A sum of score changes: every round counts `1`, except the rounds won by
the other player, which count `-1`. -/
theorem sum_scoreChange (dp op : Player) (hne : op ≠ dp) (i : Nat) :
    ∀ rows : List (List Player),
      (rows.map (fun row => scoreChange dp op (winnerAt row i))).sum =
        (rows.length : Int) - 2 * (rows.countP (fun row => decide (winnerAt row i = op)) : Int) := by
  intro rows
  induction rows with
  | nil => simp
  | cons row rest ih =>
    rw [List.map_cons, List.sum_cons, ih, List.countP_cons, List.length_cons]
    by_cases hw : winnerAt row i = op
    · have hsc : scoreChange dp op (winnerAt row i) = -1 := by
        unfold scoreChange
        rw [hw, if_neg hne, if_pos rfl]
      rw [hsc]
      simp only [hw, decide_True, if_true]
      push_cast
      ring
    · have hsc : scoreChange dp op (winnerAt row i) = 1 := by
        unfold scoreChange
        by_cases hd : winnerAt row i = dp
        · rw [if_pos hd]
        · rw [if_neg hd, if_neg hw]
      rw [hsc]
      simp only [hw, decide_False, Bool.false_eq_true, if_false]
      push_cast
      ring

/-- Under the iteration cutoff the loop condition does not read the clock. -/
theorem continues_iterations (clock : Nat → Int) (maxMs : ℚ) (minIter : Int)
    (iteration readings : Nat) :
    continues clock false maxMs minIter iteration readings =
      decide ((iteration : Int) < minIter) := by
  simp [continues]

/-- The outer loop of `pMCTS_DecideColumn`, started where the candidates are
the initial ones changed by the rounds recorded so far, returns when its
condition fails within the fuel; the same holds where it stops. -/
theorem roundsLoop_ok (env : Env) (MODE : PlaythroughMode) (dp op : Player) (onTime : Bool)
    (maxMs : ℚ) (minIter : Int) (init : List Candidate)
    (hinit : ∀ st ∈ init.map Candidate.child, WellFormed st) :
    ∀ (fuel : Nat) (search : Search),
      search.childStates = applyRounds dp op init search.winners →
      (∀ row ∈ search.winners, row.length = init.length) →
      search.winners.length = search.iteration →
      search.playthroughs = (search.iteration : Int) * (init.length : Int) →
      (∃ j : Nat, j ≤ fuel ∧
        continues env.clock onTime maxMs minIter (search.iteration + j) (search.readings + j)
          = false) →
      ∃ search' : Search,
        roundsLoop env MODE dp op onTime maxMs minIter fuel search = .ok search' ∧
        search'.childStates = applyRounds dp op init search'.winners ∧
        (∀ row ∈ search'.winners, row.length = init.length) ∧
        search'.winners.length = search'.iteration ∧
        search'.playthroughs = (search'.iteration : Int) * (init.length : Int) ∧
        search.iteration ≤ search'.iteration ∧ search'.iteration ≤ search.iteration + fuel ∧
        (continues env.clock onTime maxMs minIter search.iteration search.readings = true →
          search.iteration < search'.iteration) ∧
        (continues env.clock onTime maxMs minIter search.iteration search.readings = false →
          search'.iteration = search.iteration) ∧
        (onTime = false → (search'.iteration : Int) = max (search.iteration : Int) minIter) := by
  intro fuel
  induction fuel with
  | zero =>
    intro search h1 h2 h3 h4 hfire
    obtain ⟨j, hj, hstop⟩ := hfire
    have hj0 : j = 0 := by omega
    subst hj0
    simp only [Nat.add_zero] at hstop
    refine ⟨{ search with readings := afterTest onTime search.readings }, ?_, h1, h2, h3, h4,
      le_refl _, by simp, ?_, fun _ => rfl, ?_⟩
    · rw [roundsLoop]
      simp [hstop, pure, Except.pure]
    · intro h
      rw [hstop] at h
      cases h
    · intro hT
      subst hT
      rw [continues_iterations] at hstop
      have : ¬ ((search.iteration : Int) < minIter) := by simpa using hstop
      simp only
      omega
  | succ fuel ih =>
    intro search h1 h2 h3 h4 hfire
    cases hc : continues env.clock onTime maxMs minIter search.iteration search.readings with
    | false =>
      refine ⟨{ search with readings := afterTest onTime search.readings }, ?_, h1, h2, h3, h4,
        le_refl _, by simp, ?_, fun _ => rfl, ?_⟩
      · rw [roundsLoop]
        simp [hc, pure, Except.pure]
      · intro h
        cases h
      · intro hT
        subst hT
        rw [continues_iterations] at hc
        have : ¬ ((search.iteration : Int) < minIter) := by simpa using hc
        simp only
        omega
    | true =>
      obtain ⟨hchild, _, hlen⟩ := applyRounds_fields dp op search.winners init h2
      have hwfc : ∀ st ∈ search.childStates.map Candidate.child, WellFormed st := by
        rw [h1, hchild]
        exact hinit
      obtain ⟨round, hround, hwlen, hzip, hcount⟩ :=
        roundLoop_ok env.rand MODE dp op search.childStates search.calls search.playthroughs hwfc
      have hcslen : search.childStates.length = init.length := by rw [h1, hlen]
      obtain ⟨j, hj, hstop⟩ := hfire
      have hjpos : 0 < j := by
        rcases Nat.eq_zero_or_pos j with h0 | h0
        · subst h0
          simp only [Nat.add_zero] at hstop
          rw [hstop] at hc
          cases hc
        · exact h0
      have hfire' : ∃ j' : Nat, j' ≤ fuel ∧
          continues env.clock onTime maxMs minIter (search.iteration + 1 + j')
            (afterTest onTime search.readings + j') = false := by
        refine ⟨j - 1, by omega, ?_⟩
        have e1 : search.iteration + 1 + (j - 1) = search.iteration + j := by omega
        rw [e1]
        cases onTime with
        | true =>
          have e2 : afterTest true search.readings + (j - 1) = search.readings + j := by
            simp only [afterTest, if_true]
            omega
          rw [e2]
          exact hstop
        | false =>
          rw [continues_iterations] at hstop ⊢
          exact hstop
      obtain ⟨search', hrun, g1, g2, g3, g4, g5, g6, _, _, g9⟩ :=
        ih { childStates := round.childStates
             playthroughs := round.playthroughs
             iteration := search.iteration + 1
             calls := round.calls
             readings := afterTest onTime search.readings
             winners := search.winners ++ [round.winners] }
          (by
            simp only
            rw [applyRounds_append, ← h1, hzip])
          (by
            intro row hrow
            simp only [List.mem_append, List.mem_singleton] at hrow
            rcases hrow with h | h
            · exact h2 row h
            · rw [h, hwlen, hcslen])
          (by simp [h3])
          (by
            simp only
            rw [hcount, h4, hcslen]
            push_cast
            ring)
          hfire'
      simp only at g5 g6 g9
      refine ⟨search', ?_, g1, g2, g3, g4, by omega, by omega, fun _ => by omega, ?_, ?_⟩
      · rw [roundsLoop]
        simp only [hc, if_true, bind, Except.bind, hround]
        exact hrun
      · intro h
        cases h
      · intro hT
        have h9 := g9 hT
        subst hT
        rw [continues_iterations] at hc
        have : (search.iteration : Int) < minIter := by simpa using hc
        rw [h9]
        push_cast
        omega

/-- The selection loop returns a score that is at least the starting score
and every visited score, and a pair that is the starting pair or the column
and score of a visited candidate. -/
theorem selectLoop_spec (rand : Nat → Nat) :
    ∀ (cands : List Candidate) (bestColumn bestScore : Int) (calls : Nat),
      bestScore ≤ (selectLoop rand cands bestColumn bestScore calls).2.1 ∧
      (∀ cand ∈ cands, cand.score ≤ (selectLoop rand cands bestColumn bestScore calls).2.1) ∧
      (((selectLoop rand cands bestColumn bestScore calls).1 = bestColumn ∧
          (selectLoop rand cands bestColumn bestScore calls).2.1 = bestScore) ∨
        ∃ cand ∈ cands, cand.column = (selectLoop rand cands bestColumn bestScore calls).1 ∧
          cand.score = (selectLoop rand cands bestColumn bestScore calls).2.1) := by
  intro cands
  induction cands with
  | nil =>
    intro bestColumn bestScore calls
    simp [selectLoop]
  | cons cand rest ih =>
    intro bestColumn bestScore calls
    have take : ∀ calls' : Nat, bestScore ≤ cand.score →
        bestScore ≤ (selectLoop rand rest cand.column cand.score calls').2.1 ∧
        (∀ c ∈ cand :: rest, c.score ≤ (selectLoop rand rest cand.column cand.score calls').2.1) ∧
        (((selectLoop rand rest cand.column cand.score calls').1 = bestColumn ∧
            (selectLoop rand rest cand.column cand.score calls').2.1 = bestScore) ∨
          ∃ c ∈ cand :: rest, c.column = (selectLoop rand rest cand.column cand.score calls').1 ∧
            c.score = (selectLoop rand rest cand.column cand.score calls').2.1) := by
      intro calls' hle
      obtain ⟨a1, a2, a3⟩ := ih cand.column cand.score calls'
      refine ⟨le_trans hle a1, ?_, ?_⟩
      · intro c hc
        rcases List.mem_cons.mp hc with h | h
        · rw [h]; exact a1
        · exact a2 c h
      · right
        rcases a3 with ⟨b1, b2⟩ | ⟨c, hc, b1, b2⟩
        · exact ⟨cand, List.mem_cons_self _ _, b1.symm, b2.symm⟩
        · exact ⟨c, List.mem_cons_of_mem _ hc, b1, b2⟩
    have keep : ∀ calls' : Nat, cand.score ≤ bestScore →
        bestScore ≤ (selectLoop rand rest bestColumn bestScore calls').2.1 ∧
        (∀ c ∈ cand :: rest, c.score ≤ (selectLoop rand rest bestColumn bestScore calls').2.1) ∧
        (((selectLoop rand rest bestColumn bestScore calls').1 = bestColumn ∧
            (selectLoop rand rest bestColumn bestScore calls').2.1 = bestScore) ∨
          ∃ c ∈ cand :: rest, c.column = (selectLoop rand rest bestColumn bestScore calls').1 ∧
            c.score = (selectLoop rand rest bestColumn bestScore calls').2.1) := by
      intro calls' hle
      obtain ⟨a1, a2, a3⟩ := ih bestColumn bestScore calls'
      refine ⟨a1, ?_, ?_⟩
      · intro c hc
        rcases List.mem_cons.mp hc with h | h
        · rw [h]; exact le_trans hle a1
        · exact a2 c h
      · rcases a3 with h | ⟨c, hc, b1, b2⟩
        · exact Or.inl h
        · exact Or.inr ⟨c, List.mem_cons_of_mem _ hc, b1, b2⟩
    rw [selectLoop]
    by_cases h1 : cand.score > bestScore
    · rw [if_pos h1]
      exact take calls (le_of_lt h1)
    · rw [if_neg h1]
      by_cases h2 : cand.score = bestScore
      · rw [if_pos h2]
        by_cases h3 : rand calls % 2 = 0
        · rw [if_pos h3]
          exact take (calls + 1) (le_of_eq h2.symm)
        · rw [if_neg h3]
          exact keep (calls + 1) (le_of_eq h2)
      · rw [if_neg h2]
        exact keep calls (le_of_not_gt h1)

/-- The other player of a root is not its current player. -/
theorem otherPlayer_ne (s : ConnectFourState) : otherPlayer s ≠ s.currentPlayer := by
  unfold otherPlayer
  by_cases h : Player.X = s.currentPlayer
  · rw [if_pos h, ← h]
    decide
  · rw [if_neg h]
    exact h

/-- The first part of `pMCTS_DecideColumn` on a well-formed root that is not
over, with a budget of at least 0.1 seconds and a cutoff that fires within the
fuel: the search returns, its candidates are the initial ones changed by the
recorded rounds, and the counters are those of the rounds. -/
theorem searchRounds_spec (env : Env) (fuel : Nat) (s : ConnectFourState)
    (MODE : PlaythroughMode) (maxSeconds : ℚ) (CUTOFF : DecisionCutoff) (minIter : Int)
    (hwf : WellFormed s) (hov : s.isOver = .ok false) (hbudget : ¬ maxSeconds < 1 / 10)
    (hfire : cutoffFires env fuel maxSeconds CUTOFF minIter) :
    ∃ search : Search,
      searchRounds env fuel s MODE maxSeconds CUTOFF minIter = .ok search ∧
      search.childStates =
        applyRounds s.currentPlayer (otherPlayer s) (initialCandidates s) search.winners ∧
      (∀ row ∈ search.winners, row.length = (initialCandidates s).length) ∧
      search.winners.length = search.iteration ∧
      search.playthroughs = (search.iteration : Int) * ((initialCandidates s).length : Int) ∧
      search.iteration ≤ fuel ∧
      (firstTest env maxSeconds CUTOFF minIter = true → 0 < search.iteration) ∧
      (firstTest env maxSeconds CUTOFF minIter = false → search.iteration = 0) ∧
      (CUTOFF = DecisionCutoff.ITERATIONS → (search.iteration : Int) = max 0 minIter) := by
  obtain ⟨legal, hlegal, hchildren, _⟩ := childStates_initial s hwf.1
  obtain ⟨j, hj, hstop⟩ := hfire
  obtain ⟨search, hrun, g1, g2, g3, g4, _, g6, g7, g8, g9⟩ :=
    roundsLoop_ok env MODE s.currentPlayer (otherPlayer s)
      (decide (CUTOFF = DecisionCutoff.TIME)) (env.timesThousand maxSeconds) minIter
      (initialCandidates s) (initialCandidates_wellFormed s hwf) fuel
      { childStates := initialCandidates s
        playthroughs := 0
        iteration := 0
        calls := 0
        readings := 0
        winners := [] }
      (by simp [applyRounds]) (by simp) (by simp) (by simp)
      ⟨j, hj, by simpa using hstop⟩
  simp only [Nat.zero_add] at g6
  refine ⟨search, ?_, g1, g2, g3, g4, g6, g7, g8, ?_⟩
  · unfold searchRounds
    simp only [hov, bind, Except.bind, Bool.false_eq_true, if_false, hbudget, hlegal, hchildren]
    exact hrun
  · intro hc
    have := g9 (by simp [hc])
    simpa using this

/-- The function `pMCTS_DecideColumn` after a search that returned. -/
theorem decideColumn_of_search (env : Env) (fuel : Nat) (s : ConnectFourState)
    (MODE : PlaythroughMode) (maxSeconds : ℚ) (CUTOFF : DecisionCutoff) (minIter : Int)
    (search : Search)
    (h : searchRounds env fuel s MODE maxSeconds CUTOFF minIter = .ok search) :
    ∃ d : Decision, pMCTS_DecideColumn env fuel s MODE maxSeconds CUTOFF minIter = .ok d ∧
      d.player = s.currentPlayer ∧ d.mode = MODE ∧ d.cutoff = CUTOFF ∧ d.turn = -1 ∧
      d.column = (selectLoop env.rand search.childStates (-1) INT_MIN search.calls).1 ∧
      d.score = (selectLoop env.rand search.childStates (-1) INT_MIN search.calls).2.1 ∧
      d.possibleColumns = (search.childStates.length : Int) ∧
      d.playthroughs = search.playthroughs := by
  unfold pMCTS_DecideColumn
  rw [h]
  exact ⟨_, rfl, rfl, rfl, rfl, rfl, rfl, rfl, rfl, rfl⟩

/-- The initial score `0` is in the range of `int`. -/
theorem zero_scores_range (init : List Candidate) (hzero : ∀ cand ∈ init, cand.score = 0) :
    ∀ cand ∈ init, wrapInt32 cand.score = cand.score := by
  intro cand hcand
  rw [hzero cand hcand]
  decide

/-- After fewer than `2 ^ 31` rounds every score is above `INT_MIN`. -/
theorem scores_above_INT_MIN (dp op : Player) (init : List Candidate)
    (rows : List (List Player)) (hrows : ∀ row ∈ rows, row.length = init.length)
    (hzero : ∀ cand ∈ init, cand.score = 0) (hlen : rows.length < 2 ^ 31) :
    ∀ cand ∈ applyRounds dp op init rows, INT_MIN < cand.score := by
  intro cand hcand
  obtain ⟨i, hi, hget⟩ := List.getElem_of_mem hcand
  have hsome : (applyRounds dp op init rows)[i]? = some cand := by
    rw [List.getElem?_eq_getElem hi, hget]
  rw [applyRounds_getElem dp op i rows init hrows (zero_scores_range init hzero)] at hsome
  cases hinit : init[i]? with
  | none => simp [hinit] at hsome
  | some c0 =>
    rw [hinit] at hsome
    simp only [Option.map_some', Option.some.injEq] at hsome
    have hc0 : c0.score = 0 := hzero c0 (List.getElem?_mem hinit)
    obtain ⟨hb1, hb2⟩ := sum_scoreChange_bounds dp op i rows
    have hl : (rows.length : Int) < 2 ^ 31 := by exact_mod_cast hlen
    rw [← hsome]
    simp only [hc0, INT_MIN, zero_add]
    rw [wrapInt32_of_range _ (by omega) (by omega)]
    omega

/-- The selection among candidates whose scores are all above `INT_MIN`, at
least one candidate being there: the pair returned is the column and score of
one of them, and no candidate has a higher score. -/
theorem selectLoop_best (rand : Nat → Nat) (cands : List Candidate) (calls : Nat)
    (hne : cands ≠ []) (habove : ∀ cand ∈ cands, INT_MIN < cand.score) :
    ∃ best ∈ cands, best.column = (selectLoop rand cands (-1) INT_MIN calls).1 ∧
      best.score = (selectLoop rand cands (-1) INT_MIN calls).2.1 ∧
      ∀ cand ∈ cands, cand.score ≤ (selectLoop rand cands (-1) INT_MIN calls).2.1 := by
  obtain ⟨_, a2, a3⟩ := selectLoop_spec rand cands (-1) INT_MIN calls
  rcases a3 with ⟨_, b2⟩ | ⟨best, hbest, b1, b2⟩
  · obtain ⟨c0, hc0⟩ := List.exists_mem_of_ne_nil cands hne
    have h1 := a2 c0 hc0
    have h2 := habove c0 hc0
    rw [b2] at h1
    omega
  · exact ⟨best, hbest, b1, b2, a2⟩

/-- The initial candidates have the score `0`. -/
theorem initialCandidates_score (s : ConnectFourState) :
    ∀ cand ∈ initialCandidates s, cand.score = 0 := by
  intro cand hmem
  simp only [initialCandidates, List.mem_map] at hmem
  obtain ⟨c, _, hc⟩ := hmem
  rw [← hc]

/-- The decision on a well-formed root that is not over, with a budget of at
least 0.1 seconds and a cutoff that fires within the fuel: the search and the
decision return, and the fields of the decision are those of the search. -/
theorem decideColumn_spec (env : Env) (fuel : Nat) (s : ConnectFourState)
    (MODE : PlaythroughMode) (maxSeconds : ℚ) (CUTOFF : DecisionCutoff) (minIter : Int)
    (hwf : WellFormed s) (hov : s.isOver = .ok false) (hbudget : ¬ maxSeconds < 1 / 10)
    (hfire : cutoffFires env fuel maxSeconds CUTOFF minIter) :
    ∃ (legal : List Int) (search : Search) (d : Decision),
      s.legalMoves = .ok legal ∧ legal ≠ [] ∧
      searchRounds env fuel s MODE maxSeconds CUTOFF minIter = .ok search ∧
      pMCTS_DecideColumn env fuel s MODE maxSeconds CUTOFF minIter = .ok d ∧
      search.childStates =
        applyRounds s.currentPlayer (otherPlayer s) (initialCandidates s) search.winners ∧
      (initialCandidates s).map Candidate.column = legal ∧
      search.childStates.map Candidate.column = legal ∧
      search.childStates.length = legal.length ∧
      (∀ row ∈ search.winners, row.length = legal.length) ∧
      search.winners.length = search.iteration ∧
      search.iteration ≤ fuel ∧
      (firstTest env maxSeconds CUTOFF minIter = true → 0 < search.iteration) ∧
      (firstTest env maxSeconds CUTOFF minIter = false → search.iteration = 0) ∧
      (CUTOFF = DecisionCutoff.ITERATIONS → (search.iteration : Int) = max 0 minIter) ∧
      d.column = (selectLoop env.rand search.childStates (-1) INT_MIN search.calls).1 ∧
      d.score = (selectLoop env.rand search.childStates (-1) INT_MIN search.calls).2.1 ∧
      d.possibleColumns = (legal.length : Int) ∧
      d.playthroughs = (search.iteration : Int) * (legal.length : Int) := by
  obtain ⟨legal, hlegal, _, hcols⟩ := childStates_initial s hwf.1
  obtain ⟨_, hex⟩ := not_over_inv s hov
  obtain ⟨legal', hlegal', hne, _⟩ := legalMoves_elements s
  have hsame : legal' = legal := by
    rw [hlegal] at hlegal'
    exact (Except.ok.inj hlegal').symm
  subst hsame
  obtain ⟨search, hsearch, g1, g2, g3, g4, g5, g6, g7, g8⟩ :=
    searchRounds_spec env fuel s MODE maxSeconds CUTOFF minIter hwf hov hbudget hfire
  obtain ⟨d, hd, _, _, _, _, d5, d6, d7, d8⟩ :=
    decideColumn_of_search env fuel s MODE maxSeconds CUTOFF minIter search hsearch
  obtain ⟨_, f2, f3⟩ :=
    applyRounds_fields s.currentPlayer (otherPlayer s) search.winners (initialCandidates s) g2
  have hlen : (initialCandidates s).length = legal'.length := by
    rw [← hcols, List.length_map]
  have hcslen : search.childStates.length = legal'.length := by rw [g1, f3, hlen]
  refine ⟨legal', search, d, hlegal, hne hex, hsearch, hd, g1, hcols, ?_, hcslen, ?_, g3, g5, g6,
    g7, g8, d5, d6, ?_, ?_⟩
  · rw [g1, f2, hcols]
  · intro row hrow
    rw [g2 row hrow, hlen]
  · rw [d7, hcslen]
  · rw [d8, g4, hlen]

/-- C15. On a root for which `isOver` is true the decision throws the
already-terminal error (`std::runtime_error`) at its first statement, whatever
the mode, the cutoff, the budget, the random values and the clock: the
candidates are not built and no playout runs. -/
theorem decideColumn_rejects_terminal_root (env : Env) (fuel : Nat) (s : ConnectFourState)
    (MODE : PlaythroughMode) (maxSeconds : ℚ) (CUTOFF : DecisionCutoff) (minIter : Int)
    (hov : s.isOver = .ok true) :
    searchRounds env fuel s MODE maxSeconds CUTOFF minIter = .error Error.runtimeError ∧
      pMCTS_DecideColumn env fuel s MODE maxSeconds CUTOFF minIter =
        .error Error.runtimeError := by
  have h : searchRounds env fuel s MODE maxSeconds CUTOFF minIter = .error Error.runtimeError := by
    unfold searchRounds
    simp only [hov, bind, Except.bind, if_true]
    rfl
  refine ⟨h, ?_⟩
  unfold pMCTS_DecideColumn
  rw [h]
  rfl

/-- Instance of `decideColumn_rejects_terminal_root` on a won game. -/
theorem decideColumn_rejects_terminal_root_witness :
    searchRounds sampleEnv 5 (stateAfter [3, 4, 3, 4, 3, 4, 3]) PlaythroughMode.HEURISTIC 1
        DecisionCutoff.ITERATIONS 3 = .error Error.runtimeError ∧
      pMCTS_DecideColumn sampleEnv 5 (stateAfter [3, 4, 3, 4, 3, 4, 3]) PlaythroughMode.HEURISTIC 1
        DecisionCutoff.ITERATIONS 3 = .error Error.runtimeError :=
  decideColumn_rejects_terminal_root sampleEnv 5 (stateAfter [3, 4, 3, 4, 3, 4, 3])
    PlaythroughMode.HEURISTIC 1 DecisionCutoff.ITERATIONS 3 (by decide)

/-- C16. On a root that is not over, a budget below 0.1 seconds makes the
decision throw the invalid-budget error (`std::invalid_argument`) at its second
statement, before the candidates are built and any playout runs; with the
budget 0.1 the decision returns. -/
theorem decideColumn_budget_floor (env : Env) (fuel : Nat) (s : ConnectFourState)
    (MODE : PlaythroughMode) (maxSeconds : ℚ) (CUTOFF : DecisionCutoff) (minIter : Int)
    (hwf : WellFormed s) (hov : s.isOver = .ok false) (hlow : maxSeconds < 1 / 10)
    (hfire : cutoffFires env fuel (1 / 10) CUTOFF minIter) :
    searchRounds env fuel s MODE maxSeconds CUTOFF minIter = .error Error.invalidArgument ∧
      pMCTS_DecideColumn env fuel s MODE maxSeconds CUTOFF minIter =
        .error Error.invalidArgument ∧
      ∃ d : Decision, pMCTS_DecideColumn env fuel s MODE (1 / 10) CUTOFF minIter = .ok d := by
  have h : searchRounds env fuel s MODE maxSeconds CUTOFF minIter =
      .error Error.invalidArgument := by
    unfold searchRounds
    simp only [hov, bind, Except.bind, Bool.false_eq_true, if_false, hlow, if_true]
    rfl
  refine ⟨h, ?_, ?_⟩
  · unfold pMCTS_DecideColumn
    rw [h]
    rfl
  · obtain ⟨_, _, d, _, _, _, hd, _⟩ :=
      decideColumn_spec env fuel s MODE (1 / 10) CUTOFF minIter hwf hov (lt_irrefl _) hfire
    exact ⟨d, hd⟩

/-- Instance of `decideColumn_budget_floor`: the new game, a budget of 0.05
seconds, the time cutoff. -/
theorem decideColumn_budget_floor_witness :
    searchRounds sampleEnv 5 ConnectFourState.new PlaythroughMode.RANDOM (1 / 20)
        DecisionCutoff.TIME 0 = .error Error.invalidArgument ∧
      pMCTS_DecideColumn sampleEnv 5 ConnectFourState.new PlaythroughMode.RANDOM (1 / 20)
        DecisionCutoff.TIME 0 = .error Error.invalidArgument ∧
      ∃ d : Decision, pMCTS_DecideColumn sampleEnv 5 ConnectFourState.new PlaythroughMode.RANDOM
        (1 / 10) DecisionCutoff.TIME 0 = .ok d :=
  decideColumn_budget_floor sampleEnv 5 ConnectFourState.new PlaythroughMode.RANDOM (1 / 20)
    DecisionCutoff.TIME 0 wellFormed_new (by decide) (by norm_num)
    ⟨2, by decide, by norm_num [continues, sampleEnv]⟩

/-- C17. A decision that returns on a root with `k` legal moves ran one
playout for each candidate in each round: every recorded round has `k`
winners, the playthroughs count is the number of rounds times `k`, and under
the iteration cutoff with `MINIMUM_ITERATIONS = n ≥ 0` it is `n * k`. -/
theorem playthroughs_rounds_times_candidates (env : Env) (fuel : Nat) (s : ConnectFourState)
    (MODE : PlaythroughMode) (maxSeconds : ℚ) (CUTOFF : DecisionCutoff) (minIter : Int)
    (hwf : WellFormed s) (hov : s.isOver = .ok false) (hbudget : ¬ maxSeconds < 1 / 10)
    (hfire : cutoffFires env fuel maxSeconds CUTOFF minIter) :
    ∃ (legal : List Int) (search : Search) (d : Decision),
      s.legalMoves = .ok legal ∧
      searchRounds env fuel s MODE maxSeconds CUTOFF minIter = .ok search ∧
      pMCTS_DecideColumn env fuel s MODE maxSeconds CUTOFF minIter = .ok d ∧
      d.possibleColumns = (legal.length : Int) ∧
      search.winners.length = search.iteration ∧
      (∀ row ∈ search.winners, row.length = legal.length) ∧
      d.playthroughs = (search.iteration : Int) * (legal.length : Int) ∧
      (CUTOFF = DecisionCutoff.ITERATIONS → 0 ≤ minIter →
        d.playthroughs = minIter * (legal.length : Int)) := by
  obtain ⟨legal, search, d, h1, _, h3, h4, _, _, _, _, h9, h10, _, _, _, h14, _, _, h17, h18⟩ :=
    decideColumn_spec env fuel s MODE maxSeconds CUTOFF minIter hwf hov hbudget hfire
  refine ⟨legal, search, d, h1, h3, h4, h17, h10, h9, h18, ?_⟩
  intro hc hn
  rw [h18, h14 hc, max_eq_right hn]

/-- Instance of `playthroughs_rounds_times_candidates`: the new game, two
rounds under the iteration cutoff. -/
theorem playthroughs_rounds_times_candidates_witness :
    ∃ (legal : List Int) (search : Search) (d : Decision),
      ConnectFourState.new.legalMoves = .ok legal ∧
      searchRounds sampleEnv 2 ConnectFourState.new PlaythroughMode.RANDOM 1
        DecisionCutoff.ITERATIONS 2 = .ok search ∧
      pMCTS_DecideColumn sampleEnv 2 ConnectFourState.new PlaythroughMode.RANDOM 1
        DecisionCutoff.ITERATIONS 2 = .ok d ∧
      d.possibleColumns = (legal.length : Int) ∧
      search.winners.length = search.iteration ∧
      (∀ row ∈ search.winners, row.length = legal.length) ∧
      d.playthroughs = (search.iteration : Int) * (legal.length : Int) ∧
      (DecisionCutoff.ITERATIONS = DecisionCutoff.ITERATIONS → (0 : Int) ≤ 2 →
        d.playthroughs = 2 * (legal.length : Int)) :=
  playthroughs_rounds_times_candidates sampleEnv 2 ConnectFourState.new PlaythroughMode.RANDOM 1
    DecisionCutoff.ITERATIONS 2 wellFormed_new (by decide) (by norm_num)
    ⟨2, by decide, by decide⟩

/-- What the inner loop records when it returns: the winner of a playout of
each candidate, and the states of the candidates are left as they were. -/
theorem roundLoop_winners (rand : Nat → Nat) (MODE : PlaythroughMode) (dp op : Player)
    (W : Player → Prop) :
    ∀ (cands : List Candidate) (calls : Nat) (playthroughs : Int) (round : Round),
      (∀ child ∈ cands.map Candidate.child, ∀ (n : Nat) (final : ConnectFourState) (n' : Nat),
        playthrough rand MODE child n = .ok (final, n') → W final.firstWinner) →
      roundLoop rand MODE dp op cands calls playthroughs = .ok round →
      (∀ w ∈ round.winners, W w) ∧
        round.childStates.map Candidate.child = cands.map Candidate.child := by
  intro cands
  induction cands with
  | nil =>
    intro calls playthroughs round _ h
    simp only [roundLoop, pure, Except.pure, Except.ok.injEq] at h
    rw [← h]
    exact ⟨fun w hw => absurd hw (List.not_mem_nil _), rfl⟩
  | cons cand rest ih =>
    intro calls playthroughs round hall h
    rw [roundLoop] at h
    cases hp : playthrough rand MODE cand.child calls with
    | error e =>
      rw [hp] at h
      cases h
    | ok res =>
      obtain ⟨final, calls'⟩ := res
      rw [hp] at h
      simp only [bind, Except.bind] at h
      cases hr : roundLoop rand MODE dp op rest calls' (playthroughs + 1) with
      | error e =>
        rw [hr] at h
        cases h
      | ok others =>
        rw [hr] at h
        simp only [pure, Except.pure, Except.ok.injEq] at h
        have hrest : ∀ child ∈ rest.map Candidate.child,
            ∀ (n : Nat) (final : ConnectFourState) (n' : Nat),
              playthrough rand MODE child n = .ok (final, n') → W final.firstWinner := by
          intro child hchild
          exact hall child (by simp only [List.map_cons, List.mem_cons]; exact Or.inr hchild)
        obtain ⟨hw, hch⟩ := ih calls' (playthroughs + 1) others hrest hr
        rw [← h]
        refine ⟨?_, ?_⟩
        · intro w hmem
          rcases List.mem_cons.mp hmem with h1 | h1
          · rw [h1]
            exact hall cand.child (by simp) calls final calls' hp
          · exact hw w h1
        · simp only [List.map_cons, hch]

/-- What the outer loop records when it returns: in every round, the winner of
a playout of each candidate. -/
theorem roundsLoop_winners (env : Env) (MODE : PlaythroughMode) (dp op : Player) (onTime : Bool)
    (maxMs : ℚ) (minIter : Int) (W : Player → Prop) (init : List Candidate)
    (hinit : ∀ child ∈ init.map Candidate.child,
      ∀ (n : Nat) (final : ConnectFourState) (n' : Nat),
        playthrough env.rand MODE child n = .ok (final, n') → W final.firstWinner) :
    ∀ (fuel : Nat) (search search' : Search),
      search.childStates.map Candidate.child = init.map Candidate.child →
      (∀ row ∈ search.winners, ∀ w ∈ row, W w) →
      roundsLoop env MODE dp op onTime maxMs minIter fuel search = .ok search' →
      ∀ row ∈ search'.winners, ∀ w ∈ row, W w := by
  intro fuel
  induction fuel with
  | zero =>
    intro search search' _ hrows h
    rw [roundsLoop] at h
    split at h
    · cases h
    · simp only [pure, Except.pure, Except.ok.injEq] at h
      rw [← h]
      exact hrows
  | succ fuel ih =>
    intro search search' hch hrows h
    rw [roundsLoop] at h
    split at h
    · cases hr : roundLoop env.rand MODE dp op search.childStates search.calls
          search.playthroughs with
      | error e =>
        rw [hr] at h
        cases h
      | ok round =>
        rw [hr] at h
        simp only [bind, Except.bind] at h
        obtain ⟨hw, hch'⟩ := roundLoop_winners env.rand MODE dp op W search.childStates
          search.calls search.playthroughs round (by rw [hch]; exact hinit) hr
        refine ih _ search' (by simp only; rw [hch', hch]) ?_ h
        intro row hrow
        simp only [List.mem_append, List.mem_singleton] at hrow
        rcases hrow with h1 | h1
        · exact hrows row h1
        · rw [h1]
          exact hw
    · simp only [pure, Except.pure, Except.ok.injEq] at h
      rw [← h]
      exact hrows

/-- What a search that returned has recorded: in every round, the winner of a
playout of each initial candidate. -/
theorem searchRounds_winners (env : Env) (fuel : Nat) (s : ConnectFourState)
    (MODE : PlaythroughMode) (maxSeconds : ℚ) (CUTOFF : DecisionCutoff) (minIter : Int)
    (W : Player → Prop) (search : Search)
    (hcur : s._current_player ≠ Player.None) (hov : s.isOver = .ok false)
    (hbudget : ¬ maxSeconds < 1 / 10)
    (hplay : ∀ child ∈ (initialCandidates s).map Candidate.child,
      ∀ (n : Nat) (final : ConnectFourState) (n' : Nat),
        playthrough env.rand MODE child n = .ok (final, n') → W final.firstWinner)
    (h : searchRounds env fuel s MODE maxSeconds CUTOFF minIter = .ok search) :
    ∀ row ∈ search.winners, ∀ w ∈ row, W w := by
  obtain ⟨legal, hlegal, hchildren, _⟩ := childStates_initial s hcur
  unfold searchRounds at h
  simp only [hov, bind, Except.bind, Bool.false_eq_true, if_false, hbudget, hlegal,
    hchildren] at h
  exact roundsLoop_winners env MODE _ _ _ _ minIter W (initialCandidates s) hplay fuel _ search
    rfl (fun row hrow => absurd hrow (List.not_mem_nil _)) h

/-- After a search that returned, the score of candidate `i` is the number of
rounds minus twice the number of rounds whose playout of `i` the other player
won, reduced to the range of `int`. -/
theorem search_scores (s : ConnectFourState) (legal : List Int) (search : Search)
    (h5 : search.childStates =
      applyRounds s.currentPlayer (otherPlayer s) (initialCandidates s) search.winners)
    (h6 : (initialCandidates s).map Candidate.column = legal)
    (h9 : ∀ row ∈ search.winners, row.length = legal.length)
    (h10 : search.winners.length = search.iteration) :
    ∀ i : Nat, i < legal.length →
      ∃ cand : Candidate, search.childStates[i]? = some cand ∧
        legal[i]? = some cand.column ∧
        cand.score = wrapInt32 ((search.iteration : Int) -
          2 * (search.winners.countP (fun row => decide (winnerAt row i = otherPlayer s)) : Int))
    := by
  intro i hi
  have hrows : ∀ row ∈ search.winners, row.length = (initialCandidates s).length := by
    intro row hrow
    rw [h9 row hrow, ← h6, List.length_map]
  have hget := applyRounds_getElem s.currentPlayer (otherPlayer s) i search.winners
    (initialCandidates s) hrows
    (zero_scores_range (initialCandidates s) (initialCandidates_score s))
  have hi' : i < (initialCandidates s).length := by
    rw [← h6, List.length_map] at hi
    exact hi
  have hcol : legal[i]? = some ((initialCandidates s)[i]).column := by
    rw [← h6, List.getElem?_map, List.getElem?_eq_getElem hi']
    rfl
  have hzero : ((initialCandidates s)[i]).score = 0 :=
    initialCandidates_score s _ (List.getElem_mem _)
  rw [List.getElem?_eq_getElem hi', Option.map_some', ← h5] at hget
  refine ⟨_, hget, hcol, ?_⟩
  simp only [hzero, zero_add]
  rw [sum_scoreChange s.currentPlayer (otherPlayer s) (otherPlayer_ne s) i search.winners, h10]

/-- Every random playout from the candidate of `oneMoveState` fills column 2
and ends on the board of `drawnGame`, where nobody has won. -/
theorem oneMoveState_playouts (rand : Nat → Nat) :
    ∀ child ∈ (initialCandidates oneMoveState).map Candidate.child,
      ∀ (n : Nat) (final : ConnectFourState) (n' : Nat),
        playthrough rand PlaythroughMode.RANDOM child n = .ok (final, n') →
        final.firstWinner = Player.None := by
  have hchildren : (initialCandidates oneMoveState).map Candidate.child =
      [stateAfter (drawnGame.take 40)] := by decide
  have hov40 : (stateAfter (drawnGame.take 40)).isOver = .ok false := by decide
  have hcur40 : (stateAfter (drawnGame.take 40))._current_player ≠ Player.None := by decide
  have hcol40 : ∀ c : Fin 7, (stateAfter (drawnGame.take 40))._state 0 c = _EMPTY_STATE →
      childOf (stateAfter (drawnGame.take 40)) c = stateAfter (drawnGame.take 41) := by decide
  have hov41 : (stateAfter (drawnGame.take 41)).isOver = .ok false := by decide
  have hcur41 : (stateAfter (drawnGame.take 41))._current_player ≠ Player.None := by decide
  have hcol41 : ∀ c : Fin 7, (stateAfter (drawnGame.take 41))._state 0 c = _EMPTY_STATE →
      childOf (stateAfter (drawnGame.take 41)) c = stateAfter drawnGame := by decide
  have hov42 : (stateAfter drawnGame).isOver = .ok true := by decide
  have hwin : (stateAfter drawnGame).firstWinner = Player.None := by decide
  intro child hchild n final n' hrun
  rw [hchildren, List.mem_singleton] at hchild
  subst hchild
  obtain ⟨c, htop, hstep⟩ :=
    randomPlaythroughLoop_step rand 42 (stateAfter (drawnGame.take 40)) n hcur40 hov40
  obtain ⟨c', htop', hstep'⟩ :=
    randomPlaythroughLoop_step rand 41 (stateAfter (drawnGame.take 41)) (n + 1) hcur41 hov41
  have hlast : randomPlaythroughLoop rand (40 + 1) (stateAfter drawnGame) (n + 1 + 1) =
      .ok (stateAfter drawnGame, n + 1 + 1) := by
    rw [randomPlaythroughLoop]
    simp [hov42, bind, Except.bind, pure, Except.pure]
  have hall : playthrough rand PlaythroughMode.RANDOM (stateAfter (drawnGame.take 40)) n =
      .ok (stateAfter drawnGame, n + 1 + 1) := by
    rw [← hlast, ← hcol41 c' htop', ← hstep', ← hcol40 c htop, ← hstep]
    rfl
  rw [hall] at hrun
  simp only [Except.ok.injEq, Prod.mk.injEq] at hrun
  rw [← hrun.1]
  exact hwin

/-- C18 (as stated, refuted). In `oneMoveState` column 2 is the only legal
move and every playout of its candidate ends without a winner.  Under the
iteration cutoff with `MINIMUM_ITERATIONS = 2 ^ 31` the search makes `2 ^ 31`
rounds, none of them won by the other player, and the `int` score of the
candidate is then `-2 ^ 31`: the last `+= 1` leaves the range of `int`.  The
number of rounds minus twice the number of lost playouts is `2 ^ 31`, which is
above `INT_MAX`, so no value of an `int` score is equal to it. -/
theorem score_leaves_int_range :
    oneMoveState.isOver = .ok false ∧ oneMoveState.legalMoves = .ok [2] ∧
      ∃ (search : Search) (cand : Candidate),
        searchRounds sampleEnv 2147483648 oneMoveState PlaythroughMode.RANDOM 1
          DecisionCutoff.ITERATIONS 2147483648 = .ok search ∧
        search.iteration = 2147483648 ∧
        search.winners.countP
          (fun row => decide (winnerAt row 0 = otherPlayer oneMoveState)) = 0 ∧
        search.childStates[0]? = some cand ∧ cand.column = 2 ∧
        cand.score = -2147483648 ∧
        (2147483647 : Int) < (search.iteration : Int) -
          2 * (search.winners.countP
            (fun row => decide (winnerAt row 0 = otherPlayer oneMoveState)) : Int) ∧
        cand.score ≠ (search.iteration : Int) -
          2 * (search.winners.countP
            (fun row => decide (winnerAt row 0 = otherPlayer oneMoveState)) : Int) := by
  have hov : oneMoveState.isOver = .ok false := by decide
  have hlegal : oneMoveState.legalMoves = .ok [2] := by decide
  have hwf : WellFormed oneMoveState := by decide
  have hfire : cutoffFires sampleEnv 2147483648 1 DecisionCutoff.ITERATIONS 2147483648 :=
    ⟨2147483648, le_refl _, by decide⟩
  obtain ⟨legal, search, _, h1, _, h3, _, h5, h6, _, _, h9, h10, _, _, _, h14, _⟩ :=
    decideColumn_spec sampleEnv 2147483648 oneMoveState PlaythroughMode.RANDOM 1
      DecisionCutoff.ITERATIONS 2147483648 hwf hov (by norm_num) hfire
  have hsame : legal = [2] := by
    rw [hlegal] at h1
    exact (Except.ok.inj h1).symm
  subst hsame
  have hiter : search.iteration = 2147483648 := by
    have h := h14 rfl
    rw [max_eq_right (by norm_num)] at h
    exact_mod_cast h
  have hnone : ∀ row ∈ search.winners, ∀ w ∈ row, w = Player.None :=
    searchRounds_winners sampleEnv 2147483648 oneMoveState PlaythroughMode.RANDOM 1
      DecisionCutoff.ITERATIONS 2147483648 (fun w => w = Player.None) search hwf.1 hov
      (by norm_num) (oneMoveState_playouts sampleEnv.rand) h3
  have hother : Player.None ≠ otherPlayer oneMoveState := by decide
  have hcount : search.winners.countP
      (fun row => decide (winnerAt row 0 = otherPlayer oneMoveState)) = 0 := by
    rw [List.countP_eq_zero]
    intro row hrow
    simp only [decide_eq_true_eq]
    cases row with
    | nil => exact hother
    | cons w ws =>
      have hw : w = Player.None := hnone _ hrow w (List.mem_cons_self _ _)
      rw [hw]
      exact hother
  obtain ⟨cand, hc1, hc2, hc3⟩ := search_scores oneMoveState [2] search h5 h6 h9 h10 0 (by simp)
  have hcol : cand.column = 2 := by
    simp only [List.getElem?_cons_zero, Option.some.injEq] at hc2
    exact hc2.symm
  rw [hcount, hiter] at hc3
  have hscore : cand.score = -2147483648 := by
    rw [hc3]
    decide
  refine ⟨hov, hlegal, search, cand, h3, hiter, hcount, hc1, hcol, hscore, ?_, ?_⟩
  · rw [hcount, hiter]
    decide
  · rw [hscore, hcount, hiter]
    decide

/-- C18 (amended). The score change of a playout is `+1` when its terminal
`firstWinner` is the deciding player, `-1` when it is the other player and `+1`
when there is no winner; it is added to the `int` score of the candidate played
out, exactly so while the sum stays in the range of `int`, and nothing else
changes.  After a search of fewer than `2 ^ 31` rounds the candidates are the
initial ones changed in this way by the recorded winners, and the score of
candidate `i` is the number of rounds minus twice the number of rounds whose
playout of `i` the other player won. -/
theorem scores_count_playouts (env : Env) (fuel : Nat) (s : ConnectFourState)
    (MODE : PlaythroughMode) (maxSeconds : ℚ) (CUTOFF : DecisionCutoff) (minIter : Int)
    (hwf : WellFormed s) (hov : s.isOver = .ok false) (hbudget : ¬ maxSeconds < 1 / 10)
    (hfire : cutoffFires env fuel maxSeconds CUTOFF minIter) (hfuel : fuel < 2 ^ 31) :
    scoreChange s.currentPlayer (otherPlayer s) s.currentPlayer = 1 ∧
      scoreChange s.currentPlayer (otherPlayer s) (otherPlayer s) = -1 ∧
      scoreChange s.currentPlayer (otherPlayer s) Player.None = 1 ∧
      (∀ (cand : Candidate) (winner : Player),
        (bump s.currentPlayer (otherPlayer s) cand winner).column = cand.column ∧
        (bump s.currentPlayer (otherPlayer s) cand winner).child = cand.child ∧
        (bump s.currentPlayer (otherPlayer s) cand winner).score =
          wrapInt32 (cand.score + scoreChange s.currentPlayer (otherPlayer s) winner) ∧
        (-2 ^ 31 < cand.score → cand.score < 2 ^ 31 - 1 →
          (bump s.currentPlayer (otherPlayer s) cand winner).score =
            cand.score + scoreChange s.currentPlayer (otherPlayer s) winner)) ∧
      ∃ (legal : List Int) (search : Search),
        s.legalMoves = .ok legal ∧
        searchRounds env fuel s MODE maxSeconds CUTOFF minIter = .ok search ∧
        search.childStates =
          applyRounds s.currentPlayer (otherPlayer s) (initialCandidates s) search.winners ∧
        search.winners.length = search.iteration ∧ search.iteration < 2 ^ 31 ∧
        ∀ i : Nat, i < legal.length →
          ∃ cand : Candidate, search.childStates[i]? = some cand ∧
            legal[i]? = some cand.column ∧
            cand.score = (search.iteration : Int) -
              2 * (search.winners.countP (fun row => decide (winnerAt row i = otherPlayer s)) : Int)
    := by
  have hne := otherPlayer_ne s
  have hcur : s.currentPlayer ≠ Player.None := hwf.1
  have hoth : otherPlayer s ≠ Player.None := by
    unfold otherPlayer
    split <;> decide
  refine ⟨by simp [scoreChange], by simp [scoreChange, hne], ?_, ?_, ?_⟩
  · unfold scoreChange
    rw [if_neg (Ne.symm hcur), if_neg (Ne.symm hoth)]
  · intro cand winner
    refine ⟨rfl, rfl, rfl, ?_⟩
    intro hlow hhigh
    have hsc : -1 ≤ scoreChange s.currentPlayer (otherPlayer s) winner ∧
        scoreChange s.currentPlayer (otherPlayer s) winner ≤ 1 := by
      unfold scoreChange
      split
      · decide
      · split <;> decide
    exact wrapInt32_of_range _ (by omega) (by omega)
  · obtain ⟨legal, search, _, h1, _, h3, _, h5, h6, _, _, h9, h10, h11, _⟩ :=
      decideColumn_spec env fuel s MODE maxSeconds CUTOFF minIter hwf hov hbudget hfire
    have hiter : search.iteration < 2 ^ 31 := lt_of_le_of_lt h11 hfuel
    refine ⟨legal, search, h1, h3, h5, h10, hiter, ?_⟩
    intro i hi
    obtain ⟨cand, hc1, hc2, hc3⟩ := search_scores s legal search h5 h6 h9 h10 i hi
    refine ⟨cand, hc1, hc2, ?_⟩
    have hle : search.winners.countP (fun row => decide (winnerAt row i = otherPlayer s)) ≤
        search.iteration := by
      rw [← h10]
      exact List.countP_le_length _
    have hiter' : (search.iteration : Int) < 2 ^ 31 := by exact_mod_cast hiter
    have hle' : (search.winners.countP
        (fun row => decide (winnerAt row i = otherPlayer s)) : Int) ≤ (search.iteration : Int) := by
      exact_mod_cast hle
    rw [hc3]
    exact wrapInt32_of_range _ (by omega) (by omega)

/-- Instance of `scores_count_playouts`: the new game, two rounds under the
iteration cutoff. -/
theorem scores_count_playouts_witness :
    scoreChange ConnectFourState.new.currentPlayer (otherPlayer ConnectFourState.new)
        ConnectFourState.new.currentPlayer = 1 ∧
      scoreChange ConnectFourState.new.currentPlayer (otherPlayer ConnectFourState.new)
        (otherPlayer ConnectFourState.new) = -1 ∧
      scoreChange ConnectFourState.new.currentPlayer (otherPlayer ConnectFourState.new)
        Player.None = 1 ∧
      (∀ (cand : Candidate) (winner : Player),
        (bump ConnectFourState.new.currentPlayer (otherPlayer ConnectFourState.new) cand
          winner).column = cand.column ∧
        (bump ConnectFourState.new.currentPlayer (otherPlayer ConnectFourState.new) cand
          winner).child = cand.child ∧
        (bump ConnectFourState.new.currentPlayer (otherPlayer ConnectFourState.new) cand
          winner).score =
          wrapInt32 (cand.score + scoreChange ConnectFourState.new.currentPlayer
            (otherPlayer ConnectFourState.new) winner) ∧
        (-2 ^ 31 < cand.score → cand.score < 2 ^ 31 - 1 →
          (bump ConnectFourState.new.currentPlayer (otherPlayer ConnectFourState.new) cand
            winner).score =
            cand.score + scoreChange ConnectFourState.new.currentPlayer
              (otherPlayer ConnectFourState.new) winner)) ∧
      ∃ (legal : List Int) (search : Search),
        ConnectFourState.new.legalMoves = .ok legal ∧
        searchRounds sampleEnv 2 ConnectFourState.new PlaythroughMode.HEURISTIC 1
          DecisionCutoff.ITERATIONS 2 = .ok search ∧
        search.childStates =
          applyRounds ConnectFourState.new.currentPlayer (otherPlayer ConnectFourState.new)
            (initialCandidates ConnectFourState.new) search.winners ∧
        search.winners.length = search.iteration ∧ search.iteration < 2 ^ 31 ∧
        ∀ i : Nat, i < legal.length →
          ∃ cand : Candidate, search.childStates[i]? = some cand ∧
            legal[i]? = some cand.column ∧
            cand.score = (search.iteration : Int) -
              2 * (search.winners.countP
                (fun row => decide (winnerAt row i = otherPlayer ConnectFourState.new)) : Int) :=
  scores_count_playouts sampleEnv 2 ConnectFourState.new PlaythroughMode.HEURISTIC 1
    DecisionCutoff.ITERATIONS 2 wellFormed_new (by decide) (by norm_num)
    ⟨2, by decide, by decide⟩ (by norm_num)

/-- The decision after fewer than `2 ^ 31` rounds names a candidate of the
search whose score is the greatest. -/
theorem decideColumn_best (env : Env) (fuel : Nat) (s : ConnectFourState)
    (MODE : PlaythroughMode) (maxSeconds : ℚ) (CUTOFF : DecisionCutoff) (minIter : Int)
    (hwf : WellFormed s) (hov : s.isOver = .ok false) (hbudget : ¬ maxSeconds < 1 / 10)
    (hfire : cutoffFires env fuel maxSeconds CUTOFF minIter) (hfuel : fuel < 2 ^ 31) :
    ∃ (legal : List Int) (search : Search) (d : Decision),
      s.legalMoves = .ok legal ∧
      searchRounds env fuel s MODE maxSeconds CUTOFF minIter = .ok search ∧
      pMCTS_DecideColumn env fuel s MODE maxSeconds CUTOFF minIter = .ok d ∧
      search.childStates.map Candidate.column = legal ∧
      d.possibleColumns = (legal.length : Int) ∧
      d.playthroughs = (search.iteration : Int) * (legal.length : Int) ∧
      (firstTest env maxSeconds CUTOFF minIter = true → 0 < search.iteration) ∧
      (firstTest env maxSeconds CUTOFF minIter = false → search.iteration = 0) ∧
      ∃ best ∈ search.childStates, best.column = d.column ∧ best.score = d.score ∧
        ∀ cand ∈ search.childStates, cand.score ≤ d.score := by
  obtain ⟨legal, search, d, h1, h2, h3, h4, h5, h6, h7, h8, h9, h10, h11, h12, h13, _, h15, h16,
    h17, h18⟩ := decideColumn_spec env fuel s MODE maxSeconds CUTOFF minIter hwf hov hbudget hfire
  have hrows : ∀ row ∈ search.winners, row.length = (initialCandidates s).length := by
    intro row hrow
    rw [h9 row hrow, ← h6, List.length_map]
  have habove : ∀ cand ∈ search.childStates, INT_MIN < cand.score := by
    rw [h5]
    apply scores_above_INT_MIN _ _ _ _ hrows (initialCandidates_score s)
    rw [h10]
    omega
  have hne : search.childStates ≠ [] := by
    intro hnil
    rw [hnil] at h8
    exact h2 (List.length_eq_zero.mp h8.symm)
  obtain ⟨best, hbest, b1, b2, b3⟩ :=
    selectLoop_best env.rand search.childStates search.calls hne habove
  refine ⟨legal, search, d, h1, h3, h4, h7, h17, h18, h12, h13, best, hbest, ?_, ?_, ?_⟩
  · rw [h15]; exact b1
  · rw [h16]; exact b2
  · rw [h16]; exact b3

/-- C19. After fewer than `2 ^ 31` rounds, for every sequence of values of
`rand()`, the decision names the column of a candidate, which is a legal move
of the root; its score field is the score of that candidate; no candidate has
a higher score; and a candidate whose score is above that of every other
candidate is the one named. -/
theorem decision_is_best_candidate (env : Env) (fuel : Nat) (s : ConnectFourState)
    (MODE : PlaythroughMode) (maxSeconds : ℚ) (CUTOFF : DecisionCutoff) (minIter : Int)
    (hwf : WellFormed s) (hov : s.isOver = .ok false) (hbudget : ¬ maxSeconds < 1 / 10)
    (hfire : cutoffFires env fuel maxSeconds CUTOFF minIter) (hfuel : fuel < 2 ^ 31) :
    ∃ (legal : List Int) (search : Search) (d : Decision),
      s.legalMoves = .ok legal ∧
      searchRounds env fuel s MODE maxSeconds CUTOFF minIter = .ok search ∧
      pMCTS_DecideColumn env fuel s MODE maxSeconds CUTOFF minIter = .ok d ∧
      search.childStates.map Candidate.column = legal ∧
      d.column ∈ legal ∧
      (∃ best ∈ search.childStates, best.column = d.column ∧ best.score = d.score) ∧
      (∀ cand ∈ search.childStates, cand.score ≤ d.score) ∧
      (∀ cand ∈ search.childStates,
        (∀ other ∈ search.childStates, other ≠ cand → other.score < cand.score) →
        d.column = cand.column ∧ d.score = cand.score) := by
  obtain ⟨legal, search, d, h1, h2, h3, h4, _, _, _, _, best, hbest, b1, b2, b3⟩ :=
    decideColumn_best env fuel s MODE maxSeconds CUTOFF minIter hwf hov hbudget hfire hfuel
  refine ⟨legal, search, d, h1, h2, h3, h4, ?_, ⟨best, hbest, b1, b2⟩, b3, ?_⟩
  · rw [← h4, ← b1]
    exact List.mem_map_of_mem _ hbest
  · intro cand hcand huniq
    by_cases hsame : best = cand
    · rw [← hsame]
      exact ⟨b1.symm, b2.symm⟩
    · have hlt := huniq best hbest hsame
      have hle := b3 cand hcand
      rw [b2] at hlt
      omega

/-- Instance of `decision_is_best_candidate`: the new game, two rounds under
the iteration cutoff. -/
theorem decision_is_best_candidate_witness :
    ∃ (legal : List Int) (search : Search) (d : Decision),
      ConnectFourState.new.legalMoves = .ok legal ∧
      searchRounds sampleEnv 2 ConnectFourState.new PlaythroughMode.RANDOM 1
        DecisionCutoff.ITERATIONS 2 = .ok search ∧
      pMCTS_DecideColumn sampleEnv 2 ConnectFourState.new PlaythroughMode.RANDOM 1
        DecisionCutoff.ITERATIONS 2 = .ok d ∧
      search.childStates.map Candidate.column = legal ∧
      d.column ∈ legal ∧
      (∃ best ∈ search.childStates, best.column = d.column ∧ best.score = d.score) ∧
      (∀ cand ∈ search.childStates, cand.score ≤ d.score) ∧
      (∀ cand ∈ search.childStates,
        (∀ other ∈ search.childStates, other ≠ cand → other.score < cand.score) →
        d.column = cand.column ∧ d.score = cand.score) :=
  decision_is_best_candidate sampleEnv 2 ConnectFourState.new PlaythroughMode.RANDOM 1
    DecisionCutoff.ITERATIONS 2 wellFormed_new (by decide) (by norm_num)
    ⟨2, by decide, by decide⟩ (by norm_num)

/-- C20 (as stated, refuted). In `oneMoveState` the game is not over and
column 2 is the only legal move; under the iteration cutoff with
`MINIMUM_ITERATIONS = 0` the decision returns column 2 with a playthroughs
count of `0`, which is not at least one. -/
theorem single_move_without_playout :
    oneMoveState.isOver = .ok false ∧ oneMoveState.legalMoves = .ok [2] ∧
      ∃ d : Decision,
        pMCTS_DecideColumn sampleEnv 0 oneMoveState PlaythroughMode.RANDOM 1
          DecisionCutoff.ITERATIONS 0 = .ok d ∧
        d.column = 2 ∧ d.playthroughs = 0 ∧ ¬ (1 ≤ d.playthroughs) := by
  have hov : oneMoveState.isOver = .ok false := by decide
  have hlegal : oneMoveState.legalMoves = .ok [2] := by decide
  have hwf : WellFormed oneMoveState := by decide
  have hfire : cutoffFires sampleEnv 0 1 DecisionCutoff.ITERATIONS 0 := ⟨0, le_refl _, by decide⟩
  obtain ⟨legal, search, d, h1, _, h3, h4, _, h6, _, h8, best, hbest, b1, _, _⟩ :=
    decideColumn_best sampleEnv 0 oneMoveState PlaythroughMode.RANDOM 1
      DecisionCutoff.ITERATIONS 0 hwf hov (by norm_num) hfire (by norm_num)
  have hsame : legal = [2] := by
    rw [hlegal] at h1
    exact (Except.ok.inj h1).symm
  subst hsame
  have hzero : search.iteration = 0 := h8 (by decide)
  have hplay : d.playthroughs = 0 := by
    rw [h6, hzero]
    simp
  have hcol : d.column = 2 := by
    have hmem : best.column ∈ search.childStates.map Candidate.column :=
      List.mem_map_of_mem _ hbest
    rw [h4] at hmem
    rw [← b1]
    simpa using hmem
  refine ⟨hov, hlegal, d, h3, hcol, hplay, ?_⟩
  rw [hplay]
  decide

/-- C20 (amended). On a root that is not over and has exactly one legal move
`c`, with a budget of at least 0.1 seconds and a loop that ends after fewer
than `2 ^ 31` rounds, the decision returns with column `c`, whatever the cutoff
and the mode.  Its playthroughs count is at least one exactly when the first
test of the loop condition holds, and it is `0` otherwise: under the iteration
cutoff it is at least one when `MINIMUM_ITERATIONS ≥ 1`, under the time cutoff
when the first reading of the clock is within the budget. -/
theorem single_move_decision (env : Env) (fuel : Nat) (s : ConnectFourState)
    (MODE : PlaythroughMode) (maxSeconds : ℚ) (CUTOFF : DecisionCutoff) (minIter : Int)
    (c : Int) (hwf : WellFormed s) (hov : s.isOver = .ok false)
    (hone : s.legalMoves = .ok [c]) (hbudget : ¬ maxSeconds < 1 / 10)
    (hfire : cutoffFires env fuel maxSeconds CUTOFF minIter) (hfuel : fuel < 2 ^ 31) :
    ∃ d : Decision,
      pMCTS_DecideColumn env fuel s MODE maxSeconds CUTOFF minIter = .ok d ∧
      d.column = c ∧ d.possibleColumns = 1 ∧
      (1 ≤ d.playthroughs ∨ d.playthroughs = 0) ∧
      (CUTOFF = DecisionCutoff.ITERATIONS →
        (1 ≤ d.playthroughs ↔ 1 ≤ minIter) ∧ (d.playthroughs = 0 ↔ ¬ 1 ≤ minIter)) ∧
      (CUTOFF = DecisionCutoff.TIME →
        (1 ≤ d.playthroughs ↔ ((env.clock 0 : Int) : ℚ) ≤ env.timesThousand maxSeconds) ∧
        (d.playthroughs = 0 ↔ ¬ ((env.clock 0 : Int) : ℚ) ≤ env.timesThousand maxSeconds)) := by
  obtain ⟨legal, search, d, h1, _, h3, h4, h5, h6, h7, h8, best, hbest, b1, _, _⟩ :=
    decideColumn_best env fuel s MODE maxSeconds CUTOFF minIter hwf hov hbudget hfire hfuel
  have hsame : legal = [c] := by
    rw [hone] at h1
    exact (Except.ok.inj h1).symm
  subst hsame
  have hcol : d.column = c := by
    have hmem : best.column ∈ search.childStates.map Candidate.column :=
      List.mem_map_of_mem _ hbest
    rw [h4] at hmem
    rw [← b1]
    simpa using hmem
  have hplay : d.playthroughs = (search.iteration : Int) := by
    rw [h6]
    simp
  have hiff : 1 ≤ d.playthroughs ↔ firstTest env maxSeconds CUTOFF minIter = true := by
    rw [hplay]
    constructor
    · intro hpos
      by_contra hf
      have h0 := h8 (by simpa using hf)
      rw [h0] at hpos
      simp at hpos
    · intro ht
      have := h7 ht
      omega
  have hzero : d.playthroughs = 0 ↔ ¬ firstTest env maxSeconds CUTOFF minIter = true := by
    rw [← hiff, hplay]
    omega
  have hcases : 1 ≤ d.playthroughs ∨ d.playthroughs = 0 := by
    rw [hplay]
    omega
  refine ⟨d, h3, hcol, by simpa using h5, hcases, ?_, ?_⟩
  · intro hc
    have htest : firstTest env maxSeconds CUTOFF minIter = true ↔ 1 ≤ minIter := by
      subst hc
      simp only [firstTest, continues]
      simp
      omega
    rw [hiff, hzero, htest]
    exact ⟨Iff.rfl, Iff.rfl⟩
  · intro hc
    have htest : firstTest env maxSeconds CUTOFF minIter = true ↔
        ((env.clock 0 : Int) : ℚ) ≤ env.timesThousand maxSeconds := by
      subst hc
      simp [firstTest, continues]
    rw [hiff, hzero, htest]
    exact ⟨Iff.rfl, Iff.rfl⟩

/-- Instance of `single_move_decision`: `oneMoveState`, two rounds under the
iteration cutoff. -/
theorem single_move_decision_witness :
    ∃ d : Decision,
      pMCTS_DecideColumn sampleEnv 2 oneMoveState PlaythroughMode.HEURISTIC 1
        DecisionCutoff.ITERATIONS 2 = .ok d ∧
      d.column = 2 ∧ d.possibleColumns = 1 ∧
      (1 ≤ d.playthroughs ∨ d.playthroughs = 0) ∧
      (DecisionCutoff.ITERATIONS = DecisionCutoff.ITERATIONS →
        (1 ≤ d.playthroughs ↔ (1 : Int) ≤ 2) ∧ (d.playthroughs = 0 ↔ ¬ (1 : Int) ≤ 2)) ∧
      (DecisionCutoff.ITERATIONS = DecisionCutoff.TIME →
        (1 ≤ d.playthroughs ↔
          ((sampleEnv.clock 0 : Int) : ℚ) ≤ sampleEnv.timesThousand 1) ∧
        (d.playthroughs = 0 ↔
          ¬ ((sampleEnv.clock 0 : Int) : ℚ) ≤ sampleEnv.timesThousand 1)) :=
  single_move_decision sampleEnv 2 oneMoveState PlaythroughMode.HEURISTIC 1
    DecisionCutoff.ITERATIONS 2 2 (by decide) (by decide) (by decide) (by norm_num)
    ⟨2, by decide, by decide⟩ (by norm_num)

/-- The operator `operator==` holds exactly when the current players, the
grids and the last placed columns are equal and both last placed rows are not
`0`. -/
theorem operatorEq_iff (a b : ConnectFourState) :
    a.operatorEq b = true ↔
      a._current_player = b._current_player ∧ a._state = b._state ∧
      a._lastPlacedColumn = b._lastPlacedColumn ∧
      a._lastPlacedRow ≠ 0 ∧ b._lastPlacedRow ≠ 0 := by
  unfold operatorEq
  simp only [Bool.and_eq_true, decide_eq_true_eq]
  tauto

/-- C21 (evaluation). The last operand of `operator==` is
`_lastPlacedRow && rhs._lastPlacedRow`, not a comparison of the two rows.  The
state after six moves into column 0 has its last placed row equal to `0` and is
not equal to itself; and two states that differ only in the last placed row,
5 and 4, are equal. -/
theorem operatorEq_tests_rows_as_booleans :
    (stateAfter [0, 0, 0, 0, 0, 0]).lastPlacedRow = 0 ∧
      (stateAfter [0, 0, 0, 0, 0, 0]).operatorEq (stateAfter [0, 0, 0, 0, 0, 0]) = false ∧
      ((stateAfter [0]).operatorAssign (stateAfter [0, 1, 0])).lastPlacedRow = 5 ∧
      (stateAfter [0, 1, 0]).lastPlacedRow = 4 ∧
      ((stateAfter [0]).operatorAssign (stateAfter [0, 1, 0])).operatorEq
        (stateAfter [0, 1, 0]) = true := by
  decide

/-- C24. The function `randomElement` throws the empty-container error
(`std::runtime_error`) exactly when the container is empty; on a container
that is not empty it returns, for every value of `rand()`, an element of the
container. -/
theorem randomElement_total {T : Type} (rand : Nat → Nat) (calls : Nat) (container : List T) :
    (randomElement rand calls container = .error Error.runtimeError ↔ container = []) ∧
      (container ≠ [] →
        ∃ x ∈ container, randomElement rand calls container = .ok (x, calls + 1)) := by
  refine ⟨?_, randomElement_mem rand calls container⟩
  constructor
  · intro h
    by_contra hne
    obtain ⟨x, _, hx⟩ := randomElement_mem rand calls container hne
    rw [hx] at h
    cases h
  · intro h
    subst h
    rfl

/-- In a state without a winner, the test of `potentialWins` fails for every
player that is X or O and is not the current player. -/
theorem applyWins_other (s : ConnectFourState) (p : Player) (c : Fin 7)
    (hcur : s._current_player ≠ Player.None) (hnone : s._first_winner = Player.None)
    (hp : p ≠ s._current_player) (hpn : p ≠ Player.None)
    (htop : s._state 0 c = _EMPTY_STATE) : applyWins s p c = false := by
  obtain ⟨r, mark, _, _, _, _, _, happ⟩ := applyMove_playable s c hcur htop
  unfold applyWins
  rw [happ]
  simp only [firstWinner, afterMove, hnone, true_and, decide_eq_false_iff_not]
  split
  · exact fun h => hp h.symm
  · exact fun h => hpn h.symm

/-- C26. In a state without a winner, `potentialWins(p)` is empty for the
player `p` (X or O) who is not the current player, whatever the grid holds.
So the choice of the heuristic playout is `randomElement` on the winning
columns of the mover when there are some, and on all the legal moves
otherwise: the branch for the columns of the other player is never taken. -/
theorem potentialWins_other_player_empty (s : ConnectFourState) (p : Player)
    (rand : Nat → Nat) (calls : Nat)
    (hcur : s.currentPlayer ≠ Player.None) (hnone : s.firstWinner = Player.None)
    (hp : p ≠ s.currentPlayer) (hpn : p ≠ Player.None) :
    s.potentialWins p = .ok [] ∧
      heuristicColumn rand s calls =
        (do
          let wins ← s.potentialWins s.currentPlayer
          if !wins.isEmpty then randomElement rand calls wins
          else do
            let legal ← s.legalMoves
            randomElement rand calls legal) := by
  have hempty : ∀ q : Player, q ≠ s._current_player → q ≠ Player.None →
      s.potentialWins q = .ok [] := by
    intro q hq hqn
    rw [potentialWins_eq s q hcur]
    have hfilter : ((List.finRange 7).filter (fun c => s._state 0 c == _EMPTY_STATE)).filter
        (applyWins s q) = [] := by
      rw [List.filter_eq_nil_iff]
      intro c hc
      have htop : s._state 0 c = _EMPTY_STATE := by simpa using (List.mem_filter.mp hc).2
      rw [applyWins_other s q c hcur hnone hq hqn htop]
      exact Bool.false_ne_true
    rw [hfilter]
    rfl
  refine ⟨hempty p hp hpn, ?_⟩
  have hother : s.potentialWins (if s._current_player = Player.X then Player.O else Player.X)
      = .ok [] := by
    apply hempty
    · split
      · rename_i h
        rw [h]
        decide
      · rename_i h
        exact fun h' => h h'.symm
    · split <;> decide
  unfold heuristicColumn
  simp only [currentPlayer, potentialWins_eq s s._current_player hcur, bind, Except.bind]
  split
  · rfl
  · rw [hother]
    rfl

/-- Instance of `potentialWins_other_player_empty`: `threatState`, where O, who
is not to move, would complete four in column 3. -/
theorem potentialWins_other_player_empty_witness :
    threatState.potentialWins Player.O = .ok [] ∧
      heuristicColumn (fun n => n * 7 + 3) threatState 0 =
        (do
          let wins ← threatState.potentialWins threatState.currentPlayer
          if !wins.isEmpty then randomElement (fun n => n * 7 + 3) 0 wins
          else do
            let legal ← threatState.legalMoves
            randomElement (fun n => n * 7 + 3) 0 legal) :=
  potentialWins_other_player_empty threatState Player.O (fun n => n * 7 + 3) 0
    (by decide) (by decide) (by decide) (by decide)

/-- C27 (evaluation). The method `_deepcopy` assigns the current player, the
first winner and the grid, and leaves the last placed column and row of the
target as they were.  After `a = b` with `a` a new game and `b` the state after
a move into column 3, the last placed cell of `a` is still `(-1, -1)` while that
of `b` is `(3, 5)`, `a == b` is false and the two hashes differ. -/
theorem operatorAssign_keeps_last_placed :
    (ConnectFourState.new.operatorAssign (stateAfter [3]))._state = (stateAfter [3])._state ∧
      (ConnectFourState.new.operatorAssign (stateAfter [3])).currentPlayer =
        (stateAfter [3]).currentPlayer ∧
      (ConnectFourState.new.operatorAssign (stateAfter [3])).firstWinner =
        (stateAfter [3]).firstWinner ∧
      (ConnectFourState.new.operatorAssign (stateAfter [3])).lastPlacedColumn = -1 ∧
      (stateAfter [3]).lastPlacedColumn = 3 ∧
      (ConnectFourState.new.operatorAssign (stateAfter [3])).lastPlacedRow = -1 ∧
      (stateAfter [3]).lastPlacedRow = 5 ∧
      (ConnectFourState.new.operatorAssign (stateAfter [3])).operatorEq (stateAfter [3]) = false ∧
      hash (ConnectFourState.new.operatorAssign (stateAfter [3])) ≠ hash (stateAfter [3]) := by
  decide

/-- A property that holds of the new game and is kept by every successful
`playColumn` on a well-formed state holds of every state reached from the new
game by successful moves. -/
theorem playAll_induction (P : ConnectFourState → Prop) (hnew : P ConnectFourState.new)
    (hstep : ∀ (s s' : ConnectFourState) (column : Int), WellFormed s → P s →
      s.playColumn column = (.ok (), s') → P s') :
    ∀ (moves : List Int) (s : ConnectFourState),
      ConnectFourState.new.playAll moves = .ok s → P s := by
  have hgen : ∀ (moves : List Int) (s0 s : ConnectFourState), WellFormed s0 → P s0 →
      s0.playAll moves = .ok s → P s := by
    intro moves
    induction moves with
    | nil =>
      intro s0 s _ h0 h
      simp only [playAll, Except.ok.injEq] at h
      exact h ▸ h0
    | cons column rest ih =>
      intro s0 s hwf h0 h
      rw [playAll] at h
      rcases hp : s0.playColumn column with ⟨out, played⟩
      rw [hp] at h
      cases out with
      | error e => simp at h
      | ok u =>
        cases u
        exact ih played s (wellFormed_playColumn s0 played column hwf hp)
          (hstep s0 played column hwf h0 hp) h
  intro moves s h
  exact hgen moves _ s wellFormed_new hnew h

/-- A read that returns is a read of a cell of the grid. -/
theorem read_ok_inv (g : Grid) (row column : Int) (v : Char) (h : g.read row column = .ok v) :
    ∃ (r : Fin 6) (c : Fin 7), (r : Int) = row ∧ (c : Int) = column ∧ g r c = v := by
  unfold Grid.read at h
  by_cases hb : 0 ≤ row ∧ row < 6 ∧ 0 ≤ column ∧ column < 7
  · rw [dif_pos hb] at h
    refine ⟨⟨row.toNat, by omega⟩, ⟨column.toNat, by omega⟩, ?_, ?_, Except.ok.inj h⟩
    · simp only [Fin.val_mk]
      omega
    · simp only [Fin.val_mk]
      omega
  · rw [dif_neg hb] at h
    cases h

/-- A read of the grid with one more mark: the mark at its cell, the grid as
it was elsewhere. -/
theorem read_placed (g : Grid) (r : Fin 6) (c : Fin 7) (mark : Char) (row column : Int) :
    (placed g r c mark).read row column =
      if row = (r : Int) ∧ column = (c : Int) then .ok mark else g.read row column := by
  by_cases hb : 0 ≤ row ∧ row < 6 ∧ 0 ≤ column ∧ column < 7
  · obtain ⟨r', c', hr', hc', _⟩ :
        ∃ (r' : Fin 6) (c' : Fin 7), (r' : Int) = row ∧ (c' : Int) = column ∧ True :=
      ⟨⟨row.toNat, by omega⟩, ⟨column.toNat, by omega⟩, by simp only [Fin.val_mk]; omega,
        by simp only [Fin.val_mk]; omega, trivial⟩
    rw [← hr', ← hc', read_fin, read_fin]
    unfold placed
    by_cases he : r' = r ∧ c' = c
    · obtain ⟨h1, h2⟩ := he
      subst h1
      subst h2
      simp
    · have hne : ¬ ((r' : Int) = (r : Int) ∧ (c' : Int) = (c : Int)) := by
        rintro ⟨h1, h2⟩
        apply he
        constructor
        · exact Fin.ext (by exact_mod_cast h1)
        · exact Fin.ext (by exact_mod_cast h2)
      rw [if_neg he, if_neg hne]
  · have hne : ¬ (row = (r : Int) ∧ column = (c : Int)) := by
      rintro ⟨h1, h2⟩
      have := r.isLt
      have := c.isLt
      apply hb
      omega
    rw [if_neg hne, read_outside _ _ _ hb, read_outside _ _ _ hb]

/-- Four in a line through a cell is four in a line somewhere. -/
theorem fourAnywhere_of_fourThrough (g : Grid) (c : Fin 7) (r : Fin 6)
    (h : fourThrough g c r) : fourAnywhere g := by
  obtain ⟨hne, d, hd, k, hk⟩ := h
  have h0 := hk 0
  obtain ⟨r0, c0, hr0, hc0, hv⟩ := read_ok_inv g _ _ _ h0
  refine ⟨r0, c0, by rw [hv]; exact hne, d, hd, ?_⟩
  intro i
  have e1 : (r0 : Int) + (i : Int) * d.2 = (r : Int) + ((i : Int) - (k : Int)) * d.2 := by
    rw [hr0]
    simp only [Fin.val_zero, Nat.cast_zero]
    ring
  have e2 : (c0 : Int) + (i : Int) * d.1 = (c : Int) + ((i : Int) - (k : Int)) * d.1 := by
    rw [hc0]
    simp only [Fin.val_zero, Nat.cast_zero]
    ring
  rw [e1, e2, hv]
  exact hk i

/-- Four in a line stay four in a line when a mark is stored in an Empty
cell. -/
theorem fourAnywhere_placed (g : Grid) (r : Fin 6) (c : Fin 7) (mark : Char)
    (he : g r c = _EMPTY_STATE) (h : fourAnywhere g) : fourAnywhere (placed g r c mark) := by
  obtain ⟨r0, c0, hne, d, hd, hwin⟩ := h
  have hcell : ∀ i : Fin 4, ¬ ((r0 : Int) + (i : Int) * d.2 = (r : Int) ∧
      (c0 : Int) + (i : Int) * d.1 = (c : Int)) := by
    rintro i ⟨h1, h2⟩
    have hi := hwin i
    rw [h1, h2, read_fin] at hi
    exact hne ((Except.ok.inj hi).symm.trans he)
  have hstart : placed g r c mark r0 c0 = g r0 c0 := by
    have h0 := hcell 0
    simp only [Fin.val_zero, Nat.cast_zero, zero_mul, add_zero] at h0
    unfold placed
    rw [if_neg]
    rintro ⟨h1, h2⟩
    exact h0 ⟨by rw [h1], by rw [h2]⟩
  refine ⟨r0, c0, by rw [hstart]; exact hne, d, hd, ?_⟩
  intro i
  rw [read_placed, if_neg (hcell i), hstart]
  exact hwin i

/-- Four in a line after a mark is stored in an Empty cell were there before
or go through the new cell. -/
theorem fourAnywhere_placed_inv (g : Grid) (r : Fin 6) (c : Fin 7) (mark : Char)
    (hm : mark ≠ _EMPTY_STATE) (h : fourAnywhere (placed g r c mark)) :
    fourAnywhere g ∨ fourThrough (placed g r c mark) c r := by
  obtain ⟨r0, c0, hne, d, hd, hwin⟩ := h
  have hnew : placed g r c mark r c = mark := by simp [placed]
  by_cases hk : ∃ k : Fin 4, (r0 : Int) + (k : Int) * d.2 = (r : Int) ∧
      (c0 : Int) + (k : Int) * d.1 = (c : Int)
  · right
    obtain ⟨k, hk1, hk2⟩ := hk
    have hsame : placed g r c mark r0 c0 = placed g r c mark r c := by
      have hi := hwin k
      rw [hk1, hk2, read_fin] at hi
      exact (Except.ok.inj hi).symm
    refine ⟨by rw [hnew]; exact hm, d, hd, k, ?_⟩
    intro i
    have e1 : (r : Int) + ((i : Int) - (k : Int)) * d.2 = (r0 : Int) + (i : Int) * d.2 := by
      rw [← hk1]
      ring
    have e2 : (c : Int) + ((i : Int) - (k : Int)) * d.1 = (c0 : Int) + (i : Int) * d.1 := by
      rw [← hk2]
      ring
    rw [e1, e2, ← hsame]
    exact hwin i
  · left
    have hcell : ∀ i : Fin 4, ¬ ((r0 : Int) + (i : Int) * d.2 = (r : Int) ∧
        (c0 : Int) + (i : Int) * d.1 = (c : Int)) := fun i hi => hk ⟨i, hi⟩
    have hstart : placed g r c mark r0 c0 = g r0 c0 := by
      have h0 := hcell 0
      simp only [Fin.val_zero, Nat.cast_zero, zero_mul, add_zero] at h0
      unfold placed
      rw [if_neg]
      rintro ⟨h1, h2⟩
      exact h0 ⟨by rw [h1], by rw [h2]⟩
    refine ⟨r0, c0, by rw [← hstart]; exact hne, d, hd, ?_⟩
    intro i
    have hi := hwin i
    rw [read_placed, if_neg (hcell i), hstart] at hi
    exact hi

/-- In every state reached from the new game by successful moves there is a
first winner exactly when four equal marks lie in a line somewhere. -/
theorem winner_iff_fourAnywhere (moves : List Int) (s : ConnectFourState)
    (hreach : ConnectFourState.new.playAll moves = .ok s) :
    s._first_winner ≠ Player.None ↔ fourAnywhere s._state := by
  refine playAll_induction (fun s => s._first_winner ≠ Player.None ↔ fourAnywhere s._state)
    ?_ ?_ moves s hreach
  · constructor
    · intro h
      exact absurd rfl h
    · rintro ⟨r, c, hne, _⟩
      exact absurd rfl hne
  · intro s s' column _ ih hplay
    obtain ⟨c, r, mark, _, _, hcur, _, hne, hr1, _, rfl⟩ := playColumn_ok_inv s s' column hplay
    simp only [afterMove]
    by_cases hw : s._first_winner = Player.None
    · have hno : ¬ fourAnywhere s._state := fun h => (ih.mpr h) hw
      by_cases hf : fourThrough (placed s._state r c mark) c r
      · rw [if_pos ⟨hw, hf⟩]
        exact ⟨fun _ => fourAnywhere_of_fourThrough _ c r hf, fun _ => hcur⟩
      · rw [if_neg (fun h => hf h.2)]
        constructor
        · intro h
          exact absurd hw h
        · intro h
          rcases fourAnywhere_placed_inv s._state r c mark hne h with h1 | h1
          · exact absurd h1 hno
          · exact absurd h1 hf
    · rw [if_neg (fun h => hw h.1)]
      exact ⟨fun _ => fourAnywhere_placed s._state r c mark hr1 (ih.mp hw), fun _ => hw⟩

/-- For every state `legalMoves` is empty exactly when no column has an Empty
top cell. -/
theorem legalMoves_nil_iff (s : ConnectFourState) :
    s.legalMoves = .ok [] ↔ ∀ c : Fin 7, s._state 0 c ≠ _EMPTY_STATE := by
  rw [legalMoves_eq]
  simp only [Except.ok.injEq, List.map_eq_nil_iff, List.filter_eq_nil_iff, List.mem_finRange,
    true_implies, beq_iff_eq]

/-- C25. In every state reached from the new game by successful moves, played
on after a win or not, `isWon` is true exactly when four equal marks lie in a
line somewhere on the board.  So a full board without four in a line has
`isDraw` true and `isWon` false, and `isOver` returns true exactly when four
lie in a line or no legal move remains. -/
theorem isWon_iff_four_on_board (moves : List Int) (s : ConnectFourState)
    (hreach : ConnectFourState.new.playAll moves = .ok s) :
    (s.isWon = true ↔ fourAnywhere s._state) ∧
      ((∀ (r : Fin 6) (c : Fin 7), s._state r c ≠ _EMPTY_STATE) → ¬ fourAnywhere s._state →
        s.isDraw = .ok true ∧ s.isWon = false) ∧
      (∃ over : Bool, s.isOver = .ok over) ∧
      (s.isOver = .ok true ↔ (fourAnywhere s._state ∨ s.legalMoves = .ok [])) := by
  have hinv := winner_iff_fourAnywhere moves s hreach
  have hwon : s.isWon = true ↔ fourAnywhere s._state := by
    rw [← hinv]
    simp [isWon]
  refine ⟨hwon, ?_, ⟨_, isOver_eq s⟩, ?_⟩
  · intro hfull hno
    constructor
    · rw [isDraw_eq]
      simp only [Except.ok.injEq, decide_eq_true_eq]
      exact fun c => hfull 0 c
    · cases hb : s.isWon
      · rfl
      · exact absurd (hwon.mp hb) hno
  · rw [isOver_eq, legalMoves_nil_iff, ← hwon]
    simp only [Except.ok.injEq, Bool.or_eq_true, decide_eq_true_eq]

/-- Instance of `isWon_iff_four_on_board`: the board of `drawnGame`, which is
full and has no four in a line. -/
theorem isWon_iff_four_on_board_witness :
    (∀ (r : Fin 6) (c : Fin 7), (stateAfter drawnGame)._state r c ≠ _EMPTY_STATE) ∧
      ¬ fourAnywhere (stateAfter drawnGame)._state ∧
      (((stateAfter drawnGame).isWon = true ↔ fourAnywhere (stateAfter drawnGame)._state) ∧
        ((∀ (r : Fin 6) (c : Fin 7), (stateAfter drawnGame)._state r c ≠ _EMPTY_STATE) →
          ¬ fourAnywhere (stateAfter drawnGame)._state →
          (stateAfter drawnGame).isDraw = .ok true ∧ (stateAfter drawnGame).isWon = false) ∧
        (∃ over : Bool, (stateAfter drawnGame).isOver = .ok over) ∧
        ((stateAfter drawnGame).isOver = .ok true ↔
          (fourAnywhere (stateAfter drawnGame)._state ∨
            (stateAfter drawnGame).legalMoves = .ok []))) :=
  ⟨by decide, by decide,
    isWon_iff_four_on_board drawnGame (stateAfter drawnGame) (by decide)⟩

/-- The hash as an integer: the sum of the player code, the code of the grid
and the two last placed coordinates, reduced modulo `2 ^ 64`. -/
theorem hash_eq (s : ConnectFourState) :
    ((hash s : Nat) : Int) =
      (((playerCode s._current_player + stateCode s._state : Nat) : Int) +
        s._lastPlacedColumn + s._lastPlacedRow) % 2 ^ 64 := by
  unfold hash toSizeT currentPlayer ConnectFourState.state lastPlacedColumn lastPlacedRow
  generalize playerCode s._current_player + stateCode s._state = k
  omega

/-- In every state reached from the new game by successful moves the last
placed coordinates are `-1` or those of a cell, and the current player is X
after an even number of moves and O after an odd number. -/
theorem reachable_player_parity (moves : List Int) (s : ConnectFourState)
    (hreach : ConnectFourState.new.playAll moves = .ok s) :
    (-1 ≤ s._lastPlacedColumn ∧ s._lastPlacedColumn ≤ 6) ∧
      (-1 ≤ s._lastPlacedRow ∧ s._lastPlacedRow ≤ 5) ∧
      ((s._current_player = Player.X ∧ occupiedCells s._state % 2 = 0) ∨
        (s._current_player = Player.O ∧ occupiedCells s._state % 2 = 1)) := by
  refine playAll_induction
    (fun s => (-1 ≤ s._lastPlacedColumn ∧ s._lastPlacedColumn ≤ 6) ∧
      (-1 ≤ s._lastPlacedRow ∧ s._lastPlacedRow ≤ 5) ∧
      ((s._current_player = Player.X ∧ occupiedCells s._state % 2 = 0) ∨
        (s._current_player = Player.O ∧ occupiedCells s._state % 2 = 1)))
    ?_ ?_ moves s hreach
  · refine ⟨by decide, by decide, Or.inl ⟨rfl, ?_⟩⟩
    simp [occupiedCells, ConnectFourState.new, _defaultFill]
  · intro s s' column _ ih hplay
    obtain ⟨c, r, mark, _, _, _, _, hne, hr1, _, rfl⟩ := playColumn_ok_inv s s' column hplay
    have hocc := occupiedCells_placed s._state r c mark hr1 hne
    have hc := c.isLt
    have hr := r.isLt
    simp only [afterMove]
    refine ⟨by omega, by omega, ?_⟩
    rcases ih.2.2 with ⟨hp, hpar⟩ | ⟨hp, hpar⟩
    · right
      rw [hp, hocc]
      exact ⟨rfl, by omega⟩
    · left
      rw [hp, hocc]
      exact ⟨rfl, by omega⟩

/-- C22 (as stated, refuted). The games `orderA` and `orderB` reach the same
grid from the new game; the last placed cells are `(1, 4)` and `(0, 5)` in
(column, row), so the compared fields are not all equal, and the two hashes
are equal. -/
theorem hash_equal_for_different_last_cell :
    ConnectFourState.new.playAll orderA = .ok (stateAfter orderA) ∧
      ConnectFourState.new.playAll orderB = .ok (stateAfter orderB) ∧
      (stateAfter orderA)._state = (stateAfter orderB)._state ∧
      (stateAfter orderA).lastPlacedColumn = 1 ∧ (stateAfter orderA).lastPlacedRow = 4 ∧
      (stateAfter orderB).lastPlacedColumn = 0 ∧ (stateAfter orderB).lastPlacedRow = 5 ∧
      hash (stateAfter orderA) = hash (stateAfter orderB) ∧
      ¬ (hash (stateAfter orderA) = hash (stateAfter orderB) ↔
        ((stateAfter orderA).currentPlayer = (stateAfter orderB).currentPlayer ∧
          (stateAfter orderA).lastPlacedColumn = (stateAfter orderB).lastPlacedColumn ∧
          (stateAfter orderA).lastPlacedRow = (stateAfter orderB).lastPlacedRow)) := by
  decide

/-- C22 (amended). Two states reached from the new game that have the same
grid have the same current player, and their hashes are equal exactly when the
sums of the last placed column and row are equal; so they are equal when the
last placed columns and the last placed rows are. -/
theorem hash_equal_iff_same_coordinate_sum (moves₁ moves₂ : List Int)
    (s₁ s₂ : ConnectFourState)
    (h₁ : ConnectFourState.new.playAll moves₁ = .ok s₁)
    (h₂ : ConnectFourState.new.playAll moves₂ = .ok s₂)
    (hgrid : s₁._state = s₂._state) :
    s₁.currentPlayer = s₂.currentPlayer ∧
      (hash s₁ = hash s₂ ↔
        s₁.lastPlacedColumn + s₁.lastPlacedRow = s₂.lastPlacedColumn + s₂.lastPlacedRow) ∧
      (s₁.lastPlacedColumn = s₂.lastPlacedColumn → s₁.lastPlacedRow = s₂.lastPlacedRow →
        hash s₁ = hash s₂) := by
  obtain ⟨hc1, hr1, hp1⟩ := reachable_player_parity moves₁ s₁ h₁
  obtain ⟨hc2, hr2, hp2⟩ := reachable_player_parity moves₂ s₂ h₂
  have hplayer : s₁._current_player = s₂._current_player := by
    rw [hgrid] at hp1
    rcases hp1 with ⟨a1, a2⟩ | ⟨a1, a2⟩ <;> rcases hp2 with ⟨b1, b2⟩ | ⟨b1, b2⟩
    · rw [a1, b1]
    · omega
    · omega
    · rw [a1, b1]
  have hiff : hash s₁ = hash s₂ ↔
      s₁._lastPlacedColumn + s₁._lastPlacedRow = s₂._lastPlacedColumn + s₂._lastPlacedRow := by
    have e1 := hash_eq s₁
    have e2 := hash_eq s₂
    rw [hplayer, hgrid] at e1
    generalize playerCode s₂._current_player + stateCode s₂._state = k at e1 e2
    constructor
    · intro h
      rw [h] at e1
      omega
    · intro h
      have : ((hash s₁ : Nat) : Int) = ((hash s₂ : Nat) : Int) := by
        rw [e1, e2]
        congr 1
        omega
      exact_mod_cast this
  refine ⟨hplayer, hiff, ?_⟩
  intro hcol hrow
  apply hiff.mpr
  have a : s₁._lastPlacedColumn = s₂._lastPlacedColumn := hcol
  have b : s₁._lastPlacedRow = s₂._lastPlacedRow := hrow
  rw [a, b]

/-- Instance of `hash_equal_iff_same_coordinate_sum`: the games `orderA` and
`orderB`. -/
theorem hash_equal_iff_same_coordinate_sum_witness :
    (stateAfter orderA).currentPlayer = (stateAfter orderB).currentPlayer ∧
      (hash (stateAfter orderA) = hash (stateAfter orderB) ↔
        (stateAfter orderA).lastPlacedColumn + (stateAfter orderA).lastPlacedRow =
          (stateAfter orderB).lastPlacedColumn + (stateAfter orderB).lastPlacedRow) ∧
      ((stateAfter orderA).lastPlacedColumn = (stateAfter orderB).lastPlacedColumn →
        (stateAfter orderA).lastPlacedRow = (stateAfter orderB).lastPlacedRow →
        hash (stateAfter orderA) = hash (stateAfter orderB)) :=
  hash_equal_iff_same_coordinate_sum orderA orderB (stateAfter orderA) (stateAfter orderB)
    (by decide) (by decide) (by decide)

/-- A text without a comma is one field. -/
theorem splitCommas_single (field : List Char) (h : ',' ∉ field) :
    splitCommas field = [field] := by
  induction field with
  | nil => rfl
  | cons c rest ih =>
    have hc : c ≠ ',' := fun e => h (by rw [e]; exact List.mem_cons_self _ _)
    have hrest : ',' ∉ rest := fun e => h (List.mem_cons_of_mem _ e)
    rw [splitCommas, if_neg hc, ih hrest]

/-- A text without a comma before a comma is the first field of the line. -/
theorem splitCommas_append (field rest : List Char) (h : ',' ∉ field) :
    splitCommas (field ++ ',' :: rest) = field :: splitCommas rest := by
  induction field with
  | nil =>
    rw [List.nil_append, splitCommas, if_pos rfl]
  | cons c tail ih =>
    have hc : c ≠ ',' := fun e => h (by rw [e]; exact List.mem_cons_self _ _)
    have htail : ',' ∉ tail := fun e => h (List.mem_cons_of_mem _ e)
    rw [List.cons_append, splitCommas, if_neg hc, ih htail]

/-- The value of the character of a digit is the digit. -/
theorem digitValue_digitChar (n : Nat) (h : n < 10) : digitValue (Nat.digitChar n) = some n := by
  interval_cases n <;> decide

/-- The character of a digit is neither a comma nor a minus sign. -/
theorem digitChar_ne (n : Nat) (h : n < 10) : Nat.digitChar n ≠ ',' ∧ Nat.digitChar n ≠ '-' := by
  interval_cases n <;> decide

/-- Every character of `decimalDigits` is the character of a digit. -/
theorem decimalDigits_digits (fuel n : Nat) :
    ∀ c ∈ decimalDigits fuel n, ∃ k, k < 10 ∧ c = Nat.digitChar k := by
  induction fuel generalizing n with
  | zero =>
    intro c hc
    rw [decimalDigits, List.mem_singleton] at hc
    exact ⟨n % 10, Nat.mod_lt _ (by decide), hc⟩
  | succ fuel ih =>
    intro c hc
    rw [decimalDigits] at hc
    split at hc
    · rename_i hn
      rw [List.mem_singleton] at hc
      exact ⟨n, hn, hc⟩
    · rcases List.mem_append.mp hc with h1 | h1
      · exact ih _ c h1
      · rw [List.mem_singleton] at h1
        exact ⟨n % 10, Nat.mod_lt _ (by decide), h1⟩

/-- The text of `decimalDigits` is not empty. -/
theorem decimalDigits_ne_nil (fuel n : Nat) : decimalDigits fuel n ≠ [] := by
  cases fuel with
  | zero =>
    rw [decimalDigits]
    exact List.cons_ne_nil _ _
  | succ fuel =>
    rw [decimalDigits]
    split
    · exact List.cons_ne_nil _ _
    · exact List.append_ne_nil_of_right_ne_nil _ (List.cons_ne_nil _ _)

/-- Reading one more digit multiplies the value by ten and adds the digit. -/
theorem parseDigits_append (value : Nat) (text : List Char) (c : Char) (d : Nat)
    (hd : digitValue c = some d) :
    parseDigits value (text ++ [c]) = (parseDigits value text).map (fun v => v * 10 + d) := by
  induction text generalizing value with
  | nil =>
    simp only [List.nil_append, parseDigits, hd, Option.map_some']
  | cons c' rest ih =>
    simp only [List.cons_append, parseDigits]
    cases digitValue c' with
    | none => rfl
    | some d' => exact ih _

/-- The digits of `n` read back as `n`, when the fuel is enough for them. -/
theorem parseDigits_decimalDigits (fuel n : Nat) (h : n < 10 ^ (fuel + 1)) :
    parseDigits 0 (decimalDigits fuel n) = some n := by
  induction fuel generalizing n with
  | zero =>
    have hn : n < 10 := by simpa using h
    rw [decimalDigits, Nat.mod_eq_of_lt hn]
    simp only [parseDigits, digitValue_digitChar n hn, Nat.zero_mul, Nat.zero_add]
  | succ fuel ih =>
    rw [decimalDigits]
    split
    · rename_i hn
      simp only [parseDigits, digitValue_digitChar n hn, Nat.zero_mul, Nat.zero_add]
    · have hdiv : n / 10 < 10 ^ (fuel + 1) := by
        apply Nat.div_lt_of_lt_mul
        rw [← Nat.pow_succ']
        exact h
      rw [parseDigits_append 0 _ _ (n % 10)
        (digitValue_digitChar (n % 10) (Nat.mod_lt _ (by decide))), ih _ hdiv]
      simp only [Option.map_some', Option.some.injEq]
      omega

/-- A natural number is below the power of ten that `to_string` allows for. -/
theorem lt_ten_pow (n : Nat) : n < 10 ^ (n + 1) :=
  Nat.lt_of_lt_of_le (Nat.lt_pow_self (by decide) n) (Nat.pow_le_pow_right (by decide) (Nat.le_succ n))

/-- The text of `std::to_string` on an integer has no comma. -/
theorem to_string_no_comma (value : Int) : ',' ∉ to_string value := by
  have hd : ',' ∉ decimalDigits value.natAbs value.natAbs := by
    intro h
    obtain ⟨k, hk, e⟩ := decimalDigits_digits _ _ _ h
    exact (digitChar_ne k hk).1 e.symm
  unfold to_string
  split
  · intro h
    rcases List.mem_cons.mp h with h1 | h1
    · exact absurd h1 (by decide)
    · exact hd h1
  · exact hd

/-- The text of `std::to_string` on an integer reads back as the integer. -/
theorem parseInt_to_string (value : Int) : parseInt (to_string value) = some value := by
  have hparse := parseDigits_decimalDigits value.natAbs value.natAbs (lt_ten_pow _)
  unfold to_string
  split
  · rename_i hneg
    have habs : (value.natAbs : Int) = -value := Int.ofNat_natAbs_of_nonpos (le_of_lt hneg)
    simp only [parseInt, if_pos, if_neg (decimalDigits_ne_nil _ _), hparse, habs, neg_neg]
  · rename_i hpos
    rcases hds : decimalDigits value.natAbs value.natAbs with _ | ⟨c, rest⟩
    · exact absurd hds (decimalDigits_ne_nil _ _)
    · have hc : c ≠ '-' := by
        obtain ⟨k, hk, e⟩ := decimalDigits_digits value.natAbs value.natAbs c
          (by rw [hds]; exact List.mem_cons_self _ _)
        rw [e]
        exact (digitChar_ne k hk).2
      rw [hds] at hparse
      have habs : (value.natAbs : Int) = value := Int.natAbs_of_nonneg (not_lt.mp hpos)
      simp only [parseInt, if_neg hc, hparse, habs]

/-- The text of a player has no comma. -/
theorem playerToString_no_comma (player : Player) : ',' ∉ playerToString player := by
  cases player <;> decide

/-- C23. The line of `toCSV` has exactly ten fields between its commas, in the
order turn, player, mode, cutoff, column, possible columns, score,
playthroughs, time, playthroughs per second; and the first, fifth, seventh and
eighth fields, read as decimal integers, are the turn, the column, the score
and the playthroughs of the decision, negative values included.  The two
floating-point texts are taken without a comma, as `std::to_string` writes
them in the "C" locale. -/
theorem toCSV_fields_round_trip (text : DoubleText) (d : Decision)
    (htime : ',' ∉ text.ofTime d.time)
    (hquotient : ',' ∉ text.ofQuotient d.playthroughs d.time) :
    splitCommas (d.toCSV text) =
        [to_string d.turn, playerToString d.player,
          if d.mode = PlaythroughMode.RANDOM then "RANDOM".toList else "HEURISTIC".toList,
          if d.cutoff = DecisionCutoff.ITERATIONS then "ITERATIONS".toList else "TIME".toList,
          to_string d.column, to_string d.possibleColumns, to_string d.score,
          to_string d.playthroughs, text.ofTime d.time,
          text.ofQuotient d.playthroughs d.time] ∧
      (splitCommas (d.toCSV text)).length = 10 ∧
      ((splitCommas (d.toCSV text)).get? 0).bind parseInt = some d.turn ∧
      ((splitCommas (d.toCSV text)).get? 4).bind parseInt = some d.column ∧
      ((splitCommas (d.toCSV text)).get? 6).bind parseInt = some d.score ∧
      ((splitCommas (d.toCSV text)).get? 7).bind parseInt = some d.playthroughs := by
  have hmode : ',' ∉
      (if d.mode = PlaythroughMode.RANDOM then "RANDOM".toList else "HEURISTIC".toList) := by
    split <;> decide
  have hcutoff : ',' ∉
      (if d.cutoff = DecisionCutoff.ITERATIONS then "ITERATIONS".toList else "TIME".toList) := by
    split <;> decide
  have hsplit : splitCommas (d.toCSV text) =
      [to_string d.turn, playerToString d.player,
        if d.mode = PlaythroughMode.RANDOM then "RANDOM".toList else "HEURISTIC".toList,
        if d.cutoff = DecisionCutoff.ITERATIONS then "ITERATIONS".toList else "TIME".toList,
        to_string d.column, to_string d.possibleColumns, to_string d.score,
        to_string d.playthroughs, text.ofTime d.time,
        text.ofQuotient d.playthroughs d.time] := by
    unfold Decision.toCSV
    simp only [List.append_assoc, List.singleton_append, List.cons_append, List.nil_append]
    rw [splitCommas_append _ _ (to_string_no_comma _),
      splitCommas_append _ _ (playerToString_no_comma _),
      splitCommas_append _ _ hmode, splitCommas_append _ _ hcutoff,
      splitCommas_append _ _ (to_string_no_comma _),
      splitCommas_append _ _ (to_string_no_comma _),
      splitCommas_append _ _ (to_string_no_comma _),
      splitCommas_append _ _ (to_string_no_comma _),
      splitCommas_append _ _ htime, splitCommas_single _ hquotient]
  rw [hsplit]
  refine ⟨rfl, rfl, ?_, ?_, ?_, ?_⟩
  · exact parseInt_to_string _
  · exact parseInt_to_string _
  · exact parseInt_to_string _
  · exact parseInt_to_string _

/-- Instance of `toCSV_fields_round_trip`: `sampleDecision`, whose line is
`-1,X,HEURISTIC,TIME,3,7,-12,700,0.000000,0.000000`. -/
theorem toCSV_fields_round_trip_witness :
    sampleDecision.toCSV sampleText =
        "-1,X,HEURISTIC,TIME,3,7,-12,700,0.000000,0.000000".toList ∧
      (splitCommas (sampleDecision.toCSV sampleText) =
        [to_string sampleDecision.turn, playerToString sampleDecision.player,
          if sampleDecision.mode = PlaythroughMode.RANDOM then "RANDOM".toList
          else "HEURISTIC".toList,
          if sampleDecision.cutoff = DecisionCutoff.ITERATIONS then "ITERATIONS".toList
          else "TIME".toList,
          to_string sampleDecision.column, to_string sampleDecision.possibleColumns,
          to_string sampleDecision.score, to_string sampleDecision.playthroughs,
          sampleText.ofTime sampleDecision.time,
          sampleText.ofQuotient sampleDecision.playthroughs sampleDecision.time] ∧
      (splitCommas (sampleDecision.toCSV sampleText)).length = 10 ∧
      ((splitCommas (sampleDecision.toCSV sampleText)).get? 0).bind parseInt =
        some sampleDecision.turn ∧
      ((splitCommas (sampleDecision.toCSV sampleText)).get? 4).bind parseInt =
        some sampleDecision.column ∧
      ((splitCommas (sampleDecision.toCSV sampleText)).get? 6).bind parseInt =
        some sampleDecision.score ∧
      ((splitCommas (sampleDecision.toCSV sampleText)).get? 7).bind parseInt =
        some sampleDecision.playthroughs) :=
  ⟨by decide, toCSV_fields_round_trip sampleText sampleDecision (by decide) (by decide)⟩

end ConnectFour
